import Mathlib

/-!
# Students-results portal: grading, bulk-save reconciliation, aggregates and transcript

A shallow embedding of the grading function and of the teacher dashboard's bulk-save
loop of `src/portal.js`, together with the store operations the loop dispatches, of the
aggregates (the student dashboard's GPA, the term average, the class statistics) and of
the grouping and ordering of the transcript, of the roster and the prefill of the
marks, and of the subjects of a class.

* JavaScript numbers are modelled by `JSNum`: `NaN`, the two infinities and the finite
  values, the latter carried by their exact rational value. Sums are exact, and `Number`
  and `parseInt` give the exact value of a numeral, which is what binary64 gives on
  integers of magnitude below `2 ^ 53`; the quotient by the length of an array is rounded
  to binary64 (`roundBinary64`, round to nearest, ties to even). `+0` and `-0` are one
  value, as they are for `>=` and `===`.
* `marks` (a `Record<string, string>`) is a partial function from keys to strings, the
  entries of the object itself; `undefined` is `none`. The property read `marks[key]` is
  `marksGet`: the entry of the object if there is one, and else what the object inherits
  from `Object.prototype` under that key, carried by the text `Number` and `parseInt`
  convert it to.
* The mark input of the entry grid is an `<input type="number">`: the value it hands to
  `handleMarkChange` is the text typed if that is a valid floating-point number of the
  HTML standard, and the empty string otherwise.
* The `results` and `students` snapshots are lists in collection order. Every document of
  a snapshot carries the identifier of its document (line 1492), so `id` is not optional
  here; scores are numbers, as `interface StudentResult` types them.
* The calls the loop dispatches are applied to the store one after the other, in
  dispatch order.
* `toFixed` picks the multiple of `10 ^ -f` nearest to the value of the number, the larger
  one at a tie, and from `10 ^ 21` on writes the exponential form of the integer part. The
  number it is called on is the binary64 quotient, which can lie below a mean that is
  halfway between two decimals.
* An object used as a dictionary is the list of its own entries; `Object.keys` lists the
  keys that are array indices first, in ascending order, then the others in insertion
  order. `Array.prototype.sort` is a stable insertion sort in which a comparison of `NaN`
  counts as `0`; without a comparator strings are ordered by their UTF-16 code units.
* A rendered component is the data it shows: the panel or the cards, in order.
* A promise is the way it settles. The store settles each write as fulfilled, and then
  the write has taken effect, or as rejected, and then it has not; which of the two is a
  parameter of a run. An `await` on a rejected promise ends the async function there.
* `localeCompare` is a parameter: its order is left to the implementation and the
  locale, and the language asks only that it be a consistent comparison.
* `toLowerCase` is modelled on the letters `A` to `Z`. `toString` of a number is modelled
  on the integers; the digits of other finite values are a parameter.
-/

namespace Portal

/-! ## JavaScript numbers -/

/-- A JavaScript number value. -/
inductive JSNum where
  | nan
  | posInf
  | negInf
  | fin (q : ℚ)
  deriving DecidableEq

namespace JSNum

/-- The number denoted by an integer literal of the source, such as `90`. -/
def ofInt (z : Int) : JSNum := fin (z : ℚ)

/-- The comparison `a >= b`: false as soon as one side is `NaN`. -/
def ge : JSNum → JSNum → Bool
  | nan, _ => false
  | _, nan => false
  | posInf, _ => true
  | _, negInf => true
  | negInf, _ => false
  | _, posInf => false
  | fin a, fin b => decide (b ≤ a)

/-- Strict equality `a === b` on numbers: `NaN` is equal to nothing. -/
def strictEq : JSNum → JSNum → Bool
  | nan, _ => false
  | _, nan => false
  | a, b => decide (a = b)

/-- Strict inequality `a !== b` on numbers. -/
def strictNe (a b : JSNum) : Bool := !(strictEq a b)

/-- Unary minus. -/
def neg : JSNum → JSNum
  | nan => nan
  | posInf => negInf
  | negInf => posInf
  | fin q => fin (-q)

end JSNum

/-! ## `Number(string)`: the StringToNumber conversion of ECMAScript -/

/-- Code points of `WhiteSpace` and `LineTerminator`, which StringToNumber strips. -/
def isStrWhiteSpaceChar (c : Char) : Bool :=
  [0x09, 0x0A, 0x0B, 0x0C, 0x0D, 0x20, 0xA0, 0x1680, 0x2000, 0x2001, 0x2002, 0x2003,
   0x2004, 0x2005, 0x2006, 0x2007, 0x2008, 0x2009, 0x200A, 0x2028, 0x2029, 0x202F,
   0x205F, 0x3000, 0xFEFF].contains c.toNat

/-- Strip leading and trailing white space. -/
def trimStrWhiteSpace (cs : List Char) : List Char :=
  ((cs.dropWhile isStrWhiteSpaceChar).reverse.dropWhile isStrWhiteSpaceChar).reverse

/-- Value of a decimal digit. -/
def decDigit? (c : Char) : Option Nat :=
  if 48 ≤ c.toNat ∧ c.toNat ≤ 57 then some (c.toNat - 48) else none

/-- Value of a hexadecimal digit. -/
def hexDigit? (c : Char) : Option Nat :=
  if 48 ≤ c.toNat ∧ c.toNat ≤ 57 then some (c.toNat - 48)
  else if 97 ≤ c.toNat ∧ c.toNat ≤ 102 then some (c.toNat - 87)
  else if 65 ≤ c.toNat ∧ c.toNat ≤ 70 then some (c.toNat - 55)
  else none

/-- Value of an octal digit. -/
def octDigit? (c : Char) : Option Nat :=
  if 48 ≤ c.toNat ∧ c.toNat ≤ 55 then some (c.toNat - 48) else none

/-- Value of a binary digit. -/
def binDigit? (c : Char) : Option Nat :=
  if 48 ≤ c.toNat ∧ c.toNat ≤ 49 then some (c.toNat - 48) else none

/-- Read a run of digits in the given base onto an accumulator; `none` when a character
is not a digit. -/
def readDigits (digit? : Char → Option Nat) (base : Nat) : Nat → List Char → Option Nat
  | acc, [] => some acc
  | acc, c :: cs =>
    match digit? c with
    | some d => readDigits digit? base (acc * base + d) cs
    | none => none

/-- A non-empty run of digits in the given base, and nothing else. -/
def readNumeral (digit? : Char → Option Nat) (base : Nat) (cs : List Char) : Option Nat :=
  if cs.isEmpty then none else readDigits digit? base 0 cs

/-- The exponent part of a decimal literal, read to the end of the text: absent (`0`), or
`e`/`E`, an optional sign and at least one digit. -/
def readExponent : List Char → Option Int
  | [] => some 0
  | c :: cs =>
    if c = 'e' ∨ c = 'E' then
      match cs with
      | [] => none
      | s :: ds =>
        if s = '+' then (readNumeral decDigit? 10 ds).map Int.ofNat
        else if s = '-' then (readNumeral decDigit? 10 ds).map (fun n => -Int.ofNat n)
        else (readNumeral decDigit? 10 (s :: ds)).map Int.ofNat
    else none

/-- The rational `m * 10 ^ e`. -/
def scale10 (m : Nat) (e : Int) : ℚ :=
  if 0 ≤ e then ((m * 10 ^ e.toNat : Nat) : ℚ) else mkRat m (10 ^ (-e).toNat)

/-- An unsigned decimal literal: `Infinity`, or digits with an optional fraction and an
optional exponent, at least one digit before or after the point. -/
def readUnsignedDecimal (cs : List Char) : JSNum :=
  if cs = "Infinity".data then JSNum.posInf
  else
    let isDigit := fun c => (decDigit? c).isSome
    let intPart := cs.takeWhile isDigit
    let afterInt := cs.dropWhile isDigit
    let fracPart := match afterInt with
      | '.' :: r => r.takeWhile isDigit
      | _ => []
    let afterFrac := match afterInt with
      | '.' :: r => r.dropWhile isDigit
      | _ => afterInt
    if intPart.isEmpty && fracPart.isEmpty then JSNum.nan
    else
      match readDigits decDigit? 10 0 (intPart ++ fracPart), readExponent afterFrac with
      | some m, some e => JSNum.fin (scale10 m (e - fracPart.length))
      | _, _ => JSNum.nan

/-- The literal that remains once white space is stripped: empty (`0`), a `0x`, `0o` or
`0b` integer (unsigned), or an optionally signed decimal literal; anything else is `NaN`. -/
def readStrNumericLiteral : List Char → JSNum
  | [] => JSNum.fin 0
  | '0' :: 'x' :: ds => ((readNumeral hexDigit? 16 ds).map (fun n => JSNum.fin n)).getD JSNum.nan
  | '0' :: 'X' :: ds => ((readNumeral hexDigit? 16 ds).map (fun n => JSNum.fin n)).getD JSNum.nan
  | '0' :: 'o' :: ds => ((readNumeral octDigit? 8 ds).map (fun n => JSNum.fin n)).getD JSNum.nan
  | '0' :: 'O' :: ds => ((readNumeral octDigit? 8 ds).map (fun n => JSNum.fin n)).getD JSNum.nan
  | '0' :: 'b' :: ds => ((readNumeral binDigit? 2 ds).map (fun n => JSNum.fin n)).getD JSNum.nan
  | '0' :: 'B' :: ds => ((readNumeral binDigit? 2 ds).map (fun n => JSNum.fin n)).getD JSNum.nan
  | '+' :: cs => readUnsignedDecimal cs
  | '-' :: cs => JSNum.neg (readUnsignedDecimal cs)
  | cs => readUnsignedDecimal cs

/-- The built-in `Number` applied to a string. -/
def Number (s : String) : JSNum :=
  readStrNumericLiteral (trimStrWhiteSpace s.data)

/-! ## Records (`interface StudentResult`, `interface Student`) -/

/-- A stored result document, as the `results` snapshot holds it. -/
structure StudentResult where
  id : String
  studentName : String
  studentId : String
  level : String
  className : String
  subject : String
  score : JSNum
  grade : String
  term : String
  year : String
  createdAt : Option Nat
  deriving DecidableEq

/-- A stored student document. -/
structure Student where
  id : String
  name : String
  studentId : String
  level : String
  className : String
  email : Option String
  createdAt : Option Nat
  deriving DecidableEq

/-! ## Grading (`calculateGrade`, lines 166-173) -/

/-- The letter grade of a score. -/
def calculateGrade (score : JSNum) : String :=
  if score.ge (JSNum.ofInt 90) then "A+"
  else if score.ge (JSNum.ofInt 80) then "A"
  else if score.ge (JSNum.ofInt 70) then "B"
  else if score.ge (JSNum.ofInt 60) then "C"
  else if score.ge (JSNum.ofInt 50) then "D"
  else "F"

/-! ## The teacher dashboard's bulk save (`handleBulkSave`, lines 923-970) -/

/-- The component state that scopes one mark-entry session: `selectedLevel`,
`selectedClass`, `selectedSubject`, `selectedTerm`, `selectedYear`. -/
structure Selection where
  selectedLevel : String
  selectedClass : String
  selectedSubject : String
  selectedTerm : String
  selectedYear : String
  deriving DecidableEq

/-- The `marks` state: the own entries of the object, entered mark per `studentId`, `none`
for a key that is not set. -/
abbrev Marks := String → Option String

/-- The member of `Object.prototype` that a key names, if it names one, carried as the
text `ToString` gives for it (`Number` and `parseInt` of a function or an object read that
text): the eleven functions, and `Object.prototype` itself for `__proto__`. The text of a
built-in function is left to the engine; in every engine it is not empty and is no
numeral. -/
def objectPrototypeMember? (key : String) : Option String :=
  if key = "__proto__" then some "[object Object]"
  else if key = "constructor" then some "function Object() \x7b [native code] \x7d"
  else if key ∈ ["__defineGetter__", "__defineSetter__", "hasOwnProperty",
      "__lookupGetter__", "__lookupSetter__", "isPrototypeOf", "propertyIsEnumerable",
      "toString", "valueOf", "toLocaleString"] then
    some ("function " ++ key ++ "() \x7b [native code] \x7d")
  else none

/-- The property read `marks[key]` as the code uses it: the own entry when the key is set,
else the member of `Object.prototype` the key names, which is a function or an object and
so truthy, and which `Number` and `parseInt` read through its text; `none` is
`undefined`. -/
def marksGet (marks : Marks) (key : String) : Option String :=
  match marks key with
  | some value => some value
  | none => objectPrototypeMember? key

/-- The object literal `payload` of `handleBulkSave`, field by field. -/
structure Payload where
  studentName : String
  studentId : String
  level : String
  className : String
  subject : String
  term : String
  year : String
  score : JSNum
  grade : String
  deriving DecidableEq

/-- A call on one of the three callbacks the dashboard receives: `onSubmitResult(data)`
(a CREATE), `onUpdateResult(id, data)` (an UPDATE), `onDeleteResult(id)`. -/
inductive Op where
  | submit (data : Payload)
  | update (id : String) (data : Payload)
  | delete (id : String)
  deriving DecidableEq

/-- The payload a call carries, if it carries one. -/
def Op.payload? : Op → Option Payload
  | Op.submit data => some data
  | Op.update _ data => some data
  | Op.delete _ => none

/-- The predicate handed to `results.find` (lines 936-941). -/
def isExistingResult (sel : Selection) (student : Student) (r : StudentResult) : Bool :=
  r.studentId == student.studentId &&
  r.subject == sel.selectedSubject &&
  r.term == sel.selectedTerm &&
  r.year == sel.selectedYear

/-- The `payload` built for a student and a parsed score (lines 943-953). -/
def mkPayload (sel : Selection) (student : Student) (scoreNum : JSNum) : Payload :=
  { studentName := student.name
    studentId := student.studentId
    level := sel.selectedLevel
    className := sel.selectedClass
    subject := sel.selectedSubject
    term := sel.selectedTerm
    year := sel.selectedYear
    score := scoreNum
    grade := calculateGrade scoreNum }

/-- One iteration of `classStudents.forEach`: the calls it pushes onto `promises`. What
`marks[student.studentId]` reads is falsy, and ends the iteration, when it is `undefined`
or the empty string. -/
def bulkSaveStep (sel : Selection) (marks : Marks) (results : List StudentResult)
    (student : Student) : List Op :=
  match marksGet marks student.studentId with
  | none => []
  | some scoreStr =>
    if scoreStr = "" then []
    else
      let scoreNum := Number scoreStr
      let existingResult := results.find? (isExistingResult sel student)
      let payload := mkPayload sel student scoreNum
      match existingResult with
      | some r => if r.score.strictNe scoreNum then [Op.update r.id payload] else []
      | none => [Op.submit payload]

/-- The `promises` array of `handleBulkSave` when the loop has run: the calls dispatched,
in dispatch order. -/
def handleBulkSaveOps (sel : Selection) (classStudents : List Student) (marks : Marks)
    (results : List StudentResult) : List Op :=
  classStudents.foldl (fun promises student => promises ++ bulkSaveStep sel marks results student) []

/-! ## The entry grid (lines 1116-1123) and `handleMarkChange` (lines 915-920) -/

/-- The exponent of a valid floating-point number of the HTML standard, or nothing: `e` or
`E`, an optional sign, and one or more digits. -/
def isExponentPart (cs : List Char) : Bool :=
  match cs with
  | [] => true
  | c :: rest =>
    (c == 'e' || c == 'E') &&
      (let ds := if rest.head? = some '-' ∨ rest.head? = some '+' then rest.tail else rest
       !ds.isEmpty && ds.all (fun d => (decDigit? d).isSome))

/-- A valid floating-point number of the HTML standard: an optional `-`; then digits, or
digits, a point and digits, or a point and digits; then an optional exponent. -/
def isValidFloatingPointNumber (s : String) : Bool :=
  let cs := if s.data.head? = some '-' then s.data.tail else s.data
  let rest := cs.dropWhile (fun d => (decDigit? d).isSome)
  if rest.head? = some '.' then
    !(rest.tail.takeWhile (fun d => (decDigit? d).isSome)).isEmpty &&
      isExponentPart (rest.tail.dropWhile (fun d => (decDigit? d).isSome))
  else !(cs.takeWhile (fun d => (decDigit? d).isSome)).isEmpty && isExponentPart rest

/-- The `value` of an `<input type="number">` whose field holds the text typed: by the value
sanitization algorithm of the HTML standard it is the empty string unless the text is a
valid floating-point number. -/
def numberInputValue (typed : String) : String :=
  if isValidFloatingPointNumber typed then typed else ""

/-- The state update of `handleMarkChange(studentId, value)`: `{ ...prev, [studentId]: value }`. -/
def handleMarkChange (prev : Marks) (studentId value : String) : Marks :=
  fun key => if key = studentId then some value else prev key

/-- The marks once a text has been typed into the input of a student: `onChange` hands
`e.target.value` to `handleMarkChange`. -/
def onChangeMark (prev : Marks) (student : Student) (typed : String) : Marks :=
  handleMarkChange prev student.studentId (numberInputValue typed)

/-! ## The store behind the callbacks (`handleUploadResult`, `handleUpdateResult`,
`handleDeleteResult`, lines 1528-1541) -/

/-- What the document store decides on its own: the identifier of a new document and
the server timestamp, each as a function of the collection it is added to. -/
structure Firestore where
  autoId : List StudentResult → String
  serverTimestamp : List StudentResult → Nat

/-- The document `{ ...data, createdAt: serverTimestamp() }` under the identifier the store
assigns to it. -/
def newDoc (db : Firestore) (data : Payload) (docs : List StudentResult) : StudentResult :=
  { id := db.autoId docs
    studentName := data.studentName
    studentId := data.studentId
    level := data.level
    className := data.className
    subject := data.subject
    score := data.score
    grade := data.grade
    term := data.term
    year := data.year
    createdAt := some (db.serverTimestamp docs) }

/-- The call `addDoc(results, { ...data, createdAt: serverTimestamp() })`: a new document at
the end of the collection. -/
def addDoc (db : Firestore) (data : Payload) (docs : List StudentResult) : List StudentResult :=
  docs ++ [newDoc db data docs]

/-- The fields of `data` written over those of a document; `id` and `createdAt` are not
fields of a payload. -/
def mergeFields (r : StudentResult) (data : Payload) : StudentResult :=
  { r with
    studentName := data.studentName
    studentId := data.studentId
    level := data.level
    className := data.className
    subject := data.subject
    score := data.score
    grade := data.grade
    term := data.term
    year := data.year }

/-- The call `updateDoc(doc(results, id), data)`: a field merge into the document `id`. -/
def updateDoc (id : String) (data : Payload) (docs : List StudentResult) : List StudentResult :=
  docs.map (fun r => if r.id = id then mergeFields r data else r)

/-- The call `deleteDoc(doc(results, id))`. -/
def deleteDoc (id : String) (docs : List StudentResult) : List StudentResult :=
  docs.filter (fun r => r.id != id)

/-- App-level `handleUploadResult`: no write without a signed-in `user`. -/
def handleUploadResult (user : Option String) (db : Firestore) (data : Payload)
    (docs : List StudentResult) : List StudentResult :=
  if user.isNone then docs else addDoc db data docs

/-- App-level `handleUpdateResult`: no write without a signed-in `user`. -/
def handleUpdateResult (user : Option String) (id : String) (data : Payload)
    (docs : List StudentResult) : List StudentResult :=
  if user.isNone then docs else updateDoc id data docs

/-- App-level `handleDeleteResult`: no write without a signed-in `user`. -/
def handleDeleteResult (user : Option String) (id : String)
    (docs : List StudentResult) : List StudentResult :=
  if user.isNone then docs else deleteDoc id docs

/-- The effect of one dispatched call on the stored collection. -/
def applyOp (user : Option String) (db : Firestore) (docs : List StudentResult) :
    Op → List StudentResult
  | Op.submit data => handleUploadResult user db data docs
  | Op.update id data => handleUpdateResult user id data docs
  | Op.delete id => handleDeleteResult user id docs

/-- The stored collection once every dispatched call has taken effect, in dispatch
order. -/
def applyOps (user : Option String) (db : Firestore) (docs : List StudentResult)
    (ops : List Op) : List StudentResult :=
  ops.foldl (applyOp user db) docs

/-- The collection after a bulk save over the snapshot `results`. -/
def afterBulkSave (user : Option String) (db : Firestore) (sel : Selection)
    (classStudents : List Student) (marks : Marks) (results : List StudentResult) :
    List StudentResult :=
  applyOps user db results (handleBulkSaveOps sel classStudents marks results)

/-- The identity key of a stored result: `(studentId, subject, term, year)`. -/
def identityKey (r : StudentResult) : String × String × String × String :=
  (r.studentId, r.subject, r.term, r.year)

/-- The identity key under which a save files a result of the student. -/
def studentKey (sel : Selection) (student : Student) : String × String × String × String :=
  (student.studentId, sel.selectedSubject, sel.selectedTerm, sel.selectedYear)

/-- How a collection `cur`, reached from the snapshot `results` by the calls of the
students `done`, relates to the snapshot: documents keep under their identifier the key
they had, the snapshot's identifiers are still there, a student dealt with finds the
entered mark as the score of the first document under the key, the first document under
a key is the one it was and carries its old score or the mark entered for the key, and
under a key the snapshot did not hold every document carries the mark entered for it. -/
structure Tracks (sel : Selection) (marks : Marks) (results : List StudentResult)
    (done : List Student) (cur : List StudentResult) : Prop where
  keyOfId : ∀ y ∈ cur, ∀ r ∈ results, y.id = r.id → identityKey y = identityKey r
  idsKept : ∀ r ∈ results, r.id ∈ cur.map StudentResult.id
  settled : ∀ s ∈ done, ∀ m, marksGet marks s.studentId = some m → m ≠ "" →
    ∃ x, cur.find? (isExistingResult sel s) = some x ∧ x.score = Number m
  first : ∀ (s : Student) (r : StudentResult),
    results.find? (isExistingResult sel s) = some r →
    ∃ x, cur.find? (isExistingResult sel s) = some x ∧ x.id = r.id ∧
      (x.score = r.score ∨ ∃ m, marksGet marks s.studentId = some m ∧ m ≠ "" ∧ x.score = Number m)
  created : ∀ (s : Student), results.find? (isExistingResult sel s) = none →
    ∀ x ∈ cur, isExistingResult sel s x = true →
      ∃ m, marksGet marks s.studentId = some m ∧ m ≠ "" ∧ x.score = Number m

/-- An identifier generator for examples: longer than every identifier in use. -/
def longerId (docs : List StudentResult) : String :=
  String.mk (List.replicate (docs.foldr (fun r n => max r.id.length n) 0 + 1) (Char.ofNat 100))

/-- A store for examples: `longerId` identifiers and a constant clock. -/
def exampleStore : Firestore :=
  { autoId := longerId, serverTimestamp := fun docs => docs.length }

/-! ## Example data -/

/-- The selection used in examples. -/
def exampleSel : Selection :=
  { selectedLevel := "ZJC", selectedClass := "1A", selectedSubject := "Mathematics",
    selectedTerm := "Term 1", selectedYear := "2025" }

/-- A student of class 1A. -/
def studentA : Student :=
  { id := "sa", name := "Ada", studentId := "ST-001", level := "ZJC", className := "1A",
    email := none, createdAt := none }

/-- Another student of class 1A. -/
def studentB : Student :=
  { id := "sb", name := "Ben", studentId := "ST-002", level := "ZJC", className := "1A",
    email := none, createdAt := none }

/-- The marks `{ "ST-001": "70", "ST-002": "85" }`. -/
def exampleMarks : Marks := fun k =>
  if k = "ST-001" then some "70" else if k = "ST-002" then some "85" else none

/-- Student A's stored Mathematics result for Term 1 of 2025, with a given score. -/
def resultA (score : Int) : StudentResult :=
  { id := "r1", studentName := "Ada", studentId := "ST-001", level := "ZJC", className := "1A",
    subject := "Mathematics", score := JSNum.ofInt score,
    grade := calculateGrade (JSNum.ofInt score), term := "Term 1", year := "2025",
    createdAt := some 1 }

/-- A stored result of another student, which no example roster student matches. -/
def resultOther : StudentResult :=
  { id := "r0", studentName := "Cy", studentId := "ST-003", level := "ZJC", className := "1B",
    subject := "Mathematics", score := JSNum.ofInt 40, grade := "F", term := "Term 1",
    year := "2025", createdAt := some 0 }

/-- A stored result under student A's key whose name, level, class and grade are not what
a save would write now. -/
def resultStale : StudentResult :=
  { id := "r1", studentName := "Ada L.", studentId := "ST-001", level := "O Level",
    className := "3 Arts", subject := "Mathematics", score := JSNum.ofInt 70, grade := "A",
    term := "Term 1", year := "2025", createdAt := some 1 }

/-- The marks `{ "ST-001": "" }`. -/
def blankMarks : Marks := fun k => if k = "ST-001" then some "" else none

/-- The marks `{}`: no key is set. -/
def emptyMarks : Marks := fun _ => none

/-- A student of class 1A whose `studentId`, typed into the free-text field of the
registration form (line 1317), is `constructor`. -/
def studentConstructor : Student :=
  { id := "sc", name := "Con", studentId := "constructor", level := "ZJC", className := "1A",
    email := none, createdAt := none }

/-- A stored result under student A's key filed under another level and class, with a
score that is not the entered one. -/
def resultElsewhere : StudentResult :=
  { id := "r9", studentName := "Ada", studentId := "ST-001", level := "O Level",
    className := "3 Arts", subject := "Mathematics", score := JSNum.ofInt 65, grade := "C",
    term := "Term 1", year := "2025", createdAt := some 1 }

/-- A stored result under student A's key filed under class 1B of the same level. -/
def resultOtherClass : StudentResult :=
  { id := "r7", studentName := "Ada", studentId := "ST-001", level := "ZJC",
    className := "1B", subject := "Mathematics", score := JSNum.ofInt 55, grade := "D",
    term := "Term 1", year := "2025", createdAt := some 1 }

/-! ## The binary64 value of a quotient -/

/-- The integer nearest to a rational that is not negative, the even one of two. -/
def roundHalfEven (x : ℚ) : ℕ :=
  let f := ⌊x⌋₊
  if x - f < 1 / 2 then f
  else if 1 / 2 < x - f then f + 1
  else if f % 2 = 0 then f else f + 1

/-- The binary64 value of a real number (IEEE 754 round to nearest, ties to even): the
multiple of the unit in the last place of its binade that is nearest to it, the unit being
`2 ^ (e - 52)` for a magnitude in `[2 ^ e, 2 ^ (e + 1))` and `2 ^ -1074` below `2 ^ -1022`;
an infinity when that multiple is `2 ^ 1024`. -/
def roundBinary64 (q : ℚ) : JSNum :=
  if q = 0 then JSNum.fin 0
  else
    let e := max (Int.log 2 |q|) (-1022)
    let ulp : ℚ := (2 : ℚ) ^ (e - 52)
    let v := (roundHalfEven (|q| / ulp) : ℚ) * ulp
    if (2 : ℚ) ^ (1024 : ℕ) ≤ v then (if q < 0 then JSNum.negInf else JSNum.posInf)
    else JSNum.fin (if q < 0 then -v else v)

/-! ## Arithmetic and formatting of numbers (`+`, `/`, `Math.max`, `Math.min`, `toFixed`,
`parseInt`) -/

namespace JSNum

/-- The sum `a + b`. -/
def add : JSNum → JSNum → JSNum
  | nan, _ => nan
  | _, nan => nan
  | posInf, negInf => nan
  | negInf, posInf => nan
  | posInf, _ => posInf
  | negInf, _ => negInf
  | _, posInf => posInf
  | _, negInf => negInf
  | fin a, fin b => fin (a + b)

/-- The difference `a - b`. -/
def sub (a b : JSNum) : JSNum := add a (neg b)

/-- The quotient `a / n` of a number by the `length` of an array: the binary64 value of the
exact quotient. -/
def divLength : JSNum → Nat → JSNum
  | nan, _ => nan
  | posInf, _ => posInf
  | negInf, _ => negInf
  | fin q, n =>
    if n = 0 then (if q = 0 then nan else if 0 < q then posInf else negInf)
    else roundBinary64 (q / (n : ℚ))

/-- The comparison `a > 0`. -/
def isPositive : JSNum → Bool
  | posInf => true
  | fin q => decide (0 < q)
  | _ => false

/-- The larger of two numbers as `Math.max` takes it: `NaN` when one of them is. -/
def max2 (a b : JSNum) : JSNum :=
  match a, b with
  | nan, _ => nan
  | _, nan => nan
  | a, b => if a.ge b then a else b

/-- The smaller of two numbers as `Math.min` takes it: `NaN` when one of them is. -/
def min2 (a b : JSNum) : JSNum :=
  match a, b with
  | nan, _ => nan
  | _, nan => nan
  | a, b => if b.ge a then a else b

end JSNum

/-- The call `Math.max(...xs)`: `-Infinity` on no argument. -/
def mathMax (xs : List JSNum) : JSNum := xs.foldl JSNum.max2 JSNum.negInf

/-- The call `Math.min(...xs)`: `Infinity` on no argument. -/
def mathMin (xs : List JSNum) : JSNum := xs.foldl JSNum.min2 JSNum.posInf

/-- The digits of `n` in fixed notation with `f` digits after the point: the decimal
digits of `n`, with zeros in front until there are more than `f`, and a point before the
last `f` of them. -/
def fixedDigits (n f : Nat) : List Char :=
  let m := Nat.toDigits 10 n
  if f = 0 then m
  else
    let z := List.replicate (f + 1 - m.length) '0' ++ m
    z.take (z.length - f) ++ '.' :: z.drop (z.length - f)

/-- A value of at least `10 ^ 21` in the exponential notation of `Number::toString`, from
the digits of its integer part: one digit, the further ones up to the last that is not
zero after a point, then `e+` and the exponent. -/
def exponentialDigits (a : ℚ) : List Char :=
  let ds := Nat.toDigits 10 ⌊a⌋₊
  let sig := (ds.reverse.dropWhile (fun c => c == '0')).reverse
  match sig with
  | [] => ds
  | [d] => d :: 'e' :: '+' :: Nat.toDigits 10 (ds.length - 1)
  | d :: rest => d :: '.' :: rest ++ 'e' :: '+' :: Nat.toDigits 10 (ds.length - 1)

/-- The method `x.toFixed(fractionDigits)`: for a finite `x` below `10 ^ 21` in magnitude the
integer `n` with `n / 10 ^ fractionDigits` nearest to the magnitude of `x`, the larger one of
two, in fixed notation, after a minus sign when `x` is negative. -/
def toFixed (x : JSNum) (fractionDigits : Nat) : String :=
  match x with
  | JSNum.nan => "NaN"
  | JSNum.posInf => "Infinity"
  | JSNum.negInf => "-Infinity"
  | JSNum.fin q =>
    let s := if q < 0 then ['-'] else []
    if (10 : ℚ) ^ 21 ≤ |q| then String.mk (s ++ exponentialDigits |q|)
    else String.mk (s ++ fixedDigits ⌊|q| * 10 ^ fractionDigits + 1 / 2⌋₊ fractionDigits)

/-- The function `parseInt(string)` without a radix: leading white space is dropped, then
an optional sign, then `0x` or `0X` switches to radix 16, and the longest run of digits is
read; `NaN` when there is none. -/
def parseInt (s : String) : JSNum :=
  let trimmed := s.data.dropWhile isStrWhiteSpaceChar
  let negative := trimmed.head? = some '-'
  let unsigned :=
    if trimmed.head? = some '+' ∨ trimmed.head? = some '-' then trimmed.tail else trimmed
  let hex := unsigned.take 2 = ['0', 'x'] ∨ unsigned.take 2 = ['0', 'X']
  let body := if hex then unsigned.drop 2 else unsigned
  let digit? := if hex then hexDigit? else decDigit?
  let z := body.takeWhile (fun c => (digit? c).isSome)
  match readNumeral digit? (if hex then 16 else 10) z with
  | none => JSNum.nan
  | some v => if negative then JSNum.fin (-(v : ℚ)) else JSNum.fin (v : ℚ)

/-- The number a run of decimal digits denotes. -/
def digitsValue (cs : List Char) : Nat :=
  cs.foldl (fun acc c => acc * 10 + (c.toNat - 48)) 0

/-- A value an expression of the source evaluates to where it is a number on one path and
a string on another. -/
inductive JSValue where
  | num (x : JSNum)
  | str (s : String)
  deriving DecidableEq

/-! ## The student dashboard's GPA (`gpa`, lines 696-710) -/

/-- The callback of `myResults.reduce` in `gpa` (lines 702-708). -/
def gpaReducer (acc : JSNum) (curr : StudentResult) : JSNum :=
  if curr.score.ge (JSNum.ofInt 90) then acc.add (JSNum.ofInt 4)
  else if curr.score.ge (JSNum.ofInt 80) then acc.add (JSNum.ofInt 3)
  else if curr.score.ge (JSNum.ofInt 70) then acc.add (JSNum.ofInt 2)
  else if curr.score.ge (JSNum.ofInt 60) then acc.add (JSNum.ofInt 1)
  else acc

/-- The value `gpa` of `StudentDashboard`: the number `0.0` without results, else the
text of `(points / myResults.length).toFixed(2)`. -/
def gpa (results : List StudentResult) (studentId : String) : JSValue :=
  let myResults := results.filter (fun r => r.studentId == studentId)
  if myResults.length = 0 then JSValue.num (JSNum.ofInt 0)
  else
    let points := myResults.foldl gpaReducer (JSNum.ofInt 0)
    JSValue.str (toFixed (points.divLength myResults.length) 2)

/-- The GPA point of a score in the words of the specification: 4 from 90, 3 from 80, 2
from 70, 1 from 60, else 0. -/
def gpaPoint (score : JSNum) : ℚ :=
  if score.ge (JSNum.ofInt 90) then 4
  else if score.ge (JSNum.ofInt 80) then 3
  else if score.ge (JSNum.ofInt 70) then 2
  else if score.ge (JSNum.ofInt 60) then 1
  else 0

/-! ## The transcript (`TranscriptsSection`, lines 586-691) -/

/-- The helper `getTermAverage` (lines 603-607): the number `0` on no result, else the text
of `(total / termResults.length).toFixed(1)`. -/
def getTermAverage (termResults : List StudentResult) : JSValue :=
  if termResults.length = 0 then JSValue.num (JSNum.ofInt 0)
  else
    let total := termResults.foldl (fun acc curr => acc.add curr.score) (JSNum.ofInt 0)
    JSValue.str (toFixed (total.divLength termResults.length) 1)

/-- The remark cell of a transcript row (line 671). -/
def remark (result : StudentResult) : String :=
  if result.score.ge (JSNum.ofInt 50) then "Pass" else "Fail"

/-- An object whose own properties are kept as key and value, in the order the keys were
first set. -/
abbrev JSObject (α : Type) := List (String × α)

/-- The property read `obj[key]`, with `dflt` standing for a key that is not set. -/
def JSObject.get {α : Type} (obj : JSObject α) (key : String) (dflt : α) : α :=
  (List.lookup key obj).getD dflt

/-- The array index a key stands for, if it is one: the canonical decimal numeral of an
integer below `2 ^ 32 - 1`. -/
def arrayIndex? (key : String) : Option Nat :=
  match key.data with
  | [] => none
  | c :: cs =>
    if c = '0' ∧ cs ≠ [] then none
    else
      match readDigits decDigit? 10 0 (c :: cs) with
      | some v => if v < 2 ^ 32 - 1 then some v else none
      | none => none

/-- Insertion of `x` into a list before the first element it may precede. -/
def orderedInsertBy {α : Type} (le : α → α → Bool) (x : α) : List α → List α
  | [] => [x]
  | y :: ys => if le x y then x :: y :: ys else y :: orderedInsertBy le x ys

/-- A stable sort by insertion, from the right. -/
def sortBy {α : Type} (le : α → α → Bool) : List α → List α
  | [] => []
  | x :: xs => orderedInsertBy le x (sortBy le xs)

/-- The call `Object.keys(obj)`: the keys that are array indices in ascending numeric
order, then the other keys in the order they were set. -/
def objectKeys {α : Type} (obj : JSObject α) : List String :=
  sortBy (fun a b => decide ((arrayIndex? a).getD 0 ≤ (arrayIndex? b).getD 0))
      ((obj.map Prod.fst).filter (fun k => (arrayIndex? k).isSome)) ++
    (obj.map Prod.fst).filter (fun k => (arrayIndex? k).isNone)

/-- The call `xs.sort(comparefn)`: a stable sort in which `a` may precede `b` unless
`comparefn(a, b) > 0`; a `NaN` from the comparison counts as `0`. -/
def arraySort {α : Type} (comparefn : α → α → JSNum) (xs : List α) : List α :=
  sortBy (fun a b => !(comparefn a b).isPositive) xs

/-- The UTF-16 code units of a string. -/
def utf16Units (s : String) : List Nat :=
  s.data.flatMap (fun c =>
    if c.toNat < 0x10000 then [c.toNat]
    else [0xD800 + (c.toNat - 0x10000) / 0x400, 0xDC00 + (c.toNat - 0x10000) % 0x400])

/-- Lexicographic `<` on sequences of code units. -/
def unitsLt : List Nat → List Nat → Bool
  | _, [] => false
  | [], _ :: _ => true
  | a :: as, b :: bs => decide (a < b) || (a == b && unitsLt as bs)

/-- The call `xs.sort()` on strings: a stable sort in which `a` may precede `b` unless
`b < a` as strings, that is, by code units. -/
def arraySortDefault (xs : List String) : List String :=
  sortBy (fun a b => !(unitsLt (utf16Units b) (utf16Units a))) xs

/-- The statements of the `forEach` callback on the inner object `grouped[r.year]`
(lines 595-596). -/
def pushTerm (r : StudentResult) : JSObject (List StudentResult) → JSObject (List StudentResult)
  | [] => [(r.term, [r])]
  | (t, rs) :: rest =>
    if t = r.term then (t, rs ++ [r]) :: rest else (t, rs) :: pushTerm r rest

/-- The `forEach` callback of `groupedResults` (lines 594-596). -/
def pushYear (r : StudentResult) :
    JSObject (JSObject (List StudentResult)) → JSObject (JSObject (List StudentResult))
  | [] => [(r.year, pushTerm r [])]
  | (y, ts) :: rest =>
    if y = r.year then (y, pushTerm r ts) :: rest else (y, ts) :: pushYear r rest

/-- The value `groupedResults` (lines 590-600). -/
def groupedResults (myResults : List StudentResult) : JSObject (JSObject (List StudentResult)) :=
  myResults.foldl (fun grouped r => pushYear r grouped) []

/-- One term of a transcript as it is rendered: heading, term average and table rows, each
row a result with its remark. -/
structure TermCard where
  year : String
  term : String
  termAverage : JSValue
  rows : List (StudentResult × String)
  deriving DecidableEq

/-- What `TranscriptsSection` renders: the "No academic records found" panel, or the
years in order, each with its term cards in order. -/
inductive TranscriptView where
  | noRecords
  | years (cards : List (String × List TermCard))
  deriving DecidableEq

/-- The card rendered for a term of a year (lines 631-684): `termData` is
`groupedResults[year][term]`, the average is `getTermAverage(termData)` and each row of
`termData` gets its remark. -/
def termCard (grouped : JSObject (JSObject (List StudentResult))) (year term : String) :
    TermCard :=
  let termData := (grouped.get year []).get term []
  { year := year
    term := term
    termAverage := getTermAverage termData
    rows := termData.map (fun result => (result, remark result)) }

/-- The component `TranscriptsSection` (lines 586-691). -/
def TranscriptsSection (results : List StudentResult) (studentId : String) : TranscriptView :=
  let myResults := results.filter (fun r => r.studentId == studentId)
  let grouped := groupedResults myResults
  if (objectKeys grouped).length = 0 then TranscriptView.noRecords
  else
    TranscriptView.years
      ((arraySort (fun a b => (Number b).sub (Number a)) (objectKeys grouped)).map (fun year =>
        (year, (arraySortDefault (objectKeys (grouped.get year []))).map
          (termCard grouped year))))

/-! ## Class statistics (`handleGetClassInsights`, lines 973-1000) -/

/-- The array `performanceData` (lines 977-980): the `parseInt` of each roster student's
mark, students without a mark or with the empty mark left out. -/
def performanceData (classStudents : List Student) (marks : Marks) : List JSNum :=
  classStudents.filterMap (fun student =>
    match marksGet marks student.studentId with
    | none => none
    | some score => if score = "" then none else some (parseInt score))

/-- What `handleGetClassInsights` works out before it asks for an analysis: the message it
shows instead when there is no mark, or the average, highest, lowest and count it writes
into the prompt. -/
inductive ClassInsights where
  | noMarks (message : String)
  | stats (average : String) (highest lowest : JSNum) (count : Nat)
  deriving DecidableEq

/-- The statistics of `handleGetClassInsights` (lines 977-994). -/
def handleGetClassInsights (classStudents : List Student) (marks : Marks) : ClassInsights :=
  let performanceData := performanceData classStudents marks
  if performanceData.length = 0 then ClassInsights.noMarks "No marks entered yet to analyze."
  else
    let average :=
      toFixed ((performanceData.foldl JSNum.add (JSNum.ofInt 0)).divLength
        performanceData.length) 1
    ClassInsights.stats average (mathMax performanceData) (mathMin performanceData)
      performanceData.length

/-- A year key of four decimal digits, such as `2025`. -/
def isFourDigitNumeral (s : String) : Bool :=
  s.data.length == 4 && s.data.all (fun c => (decDigit? c).isSome)

/-- The marks of the roster students that have a non-empty one, read as decimal numerals,
in roster order. -/
def markValues (classStudents : List Student) (marks : Marks) : List Nat :=
  classStudents.filterMap (fun student =>
    match marks student.studentId with
    | none => none
    | some score => if score = "" then none else some (digitsValue score.data))

/-- A student has a non-empty mark entered. -/
def hasMark (marks : Marks) (student : Student) : Bool :=
  match marks student.studentId with
  | none => false
  | some score => score != ""

/-! ## Further example data -/

/-- A stored result with the given document id, studentId, subject, score, term and year,
the grade being that of the score. -/
def exampleResult (id studentId subject : String) (score : Int) (term year : String) :
    StudentResult :=
  { id := id, studentName := "Ada", studentId := studentId, level := "ZJC", className := "1A",
    subject := subject, score := JSNum.ofInt score, grade := calculateGrade (JSNum.ofInt score),
    term := term, year := year, createdAt := some 1 }

/-- Results of student `ST-001` over two years and two terms, with one of another student
in between. -/
def exampleTranscript : List StudentResult :=
  [ exampleResult "t1" "ST-001" "Mathematics" 80 "Term 2" "2024",
    exampleResult "t2" "ST-001" "English" 60 "Term 1" "2025",
    exampleResult "t3" "ST-002" "English" 90 "Term 1" "2025",
    exampleResult "t4" "ST-001" "History" 100 "Term 2" "2024",
    exampleResult "t5" "ST-001" "Shona" 45 "Term 1" "2024" ]

/-- Forty results of `ST-001`: one of score 80, of 3 points, and thirty-nine of score 59, of
no point. -/
def tieTranscript : List StudentResult :=
  exampleResult "u" "ST-001" "Mathematics" 80 "Term 1" "2025" ::
    (List.range 39).map (fun i =>
      exampleResult (String.mk (List.replicate (i + 2) 'u')) "ST-001" "English" 59 "Term 1"
        "2025")

/-- Twenty results of a term: three of score 1 and seventeen of score 0. -/
def tieTermResults : List StudentResult :=
  (List.range 20).map (fun i =>
    exampleResult (String.mk (List.replicate (i + 1) 'v')) "ST-001" "Mathematics"
      (if i < 3 then 1 else 0) "Term 1" "2025")

/-- A roster of twenty students of class 1A, of studentIds `T`, `TT`, `TTT` and so on. -/
def tieRoster : List Student :=
  (List.range 20).map (fun i =>
    { id := String.mk (List.replicate (i + 1) 'w'), name := "Tim",
      studentId := String.mk (List.replicate (i + 1) 'T'), level := "ZJC", className := "1A",
      email := none, createdAt := none })

/-- The marks of the roster `tieRoster`: `1` for its first three students and `0` for the
other seventeen. -/
def tieMarks : Marks := fun k =>
  if k = "T" ∨ k = "TT" ∨ k = "TTT" then some "1"
  else if (tieRoster.map Student.studentId).contains k then some "0" else none

/-- The cards `TranscriptsSection` renders for `ST-001` from `exampleTranscript`. -/
def exampleCards : List (String × List TermCard) :=
  [ ("2025",
      [ { year := "2025", term := "Term 1", termAverage := JSValue.str "60.0",
          rows := [(exampleResult "t2" "ST-001" "English" 60 "Term 1" "2025", "Pass")] } ]),
    ("2024",
      [ { year := "2024", term := "Term 1", termAverage := JSValue.str "45.0",
          rows := [(exampleResult "t5" "ST-001" "Shona" 45 "Term 1" "2024", "Fail")] },
        { year := "2024", term := "Term 2", termAverage := JSValue.str "90.0",
          rows := [(exampleResult "t1" "ST-001" "Mathematics" 80 "Term 2" "2024", "Pass"),
                   (exampleResult "t4" "ST-001" "History" 100 "Term 2" "2024", "Pass")] } ]) ]

/-- The marks `{ "ST-001": "1000000000000000000000", "ST-002": "1000000000000000000001" }`. -/
def hugeMarks : Marks := fun k =>
  if k = "ST-001" then some "1000000000000000000000"
  else if k = "ST-002" then some "1000000000000000000001" else none

/-! ## Promises and the component state of the teacher dashboard -/

/-- How a promise settles. -/
inductive Settled where
  | fulfilled
  | rejected
  deriving DecidableEq

/-- The promise `Promise.all(promises)`: fulfilled when every promise is, on none too. -/
def promiseAll (promises : List Settled) : Settled :=
  if promises.all (fun p => p == Settled.fulfilled) then Settled.fulfilled
  else Settled.rejected

/-- The prop `onSubmitResult`, which is `handleUploadResult` (line 1567), as an async
function: without a signed-in `user` it returns at once, and else it awaits `addDoc`, which
writes the document and is fulfilled, or is rejected and writes nothing. The result is
the stored collection and the promise of the call. -/
def onSubmitResult (user : Option String) (db : Firestore) (data : Payload)
    (write : Settled) (docs : List StudentResult) : List StudentResult × Settled :=
  if user.isNone then (docs, Settled.fulfilled)
  else
    match write with
    | Settled.fulfilled => (addDoc db data docs, Settled.fulfilled)
    | Settled.rejected => (docs, Settled.rejected)

/-- The prop `onUpdateResult`, which is `handleUpdateResult` (line 1567), as an async
function. -/
def onUpdateResult (user : Option String) (id : String) (data : Payload)
    (write : Settled) (docs : List StudentResult) : List StudentResult × Settled :=
  if user.isNone then (docs, Settled.fulfilled)
  else
    match write with
    | Settled.fulfilled => (updateDoc id data docs, Settled.fulfilled)
    | Settled.rejected => (docs, Settled.rejected)

/-- The prop `onDeleteResult`, which is `handleDeleteResult` (line 1567), as an async
function. -/
def onDeleteResult (user : Option String) (id : String)
    (write : Settled) (docs : List StudentResult) : List StudentResult × Settled :=
  if user.isNone then (docs, Settled.fulfilled)
  else
    match write with
    | Settled.fulfilled => (deleteDoc id docs, Settled.fulfilled)
    | Settled.rejected => (docs, Settled.rejected)

/-- One dispatched call with the way the store settles it. -/
def dispatchOp (user : Option String) (db : Firestore) (op : Op) (write : Settled)
    (docs : List StudentResult) : List StudentResult × Settled :=
  match op with
  | Op.submit data => onSubmitResult user db data write docs
  | Op.update id data => onUpdateResult user id data write docs
  | Op.delete id => onDeleteResult user id write docs

/-- The calls of `promises`, in dispatch order from position `i` on, against a store that
settles the call at position `k` as `writes k`: the stored collection when all have
settled, and the promises. -/
def dispatchAll (user : Option String) (db : Firestore) (writes : Nat → Settled) :
    List Op → Nat → List StudentResult → List StudentResult × List Settled
  | [], _, docs => (docs, [])
  | op :: ops, i, docs =>
    let first := dispatchOp user db op (writes i) docs
    let rest := dispatchAll user db writes ops (i + 1) first.1
    (rest.1, first.2 :: rest.2)

/-- The state `loading` and `success` of `TeacherDashboard` (lines 880-881). -/
structure DashboardState where
  loading : Bool
  success : Bool
  deriving DecidableEq

/-- A run of `handleBulkSave`: the component state and the stored collection when the
function has ended, and the promise it returned. -/
structure BulkSaveRun where
  state : DashboardState
  docs : List StudentResult
  outcome : Settled
  deriving DecidableEq

/-- The async function `handleBulkSave` (lines 923-970) run over a store that settles the
call at position `k` as `writes k`. `setLoading(true)`, the loop, then
`await Promise.all(promises)`: a rejection is thrown out of the function at the `await`,
and the statements after it run only when every promise is fulfilled. The state is the
one before the timer of line 969 fires. -/
def handleBulkSave (user : Option String) (db : Firestore) (sel : Selection)
    (classStudents : List Student) (marks : Marks) (results : List StudentResult)
    (writes : Nat → Settled) (st : DashboardState) : BulkSaveRun :=
  let st1 : DashboardState := { st with loading := true }
  let promises := handleBulkSaveOps sel classStudents marks results
  let settled := dispatchAll user db writes promises 0 results
  match promiseAll settled.2 with
  | Settled.fulfilled =>
    { state := { loading := false, success := true }, docs := settled.1,
      outcome := Settled.fulfilled }
  | Settled.rejected => { state := st1, docs := settled.1, outcome := Settled.rejected }

/-- The `disabled` attribute of the Publish Results button (line 1145). -/
def publishDisabled (st : DashboardState) (classStudents : List Student) : Bool :=
  st.loading || classStudents.length == 0

/-- The calls of `ops` that the store settles as fulfilled, the call at position `i + k`
of the dispatch being the `k`-th of `ops`. -/
def fulfilledOps (writes : Nat → Settled) : List Op → Nat → List Op
  | [], _ => []
  | op :: ops, i =>
    if writes i = Settled.fulfilled then op :: fulfilledOps writes ops (i + 1)
    else fulfilledOps writes ops (i + 1)

/-! ## Documents as objects -/

/-- A value of a field of a result document. -/
inductive FieldValue where
  | str (s : String)
  | num (x : JSNum)
  | timestamp (t : Nat)
  deriving DecidableEq

/-- The assignment `obj[key] = value`: in place when the key is set, else at the end. -/
def JSObject.set {α : Type} (obj : JSObject α) (key : String) (value : α) : JSObject α :=
  match obj with
  | [] => [(key, value)]
  | (k, v) :: rest => if k = key then (k, value) :: rest else (k, v) :: JSObject.set rest key value

/-- The object literal `payload` of lines 943-953, key by key. -/
def Payload.fields (p : Payload) : JSObject FieldValue :=
  [ ("studentName", FieldValue.str p.studentName),
    ("studentId", FieldValue.str p.studentId),
    ("level", FieldValue.str p.level),
    ("className", FieldValue.str p.className),
    ("subject", FieldValue.str p.subject),
    ("term", FieldValue.str p.term),
    ("year", FieldValue.str p.year),
    ("score", FieldValue.num p.score),
    ("grade", FieldValue.str p.grade) ]

/-- The fields `d.data()` of a stored result document; the identifier of the document is
not one of them. -/
def StudentResult.data (r : StudentResult) : JSObject FieldValue :=
  [ ("studentName", FieldValue.str r.studentName),
    ("studentId", FieldValue.str r.studentId),
    ("level", FieldValue.str r.level),
    ("className", FieldValue.str r.className),
    ("subject", FieldValue.str r.subject),
    ("score", FieldValue.num r.score),
    ("grade", FieldValue.str r.grade),
    ("term", FieldValue.str r.term),
    ("year", FieldValue.str r.year) ] ++
  match r.createdAt with
  | some t => [("createdAt", FieldValue.timestamp t)]
  | none => []

/-- What `updateDoc(ref, data)` does to the fields of the document: each field of `data` is
written, the others stay. -/
def updateFields (fields data : JSObject FieldValue) : JSObject FieldValue :=
  data.foldl (fun acc kv => JSObject.set acc kv.1 kv.2) fields

/-! ## Grade points by letter -/

/-- The GPA point that goes with a letter grade: 4 for `A+`, 3 for `A`, 2 for `B`, 1 for
`C`, 0 for `D` and `F`. -/
def pointOfGrade (grade : String) : ℚ :=
  if grade = "A+" then 4 else if grade = "A" then 3 else if grade = "B" then 2
  else if grade = "C" then 1 else 0

/-- The rank of a letter grade, `F` lowest. -/
def gradeRank (grade : String) : Nat :=
  if grade = "A+" then 5 else if grade = "A" then 4 else if grade = "B" then 3
  else if grade = "C" then 2 else if grade = "D" then 1 else 0

/-! ## Example data for the frame of a bulk save -/

/-- A second student document with the `studentId` of `studentA`. -/
def studentA2 : Student :=
  { id := "sa2", name := "Ada", studentId := "ST-001", level := "ZJC", className := "1A",
    email := none, createdAt := none }

/-- A store that rejects the call at position 1 and fulfils the others. -/
def rejectSecond : Nat → Settled := fun k => if k = 1 then Settled.rejected else Settled.fulfilled

/-- The marks `{ "ST-001": "0" }`. -/
def zeroMarks : Marks := fun k => if k = "ST-001" then some "0" else none

/-! ## Classes and subjects (`ACADEMIC_LEVELS`, `O_LEVEL_SUBJECTS`, `A_LEVEL_SUBJECTS`,
`ALL_POSSIBLE_SUBJECTS`, `getSubjectsForClass`, lines 114-200) -/

/-- The constant `ACADEMIC_LEVELS` (lines 114-118). -/
def ACADEMIC_LEVELS : JSObject (List String) :=
  [ ("ZJC", ["1A", "1B", "2A", "2B"]),
    ("O Level",
      ["3 Sciences", "3 Commercials", "3 Arts", "4 Sciences", "4 Commercials", "4 Arts"]),
    ("A Level",
      ["Lower 6 Sciences", "Lower 6 Commercials", "Lower 6 Arts", "Upper 6 Sciences",
       "Upper 6 Commercials", "Upper 6 Arts"]) ]

/-- The constant `O_LEVEL_SUBJECTS` (lines 120-137). -/
def O_LEVEL_SUBJECTS : JSObject (List String) :=
  [ ("ZJC",
      ["English", "Shona", "Heritage", "Combined Science", "Computer Science",
       "Geography", "FRS", "History", "Mathematics", "Accounts", "Agriculture"]),
    ("Sciences",
      ["Mathematics", "Heritage", "Combined Science", "Computer Science", "English",
       "Physics", "Biology", "Agriculture", "Geography", "Chemistry"]),
    ("Commercials",
      ["Mathematics", "English", "Heritage", "Combined Science", "Computer Science",
       "Geography", "Accounts", "Business Studies", "Economics"]),
    ("Arts",
      ["Mathematics", "English", "Heritage", "Combined Science", "Shona",
       "History", "Sociology", "FRS", "Literature in English", "Literature in Shona"]) ]

/-- The constant `A_LEVEL_SUBJECTS` (lines 139-152). -/
def A_LEVEL_SUBJECTS : JSObject (List String) :=
  [ ("Sciences",
      ["Mathematics", "Physics", "Chemistry", "Biology", "Computer Science",
       "Geography", "Agriculture"]),
    ("Commercials",
      ["Mathematics", "Accounts", "Business Studies", "Economics",
       "Computer Science", "Geography"]),
    ("Arts",
      ["History", "Sociology", "FRS", "Literature in English",
       "Literature in Shona", "Geography", "Shona"]) ]

/-- The array `Array.from(new Set(xs))`: the values of `xs`, each once, in the order of
their first occurrence. -/
def arrayFromSet (xs : List String) : List String :=
  xs.foldl (fun set x => if x ∈ set then set else set ++ [x]) []

/-- The constant `ALL_POSSIBLE_SUBJECTS` (lines 154-163). -/
def ALL_POSSIBLE_SUBJECTS : List String :=
  arraySortDefault (arrayFromSet
    (O_LEVEL_SUBJECTS.get "ZJC" [] ++
     O_LEVEL_SUBJECTS.get "Sciences" [] ++
     O_LEVEL_SUBJECTS.get "Commercials" [] ++
     O_LEVEL_SUBJECTS.get "Arts" [] ++
     A_LEVEL_SUBJECTS.get "Sciences" [] ++
     A_LEVEL_SUBJECTS.get "Commercials" [] ++
     A_LEVEL_SUBJECTS.get "Arts" [] ++
     ["Art & Design"]))

/-- The method `toLowerCase` on the letters `A` to `Z`; every other character is left as
it is, so the case mapping of letters outside ASCII is not part of the model. -/
def toLowerCase (s : String) : String :=
  String.mk (s.data.map (fun c =>
    if 65 ≤ c.toNat ∧ c.toNat ≤ 90 then Char.ofNat (c.toNat + 32) else c))

/-- Whether `sub` occurs in `s` at some position. -/
def includesChars : List Char → List Char → Bool
  | [], sub => sub.isEmpty
  | c :: cs, sub => sub.isPrefixOf (c :: cs) || includesChars cs sub

/-- The method `s.includes(sub)`. -/
def includes (s sub : String) : Bool := includesChars s.data sub.data

/-- The method `s.startsWith(sub)`. -/
def startsWith (s sub : String) : Bool := sub.data.isPrefixOf s.data

/-- The function `getSubjectsForClass` (lines 183-200). The two branches on the stream
return when one of their tests holds and fall through to the last test otherwise. -/
def getSubjectsForClass (className : String) : List String :=
  if className = "" then ALL_POSSIBLE_SUBJECTS
  else
    let normalizedClass := toLowerCase className
    let byStream : Option (List String) :=
      if includes normalizedClass "lower 6" || includes normalizedClass "upper 6" then
        if includes normalizedClass "sciences" then some (A_LEVEL_SUBJECTS.get "Sciences" [])
        else if includes normalizedClass "commercials" then
          some (A_LEVEL_SUBJECTS.get "Commercials" [])
        else if includes normalizedClass "arts" then some (A_LEVEL_SUBJECTS.get "Arts" [])
        else none
      else
        if includes normalizedClass "sciences" then some (O_LEVEL_SUBJECTS.get "Sciences" [])
        else if includes normalizedClass "commercials" then
          some (O_LEVEL_SUBJECTS.get "Commercials" [])
        else if includes normalizedClass "arts" then some (O_LEVEL_SUBJECTS.get "Arts" [])
        else none
    match byStream with
    | some subjects => subjects
    | none =>
      if startsWith normalizedClass "1" || startsWith normalizedClass "2" then
        O_LEVEL_SUBJECTS.get "ZJC" []
      else ALL_POSSIBLE_SUBJECTS

/-! ## The roster of the teacher dashboard (`classStudents`, lines 887-892) -/

/-- The operator `a || b` on numbers: `b` when `a` is `0` or `NaN`, else `a`. -/
def JSNum.or : JSNum → JSNum → JSNum
  | JSNum.nan, b => b
  | JSNum.fin q, b => if q = 0 then b else JSNum.fin q
  | a, _ => a

/-- What the language asks of `localeCompare`, whose order is left to the implementation
and the locale: it is a consistent comparison, that is, a string compares equal to itself,
`a` sorts before `b` exactly when `b` sorts after `a`, and "not after" is transitive. -/
def ConsistentComparator (localeCompare : String → String → Int) : Prop :=
  (∀ a, localeCompare a a = 0)
  ∧ (∀ a b, localeCompare a b < 0 ↔ 0 < localeCompare b a)
  ∧ (∀ a b c, localeCompare a b ≤ 0 → localeCompare b c ≤ 0 → localeCompare a c ≤ 0)

/-- The comparator handed to `sort` on line 891, over a given `localeCompare`. -/
def compareStudents (localeCompare : String → String → Int) (a b : Student) : JSNum :=
  (JSNum.ofInt (localeCompare a.name b.name)).or
    (JSNum.ofInt (localeCompare a.studentId b.studentId))

/-- The memoised value `classStudents` (lines 888-892), over a given `localeCompare`. -/
def classStudents (localeCompare : String → String → Int) (students : List Student)
    (selectedLevel selectedClass : String) : List Student :=
  arraySort (compareStudents localeCompare)
    (students.filter (fun s => s.level == selectedLevel && s.className == selectedClass))

/-- A comparison for examples: by UTF-16 code units. -/
def codeUnitCompare (a b : String) : Int :=
  if unitsLt (utf16Units a) (utf16Units b) then -1
  else if unitsLt (utf16Units b) (utf16Units a) then 1
  else 0

/-! ## The prefill of the marks (the effect of lines 894-912) -/

/-- The method `x.toString()` of a number: `0` for zero; for an integer below `10 ^ 21` in
magnitude its decimal digits and from `10 ^ 21` on the exponential notation of its digits,
after a minus sign when it is negative. The digits printed for a finite value that is not
an integer depend on its binary64 form, which the model does not carry: they are the
parameter `fractionToString`. -/
def JSNum.toString (fractionToString : ℚ → String) : JSNum → String
  | JSNum.nan => "NaN"
  | JSNum.posInf => "Infinity"
  | JSNum.negInf => "-Infinity"
  | JSNum.fin q =>
    if q = 0 then "0"
    else if (⌊|q|⌋₊ : ℚ) = |q| then
      String.mk ((if q < 0 then ['-'] else []) ++
        (if ⌊|q|⌋₊ < 10 ^ 21 then Nat.toDigits 10 ⌊|q|⌋₊ else exponentialDigits |q|))
    else fractionToString q

/-- The filter of `relevantResults` (lines 899-905). -/
def isRelevantResult (sel : Selection) (r : StudentResult) : Bool :=
  r.level == sel.selectedLevel &&
  r.className == sel.selectedClass &&
  r.subject == sel.selectedSubject &&
  r.term == sel.selectedTerm &&
  r.year == sel.selectedYear

/-- The object `existingMarks` the effect hands to `setMarks` (lines 896-911): for each
relevant result in collection order, the key `r.studentId` is set to
`r.score.toString()`; an assignment to the key `__proto__` goes to the setter of
`Object.prototype`, which drops a string, and sets no entry. -/
def existingMarks (fractionToString : ℚ → String) (sel : Selection)
    (results : List StudentResult) : Marks :=
  (results.filter (isRelevantResult sel)).foldl
    (fun existingMarks r => fun key =>
      if key = r.studentId ∧ r.studentId ≠ "__proto__" then
        some (r.score.toString fractionToString)
      else existingMarks key)
    (fun _ => none)

/-! # Theorems -/

/-! ## Basic facts -/

theorem JSNum.ge_ofInt (s t : Int) :
    (JSNum.ofInt s).ge (JSNum.ofInt t) = decide (t ≤ s) := by
  simp [JSNum.ofInt, JSNum.ge]

theorem calculateGrade_ofInt (s : Int) :
    calculateGrade (JSNum.ofInt s) =
      if 90 ≤ s then "A+" else if 80 ≤ s then "A" else if 70 ≤ s then "B"
      else if 60 ≤ s then "C" else if 50 ≤ s then "D" else "F" := by
  simp [calculateGrade, JSNum.ge_ofInt]

theorem JSNum.strictNe_eq_true_iff (a b : JSNum) :
    a.strictNe b = true ↔ a ≠ b ∨ a = JSNum.nan ∨ b = JSNum.nan := by
  cases a <;> cases b <;> simp [JSNum.strictNe, JSNum.strictEq]

theorem JSNum.strictEq_eq_true_iff (a b : JSNum) :
    a.strictEq b = true ↔ a = b ∧ a ≠ JSNum.nan := by
  cases a <;> cases b <;> simp [JSNum.strictEq]

theorem JSNum.strictNe_nan_right (a : JSNum) : a.strictNe JSNum.nan = true := by
  cases a <;> simp [JSNum.strictNe, JSNum.strictEq]

theorem isExistingResult_iff (sel : Selection) (student : Student) (r : StudentResult) :
    isExistingResult sel student r = true ↔
      r.studentId = student.studentId ∧ r.subject = sel.selectedSubject ∧
      r.term = sel.selectedTerm ∧ r.year = sel.selectedYear := by
  simp [isExistingResult, and_assoc]

/-- The loop pushes, student by student, what each iteration pushes. -/
theorem handleBulkSaveOps_eq_flatMap (sel : Selection) (classStudents : List Student)
    (marks : Marks) (results : List StudentResult) :
    handleBulkSaveOps sel classStudents marks results =
      classStudents.flatMap (bulkSaveStep sel marks results) := by
  unfold handleBulkSaveOps
  suffices h : ∀ (acc : List Op),
      classStudents.foldl (fun promises student => promises ++ bulkSaveStep sel marks results student) acc
        = acc ++ classStudents.flatMap (bulkSaveStep sel marks results) by
    simpa using h []
  induction classStudents with
  | nil => intro acc; simp
  | cons s rest ih => intro acc; simp [ih, List.append_assoc]

theorem handleBulkSaveOps_split (sel : Selection) (pre post : List Student) (student : Student)
    (marks : Marks) (results : List StudentResult) :
    handleBulkSaveOps sel (pre ++ student :: post) marks results =
      handleBulkSaveOps sel pre marks results ++ bulkSaveStep sel marks results student ++
        handleBulkSaveOps sel post marks results := by
  simp [handleBulkSaveOps_eq_flatMap, List.append_assoc]

/-- The first element of a list that satisfies the predicate is what `find?` returns. -/
theorem find?_first {α : Type} (p : α → Bool) (before after : List α) (a : α)
    (hbefore : ∀ x ∈ before, p x = false) (ha : p a = true) :
    (before ++ a :: after).find? p = some a := by
  induction before with
  | nil => simp [ha]
  | cons b bs ih =>
    have hb : p b = false := hbefore b (by simp)
    simp only [List.cons_append, List.find?_cons, hb]
    exact ih (fun x hx => hbefore x (by simp [hx]))

/-- An own entry is what the property read gives. -/
theorem marksGet_of_some {marks : Marks} {key value : String} (h : marks key = some value) :
    marksGet marks key = some value := by
  simp [marksGet, h]

/-- Under a key that is set, or that names no member of `Object.prototype`, `marks[key]`
is the own entry. -/
theorem marksGet_of_not_inherited {marks : Marks} {key : String}
    (h : marks key = none → objectPrototypeMember? key = none) :
    marksGet marks key = marks key := by
  unfold marksGet
  cases hm : marks key with
  | none => simp [h hm]
  | some v => rfl

/-- What one iteration pushes when the property read gives a non-empty text, by the
outcome of the search. -/
theorem bulkSaveStep_of_get (sel : Selection) (marks : Marks) (results : List StudentResult)
    (student : Student) (scoreStr : String)
    (hmark : marksGet marks student.studentId = some scoreStr) (hne : scoreStr ≠ "") :
    bulkSaveStep sel marks results student =
      match results.find? (isExistingResult sel student) with
      | some r =>
        if r.score.strictNe (Number scoreStr)
        then [Op.update r.id (mkPayload sel student (Number scoreStr))] else []
      | none => [Op.submit (mkPayload sel student (Number scoreStr))] := by
  simp [bulkSaveStep, hmark, hne]

/-- What one iteration pushes for a non-empty mark, by the outcome of the search. -/
theorem bulkSaveStep_of_mark (sel : Selection) (marks : Marks) (results : List StudentResult)
    (student : Student) (scoreStr : String)
    (hmark : marks student.studentId = some scoreStr) (hne : scoreStr ≠ "") :
    bulkSaveStep sel marks results student =
      match results.find? (isExistingResult sel student) with
      | some r =>
        if r.score.strictNe (Number scoreStr)
        then [Op.update r.id (mkPayload sel student (Number scoreStr))] else []
      | none => [Op.submit (mkPayload sel student (Number scoreStr))] :=
  bulkSaveStep_of_get sel marks results student scoreStr (marksGet_of_some hmark) hne

/-! ## Claims -/

/-- C1: for every integer score `calculateGrade` returns one of the six letters, each
letter exactly on its band (`A+` from 90, `A` on 80..89, `B` on 70..79, `C` on 60..69,
`D` on 50..59, `F` below 50); 90 gives `A+`, 89 gives `A`, 49 gives `F`. -/
theorem C1_calculateGrade_bands (s : Int) :
    (calculateGrade (JSNum.ofInt s) = "A+" ↔ 90 ≤ s)
    ∧ (calculateGrade (JSNum.ofInt s) = "A" ↔ 80 ≤ s ∧ s < 90)
    ∧ (calculateGrade (JSNum.ofInt s) = "B" ↔ 70 ≤ s ∧ s < 80)
    ∧ (calculateGrade (JSNum.ofInt s) = "C" ↔ 60 ≤ s ∧ s < 70)
    ∧ (calculateGrade (JSNum.ofInt s) = "D" ↔ 50 ≤ s ∧ s < 60)
    ∧ (calculateGrade (JSNum.ofInt s) = "F" ↔ s < 50)
    ∧ calculateGrade (JSNum.ofInt 90) = "A+"
    ∧ calculateGrade (JSNum.ofInt 89) = "A"
    ∧ calculateGrade (JSNum.ofInt 49) = "F" := by
  rw [calculateGrade_ofInt]
  refine ⟨?_, ?_, ?_, ?_, ?_, ?_, by decide, by decide, by decide⟩ <;>
    split_ifs <;> simp <;> omega

/-- C2: a roster student with a non-empty mark and no stored result under the same
studentId, selected subject, term and year makes the loop push exactly one CREATE and
nothing else, its payload being the student's name and id, the selected level, class,
subject, term and year, the parsed mark and the grade of the parsed mark. In the scenario
of the specification (roster `[a, b]`, the one stored result being under `a`'s key, marks
`70` for `a` and `85` for `b`) the run is an UPDATE for `a` exactly when the stored score
is not 70, followed by, or else only, the CREATE for `b` with score 85 and grade `A`. -/
theorem C2_create_when_no_stored_result (sel : Selection) (pre post : List Student)
    (student : Student) (marks : Marks) (results : List StudentResult) (scoreStr : String)
    (hmark : marks student.studentId = some scoreStr) (hne : scoreStr ≠ "")
    (hnone : ∀ r ∈ results, ¬ (r.studentId = student.studentId ∧
      r.subject = sel.selectedSubject ∧ r.term = sel.selectedTerm ∧
      r.year = sel.selectedYear)) :
    bulkSaveStep sel marks results student =
      [Op.submit { studentName := student.name, studentId := student.studentId,
                   level := sel.selectedLevel, className := sel.selectedClass,
                   subject := sel.selectedSubject, term := sel.selectedTerm,
                   year := sel.selectedYear, score := Number scoreStr,
                   grade := calculateGrade (Number scoreStr) }]
    ∧ handleBulkSaveOps sel (pre ++ student :: post) marks results =
      handleBulkSaveOps sel pre marks results ++
      [Op.submit { studentName := student.name, studentId := student.studentId,
                   level := sel.selectedLevel, className := sel.selectedClass,
                   subject := sel.selectedSubject, term := sel.selectedTerm,
                   year := sel.selectedYear, score := Number scoreStr,
                   grade := calculateGrade (Number scoreStr) }] ++
      handleBulkSaveOps sel post marks results
    ∧ ∀ (a b : Student) (ra : StudentResult) (entered : Marks),
        a.studentId ≠ b.studentId →
        entered a.studentId = some "70" → entered b.studentId = some "85" →
        (ra.studentId = a.studentId ∧ ra.subject = sel.selectedSubject ∧
          ra.term = sel.selectedTerm ∧ ra.year = sel.selectedYear) →
        handleBulkSaveOps sel [a, b] entered [ra] =
          (if ra.score = JSNum.ofInt 70 then []
           else [Op.update ra.id
                  { studentName := a.name, studentId := a.studentId,
                    level := sel.selectedLevel, className := sel.selectedClass,
                    subject := sel.selectedSubject, term := sel.selectedTerm,
                    year := sel.selectedYear, score := JSNum.ofInt 70, grade := "B" }]) ++
          [Op.submit { studentName := b.name, studentId := b.studentId,
                       level := sel.selectedLevel, className := sel.selectedClass,
                       subject := sel.selectedSubject, term := sel.selectedTerm,
                       year := sel.selectedYear, score := JSNum.ofInt 85, grade := "A" }] := by
  have hfind : results.find? (isExistingResult sel student) = none := by
    rw [List.find?_eq_none]
    intro r hr
    rw [isExistingResult_iff]
    exact hnone r hr
  have hstep := bulkSaveStep_of_mark sel marks results student scoreStr hmark hne
  rw [hfind] at hstep
  refine ⟨hstep, ?_, ?_⟩
  · rw [handleBulkSaveOps_split, hstep]
    rfl
  · intro a b ra entered hab ha hb hkey
    have h70 : Number "70" = JSNum.ofInt 70 := by decide
    have h85 : Number "85" = JSNum.ofInt 85 := by decide
    have hfa : [ra].find? (isExistingResult sel a) = some ra := by
      have : isExistingResult sel a ra = true := (isExistingResult_iff sel a ra).mpr hkey
      simp [List.find?_cons, this]
    have hfb : [ra].find? (isExistingResult sel b) = none := by
      have : isExistingResult sel b ra = false := by
        rw [Bool.eq_false_iff, Ne, isExistingResult_iff]
        intro h
        exact hab (hkey.1.symm.trans h.1)
      simp [List.find?_cons, this]
    have hsa := bulkSaveStep_of_mark sel entered [ra] a "70" ha (by decide)
    have hsb := bulkSaveStep_of_mark sel entered [ra] b "85" hb (by decide)
    rw [hfa, h70] at hsa
    rw [hfb, h85] at hsb
    have hcmp : ra.score.strictNe (JSNum.ofInt 70) = true ↔ ¬ ra.score = JSNum.ofInt 70 := by
      rw [JSNum.strictNe_eq_true_iff]
      constructor
      · rintro (h | h | h)
        · exact h
        · rw [h]; decide
        · exact absurd h (by decide)
      · exact Or.inl
    dsimp only at hsa hsb
    rw [handleBulkSaveOps_eq_flatMap]
    simp only [List.flatMap_cons, List.flatMap_nil, List.append_nil, hsa, hsb]
    congr 1
    by_cases h : ra.score = JSNum.ofInt 70
    · have hfalse : ra.score.strictNe (JSNum.ofInt 70) = false := by
        rw [Bool.eq_false_iff, Ne, hcmp]; exact not_not.mpr h
      rw [if_pos h, hfalse]
      rfl
    · have htrue : ra.score.strictNe (JSNum.ofInt 70) = true := hcmp.mpr h
      rw [if_neg h, htrue]
      rfl

/-- Witness of C2, the scenario of the specification: roster `[A, B]`, only A's result
stored, marks `70` for A and `85` for B. With A's stored score 70 the run is the one
CREATE for B, score 85 and grade `A`; with A's stored score 65 an UPDATE of A's document
precedes it. -/
theorem C2_create_when_no_stored_result_witness :
    handleBulkSaveOps exampleSel [studentA, studentB] exampleMarks [resultA 70] =
      [Op.submit { studentName := "Ben", studentId := "ST-002", level := "ZJC",
                   className := "1A", subject := "Mathematics", term := "Term 1",
                   year := "2025", score := JSNum.ofInt 85, grade := "A" }]
    ∧ handleBulkSaveOps exampleSel [studentA, studentB] exampleMarks [resultA 65] =
      [Op.update "r1"
         { studentName := "Ada", studentId := "ST-001", level := "ZJC",
           className := "1A", subject := "Mathematics", term := "Term 1",
           year := "2025", score := JSNum.ofInt 70, grade := "B" },
       Op.submit { studentName := "Ben", studentId := "ST-002", level := "ZJC",
                   className := "1A", subject := "Mathematics", term := "Term 1",
                   year := "2025", score := JSNum.ofInt 85, grade := "A" }] :=
  ⟨(C2_create_when_no_stored_result exampleSel [studentA] [] studentB exampleMarks
      [resultA 70] "85" (by decide) (by decide) (by decide)).2.1.trans (by decide),
   (C2_create_when_no_stored_result exampleSel [studentA] [] studentB exampleMarks
      [resultA 65] "85" (by decide) (by decide) (by decide)).2.1.trans (by decide)⟩

/-- C3: a roster student with a non-empty mark whose first stored result under the
identity key has a score that differs (`!==`) from the parsed mark makes the loop push
exactly one UPDATE and nothing else, addressed to that stored document and carrying the
whole recomputed payload: name, id, selected level, class, subject, term and year, the
new score and its grade. -/
theorem C3_update_when_score_differs (sel : Selection) (pre post : List Student)
    (student : Student) (marks : Marks) (before after : List StudentResult)
    (r : StudentResult) (scoreStr : String)
    (hmark : marks student.studentId = some scoreStr) (hne : scoreStr ≠ "")
    (hbefore : ∀ x ∈ before, ¬ (x.studentId = student.studentId ∧
      x.subject = sel.selectedSubject ∧ x.term = sel.selectedTerm ∧
      x.year = sel.selectedYear))
    (hkey : r.studentId = student.studentId ∧ r.subject = sel.selectedSubject ∧
      r.term = sel.selectedTerm ∧ r.year = sel.selectedYear)
    (hdiff : r.score.strictNe (Number scoreStr) = true) :
    bulkSaveStep sel marks (before ++ r :: after) student =
      [Op.update r.id
         { studentName := student.name, studentId := student.studentId,
           level := sel.selectedLevel, className := sel.selectedClass,
           subject := sel.selectedSubject, term := sel.selectedTerm,
           year := sel.selectedYear, score := Number scoreStr,
           grade := calculateGrade (Number scoreStr) }]
    ∧ handleBulkSaveOps sel (pre ++ student :: post) marks (before ++ r :: after) =
      handleBulkSaveOps sel pre marks (before ++ r :: after) ++
      [Op.update r.id
         { studentName := student.name, studentId := student.studentId,
           level := sel.selectedLevel, className := sel.selectedClass,
           subject := sel.selectedSubject, term := sel.selectedTerm,
           year := sel.selectedYear, score := Number scoreStr,
           grade := calculateGrade (Number scoreStr) }] ++
      handleBulkSaveOps sel post marks (before ++ r :: after) := by
  have hfind : (before ++ r :: after).find? (isExistingResult sel student) = some r := by
    apply find?_first
    · intro x hx
      have := hbefore x hx
      rw [← isExistingResult_iff] at this
      simpa using this
    · rw [isExistingResult_iff]; exact hkey
  have hstep := bulkSaveStep_of_mark sel marks (before ++ r :: after) student scoreStr hmark hne
  rw [hfind] at hstep
  simp only [hdiff, if_true] at hstep
  refine ⟨hstep, ?_⟩
  rw [handleBulkSaveOps_split, hstep]
  rfl

/-- Witness of C3: A's stored score is 65 and the entered mark is 70; the stored document
`r1` comes after an unrelated one. -/
theorem C3_update_when_score_differs_witness :
    handleBulkSaveOps exampleSel [studentA] exampleMarks [resultOther, resultA 65] =
      [Op.update "r1"
         { studentName := "Ada", studentId := "ST-001", level := "ZJC",
           className := "1A", subject := "Mathematics", term := "Term 1",
           year := "2025", score := JSNum.ofInt 70, grade := "B" }] :=
  (C3_update_when_score_differs exampleSel [] [] studentA exampleMarks [resultOther] []
    (resultA 65) "70" (by decide) (by decide) (by decide) (by decide) (by decide)).2.trans
    (by decide)

/-- C4: a roster student with a non-empty mark whose first stored result under the
identity key has a score equal (`===`) to the parsed mark makes the loop push nothing,
whatever the stored name, level, class and grade are. -/
theorem C4_nothing_when_score_equal (sel : Selection) (pre post : List Student)
    (student : Student) (marks : Marks) (before after : List StudentResult)
    (r : StudentResult) (scoreStr : String)
    (hmark : marks student.studentId = some scoreStr) (hne : scoreStr ≠ "")
    (hbefore : ∀ x ∈ before, ¬ (x.studentId = student.studentId ∧
      x.subject = sel.selectedSubject ∧ x.term = sel.selectedTerm ∧
      x.year = sel.selectedYear))
    (hkey : r.studentId = student.studentId ∧ r.subject = sel.selectedSubject ∧
      r.term = sel.selectedTerm ∧ r.year = sel.selectedYear)
    (hsame : r.score.strictEq (Number scoreStr) = true) :
    bulkSaveStep sel marks (before ++ r :: after) student = []
    ∧ handleBulkSaveOps sel (pre ++ student :: post) marks (before ++ r :: after) =
      handleBulkSaveOps sel pre marks (before ++ r :: after) ++
      handleBulkSaveOps sel post marks (before ++ r :: after) := by
  have hfind : (before ++ r :: after).find? (isExistingResult sel student) = some r := by
    apply find?_first
    · intro x hx
      have := hbefore x hx
      rw [← isExistingResult_iff] at this
      simpa using this
    · rw [isExistingResult_iff]; exact hkey
  have hstep := bulkSaveStep_of_mark sel marks (before ++ r :: after) student scoreStr hmark hne
  rw [hfind] at hstep
  simp only [JSNum.strictNe, hsame, Bool.not_true] at hstep
  have hstep2 : bulkSaveStep sel marks (before ++ r :: after) student = [] := by
    rw [hstep]; rfl
  refine ⟨hstep2, ?_⟩
  rw [handleBulkSaveOps_split, hstep2]
  simp

/-- Witness of C4: the stored document has A's key and score 70, and a stale name, level,
class and grade; the entered mark is 70. -/
theorem C4_nothing_when_score_equal_witness :
    handleBulkSaveOps exampleSel [studentA] exampleMarks [resultOther, resultStale] = [] :=
  (C4_nothing_when_score_equal exampleSel [] [] studentA exampleMarks [resultOther] []
    resultStale "70" (by decide) (by decide) (by decide) (by decide) (by decide)).2.trans
    (by decide)

/-- An empty mark, or no mark under a `studentId` that names no member of
`Object.prototype`, ends the iteration before anything is pushed. -/
theorem bulkSaveStep_of_blank (sel : Selection) (marks : Marks) (results : List StudentResult)
    (student : Student)
    (hblank : marks student.studentId = some "" ∨
      (marks student.studentId = none ∧ objectPrototypeMember? student.studentId = none)) :
    bulkSaveStep sel marks results student = [] := by
  rcases hblank with h | ⟨h, hp⟩
  · simp [bulkSaveStep, marksGet, h]
  · simp [bulkSaveStep, marksGet, h, hp]

/-- C5, and the input at which the code departs from it. A roster student whose mark is the
empty string, or is absent from the marks map under a `studentId` that names no member of
`Object.prototype`, makes the loop push nothing, whatever is stored; and no call the loop
pushes, for any roster, marks and stored collection, is a delete. But
`marks[student.studentId]` also reads what the object inherits: for the roster student of
`studentId` `constructor` and the marks map `{}` the mark is absent, and the loop pushes the
CREATE of a result of score `NaN` and grade `F`. -/
theorem C5_absent_mark_of_prototype_name_is_not_skipped :
    (∀ (sel : Selection) (pre post : List Student) (student : Student) (marks : Marks)
        (results : List StudentResult),
        (marks student.studentId = some "" ∨
          (marks student.studentId = none ∧
            objectPrototypeMember? student.studentId = none)) →
        bulkSaveStep sel marks results student = []
        ∧ handleBulkSaveOps sel (pre ++ student :: post) marks results =
          handleBulkSaveOps sel pre marks results ++ handleBulkSaveOps sel post marks results)
    ∧ (∀ (sel : Selection) (roster : List Student) (marks1 : Marks)
        (stored : List StudentResult) (id : String),
        Op.delete id ∉ handleBulkSaveOps sel roster marks1 stored)
    ∧ handleBulkSaveOps exampleSel [studentA, studentB] blankMarks [resultA 65] = []
    ∧ emptyMarks studentConstructor.studentId = none
    ∧ handleBulkSaveOps exampleSel [studentConstructor] emptyMarks [] =
      [Op.submit { studentName := "Con", studentId := "constructor", level := "ZJC",
                   className := "1A", subject := "Mathematics", term := "Term 1",
                   year := "2025", score := JSNum.nan, grade := "F" }] := by
  refine ⟨?_, ?_, by decide, rfl, by decide⟩
  · intro sel pre post student marks results hblank
    have hstep := bulkSaveStep_of_blank sel marks results student hblank
    refine ⟨hstep, ?_⟩
    rw [handleBulkSaveOps_split, hstep]; simp
  · intro sel roster marks1 stored id hmem
    rw [handleBulkSaveOps_eq_flatMap, List.mem_flatMap] at hmem
    obtain ⟨s, -, hs⟩ := hmem
    unfold bulkSaveStep at hs
    split at hs
    · simp at hs
    · split at hs
      · simp at hs
      · dsimp only at hs
        split at hs
        · split at hs <;> simp at hs
        · simp at hs

/-! ### Applying the dispatched calls -/

theorem mkPayload_grade (sel : Selection) (student : Student) (scoreNum : JSNum) :
    (mkPayload sel student scoreNum).grade = calculateGrade (mkPayload sel student scoreNum).score :=
  rfl

/-- Every call one iteration pushes carries `mkPayload` of the student and the parsed
mark, and is a CREATE or an UPDATE. -/
theorem payload?_of_mem_bulkSaveStep (sel : Selection) (marks : Marks)
    (results : List StudentResult) (student : Student) (op : Op)
    (hop : op ∈ bulkSaveStep sel marks results student) :
    ∃ scoreStr, marksGet marks student.studentId = some scoreStr ∧ scoreStr ≠ "" ∧
      op.payload? = some (mkPayload sel student (Number scoreStr)) := by
  unfold bulkSaveStep at hop
  split at hop
  · simp at hop
  · next scoreStr hmark =>
    split at hop
    · simp at hop
    · next hne =>
      refine ⟨scoreStr, hmark, hne, ?_⟩
      dsimp only at hop
      split at hop
      · split at hop
        · simp only [List.mem_singleton] at hop; subst hop; rfl
        · simp at hop
      · simp only [List.mem_singleton] at hop; subst hop; rfl

/-- A property of documents that every written payload establishes survives one call. -/
theorem applyOp_preserves (P : StudentResult → Prop) (user : Option String) (db : Firestore)
    (docs : List StudentResult) (op : Op)
    (hdocs : ∀ r ∈ docs, P r)
    (hadd : ∀ data, op = Op.submit data → ∀ id ts, P
      { id := id, studentName := data.studentName, studentId := data.studentId,
        level := data.level, className := data.className, subject := data.subject,
        score := data.score, grade := data.grade, term := data.term, year := data.year,
        createdAt := ts })
    (hmerge : ∀ id data, op = Op.update id data → ∀ r, P (mergeFields r data)) :
    ∀ r ∈ applyOp user db docs op, P r := by
  intro r hr
  cases op with
  | submit data =>
    simp only [applyOp, handleUploadResult, addDoc] at hr
    split at hr
    · exact hdocs r hr
    · rcases List.mem_append.mp hr with h | h
      · exact hdocs r h
      · simp only [List.mem_singleton] at h
        subst h
        exact hadd data rfl _ _
  | update id data =>
    simp only [applyOp, handleUpdateResult, updateDoc] at hr
    split at hr
    · exact hdocs r hr
    · obtain ⟨x, hx, rfl⟩ := List.mem_map.mp hr
      split
      · exact hmerge id data rfl x
      · exact hdocs x hx
  | delete id =>
    simp only [applyOp, handleDeleteResult, deleteDoc] at hr
    split at hr
    · exact hdocs r hr
    · exact hdocs r (List.mem_filter.mp hr).1

/-- C8: every payload `handleBulkSave` dispatches, on a CREATE or an UPDATE, has
`grade = calculateGrade(score)`; hence a stored collection in which every document has
`grade = calculateGrade(score)` is still so once the dispatched calls have been applied. -/
theorem C8_grade_follows_score (user : Option String) (db : Firestore) (sel : Selection)
    (classStudents : List Student) (marks : Marks) (results : List StudentResult) :
    (∀ op ∈ handleBulkSaveOps sel classStudents marks results, ∀ data,
        op.payload? = some data → data.grade = calculateGrade data.score)
    ∧ ((∀ r ∈ results, r.grade = calculateGrade r.score) →
        ∀ r ∈ afterBulkSave user db sel classStudents marks results,
          r.grade = calculateGrade r.score) := by
  have hops : ∀ op ∈ handleBulkSaveOps sel classStudents marks results, ∀ data,
      op.payload? = some data → data.grade = calculateGrade data.score := by
    intro op hop data hdata
    rw [handleBulkSaveOps_eq_flatMap, List.mem_flatMap] at hop
    obtain ⟨s, -, hs⟩ := hop
    obtain ⟨scoreStr, -, -, hp⟩ := payload?_of_mem_bulkSaveStep sel marks results s op hs
    rw [hp] at hdata
    cases hdata
    rfl
  refine ⟨hops, ?_⟩
  intro hinv
  unfold afterBulkSave applyOps
  generalize handleBulkSaveOps sel classStudents marks results = ops at hops
  induction ops generalizing results with
  | nil => simpa using hinv
  | cons op rest ih =>
    rw [List.foldl_cons]
    apply ih
    · apply applyOp_preserves _ user db results op hinv
      · intro data hop id ts
        exact hops op (List.mem_cons_self _ _) data (by rw [hop]; rfl)
      · intro id data hop r
        exact hops op (List.mem_cons_self _ _) data (by rw [hop]; rfl)
    · intro o ho; exact hops o (List.mem_cons_of_mem _ ho)

/-- Witness of C8: the spec scenario with A's stored score 65, one UPDATE and one CREATE
applied by a signed-in user. -/
theorem C8_grade_follows_score_witness :
    (∀ r ∈ [resultOther, resultA 65], r.grade = calculateGrade r.score)
    ∧ ∀ r ∈ afterBulkSave (some "uid") exampleStore exampleSel [studentA, studentB]
        exampleMarks [resultOther, resultA 65], r.grade = calculateGrade r.score :=
  ⟨by decide,
   (C8_grade_follows_score (some "uid") exampleStore exampleSel [studentA, studentB]
      exampleMarks [resultOther, resultA 65]).2 (by decide)⟩

/-! ### The search reads the identity key only -/

/-- Rewriting the level and class of stored results changes neither which result the
search returns for a student nor that result's id and score. -/
theorem find?_isExistingResult_relabel (sel : Selection) (student : Student)
    (newLevel newClass : StudentResult → String) (results : List StudentResult) :
    (results.map (fun r => { r with level := newLevel r, className := newClass r })).find?
        (isExistingResult sel student) =
      (results.find? (isExistingResult sel student)).map
        (fun r => { r with level := newLevel r, className := newClass r }) := by
  induction results with
  | nil => rfl
  | cons x xs ih =>
    simp only [List.map_cons, List.find?_cons]
    have hx : isExistingResult sel student
        { x with level := newLevel x, className := newClass x } =
        isExistingResult sel student x := rfl
    rw [hx]
    cases isExistingResult sel student x
    · exact ih
    · rfl

theorem bulkSaveStep_relabel (sel : Selection) (marks : Marks) (student : Student)
    (newLevel newClass : StudentResult → String) (results : List StudentResult) :
    bulkSaveStep sel marks
        (results.map (fun r => { r with level := newLevel r, className := newClass r })) student =
      bulkSaveStep sel marks results student := by
  unfold bulkSaveStep
  rw [find?_isExistingResult_relabel]
  cases results.find? (isExistingResult sel student) <;> rfl

/-- C9, as the code has it: the search is by identity key alone. The first stored result
with the student's studentId and the selected subject, term and year is the match also
when its level or class differ from the selection, and is then the target of the UPDATE
when its score differs from the parsed mark, an UPDATE that files it under the selected
level and class; and what the loop dispatches does not depend on the level and class of
any stored result. -/
theorem C9_search_by_identity_key_only (sel : Selection) (classStudents : List Student)
    (student : Student) (marks : Marks) (before after : List StudentResult)
    (r : StudentResult) (scoreStr : String)
    (hmark : marks student.studentId = some scoreStr) (hne : scoreStr ≠ "")
    (hbefore : ∀ x ∈ before, ¬ (x.studentId = student.studentId ∧
      x.subject = sel.selectedSubject ∧ x.term = sel.selectedTerm ∧
      x.year = sel.selectedYear))
    (hkey : r.studentId = student.studentId ∧ r.subject = sel.selectedSubject ∧
      r.term = sel.selectedTerm ∧ r.year = sel.selectedYear)
    (hdiff : r.score.strictNe (Number scoreStr) = true)
    (helsewhere : r.level ≠ sel.selectedLevel ∨ r.className ≠ sel.selectedClass) :
    bulkSaveStep sel marks (before ++ r :: after) student =
      [Op.update r.id
         { studentName := student.name, studentId := student.studentId,
           level := sel.selectedLevel, className := sel.selectedClass,
           subject := sel.selectedSubject, term := sel.selectedTerm,
           year := sel.selectedYear, score := Number scoreStr,
           grade := calculateGrade (Number scoreStr) }]
    ∧ ((mergeFields r (mkPayload sel student (Number scoreStr))).level = sel.selectedLevel
        ∧ (mergeFields r (mkPayload sel student (Number scoreStr))).className = sel.selectedClass
        ∧ mergeFields r (mkPayload sel student (Number scoreStr)) ≠ r)
    ∧ ∀ (newLevel newClass : StudentResult → String) (stored : List StudentResult),
        handleBulkSaveOps sel classStudents marks
          (stored.map (fun x => { x with level := newLevel x, className := newClass x })) =
        handleBulkSaveOps sel classStudents marks stored := by
  have hfind : (before ++ r :: after).find? (isExistingResult sel student) = some r := by
    apply find?_first
    · intro x hx
      have := hbefore x hx
      rw [← isExistingResult_iff] at this
      simpa using this
    · rw [isExistingResult_iff]; exact hkey
  have hstep := bulkSaveStep_of_mark sel marks (before ++ r :: after) student scoreStr hmark hne
  rw [hfind] at hstep
  simp only [hdiff, if_true] at hstep
  refine ⟨hstep, ⟨rfl, rfl, ?_⟩, ?_⟩
  · intro hsame
    rcases helsewhere with h | h
    · exact h (congrArg StudentResult.level hsame).symm
    · exact h (congrArg StudentResult.className hsame).symm
  intro newLevel newClass stored
  rw [handleBulkSaveOps_eq_flatMap, handleBulkSaveOps_eq_flatMap]
  congr 1
  funext s
  exact bulkSaveStep_relabel sel marks s newLevel newClass stored

/-- Counterexample to C9 as stated: the only stored result under A's key is filed under
level `O Level`, class `3 Arts`, while the selection is `ZJC`, `1A`; it is nevertheless
the target of the UPDATE. -/
theorem C9_counterexample :
    resultElsewhere.level ≠ exampleSel.selectedLevel
    ∧ resultElsewhere.className ≠ exampleSel.selectedClass
    ∧ handleBulkSaveOps exampleSel [studentA] exampleMarks [resultElsewhere] =
      [Op.update resultElsewhere.id
         { studentName := "Ada", studentId := "ST-001", level := "ZJC",
           className := "1A", subject := "Mathematics", term := "Term 1",
           year := "2025", score := JSNum.ofInt 70, grade := "B" }] := by
  decide

/-- Witness of C9 as amended: a stored result of A's key filed under class `1B`, after an
unrelated document. -/
theorem C9_search_by_identity_key_only_witness :
    bulkSaveStep exampleSel exampleMarks [resultOther, resultOtherClass] studentA =
      [Op.update "r7"
         { studentName := "Ada", studentId := "ST-001", level := "ZJC",
           className := "1A", subject := "Mathematics", term := "Term 1",
           year := "2025", score := JSNum.ofInt 70, grade := "B" }] :=
  (C9_search_by_identity_key_only exampleSel [] studentA exampleMarks [resultOther] []
    resultOtherClass "70" (by decide) (by decide) (by decide) (by decide) (by decide)
    (Or.inr (by decide))).1.trans (by decide)

/-! ### Marks are not validated -/

/-- C10, as the code has it: a non-empty mark is never skipped for being unparseable or
out of range; it is processed like any other, with `Number(mark)` as score and the grade
of that. With no stored result under the key the iteration pushes a CREATE; with a first
stored result under the key whose score is another value it pushes an UPDATE of it.
`Number` gives `NaN` on `abc` (grade `F`), 150 on `150` (grade `A+`) and -5 on `-5`
(grade `F`). -/
theorem C10_invalid_mark_is_processed (sel : Selection) (marks : Marks)
    (results : List StudentResult) (student : Student) (scoreStr : String)
    (hmark : marks student.studentId = some scoreStr) (hne : scoreStr ≠ "") :
    ((∀ r ∈ results, ¬ (r.studentId = student.studentId ∧ r.subject = sel.selectedSubject ∧
          r.term = sel.selectedTerm ∧ r.year = sel.selectedYear)) →
        bulkSaveStep sel marks results student =
          [Op.submit { studentName := student.name, studentId := student.studentId,
                       level := sel.selectedLevel, className := sel.selectedClass,
                       subject := sel.selectedSubject, term := sel.selectedTerm,
                       year := sel.selectedYear, score := Number scoreStr,
                       grade := calculateGrade (Number scoreStr) }])
    ∧ (∀ (before after : List StudentResult) (r : StudentResult),
        results = before ++ r :: after →
        (∀ x ∈ before, ¬ (x.studentId = student.studentId ∧
          x.subject = sel.selectedSubject ∧ x.term = sel.selectedTerm ∧
          x.year = sel.selectedYear)) →
        (r.studentId = student.studentId ∧ r.subject = sel.selectedSubject ∧
          r.term = sel.selectedTerm ∧ r.year = sel.selectedYear) →
        r.score ≠ Number scoreStr →
        bulkSaveStep sel marks results student =
          [Op.update r.id
             { studentName := student.name, studentId := student.studentId,
               level := sel.selectedLevel, className := sel.selectedClass,
               subject := sel.selectedSubject, term := sel.selectedTerm,
               year := sel.selectedYear, score := Number scoreStr,
               grade := calculateGrade (Number scoreStr) }])
    ∧ (Number "abc" = JSNum.nan ∧ calculateGrade (Number "abc") = "F")
    ∧ (Number "150" = JSNum.ofInt 150 ∧ calculateGrade (Number "150") = "A+")
    ∧ (Number "-5" = JSNum.ofInt (-5) ∧ calculateGrade (Number "-5") = "F") := by
  have hstep := bulkSaveStep_of_mark sel marks results student scoreStr hmark hne
  refine ⟨?_, ?_, by decide, by decide, by decide⟩
  · intro hnone
    have hfind : results.find? (isExistingResult sel student) = none := by
      rw [List.find?_eq_none]
      intro r hr
      rw [isExistingResult_iff]
      exact hnone r hr
    rw [hfind] at hstep
    exact hstep
  · intro before after r hsplit hbefore hkey hdiff
    have hfind : results.find? (isExistingResult sel student) = some r := by
      rw [hsplit]
      apply find?_first
      · intro x hx
        have := hbefore x hx
        rw [← isExistingResult_iff] at this
        simpa using this
      · rw [isExistingResult_iff]; exact hkey
    have hcmp : r.score.strictNe (Number scoreStr) = true :=
      (JSNum.strictNe_eq_true_iff _ _).mpr (Or.inl hdiff)
    rw [hfind] at hstep
    simp only [hcmp, if_true] at hstep
    exact hstep

/-- Counterexample to C10 as stated: with nothing stored, the marks `abc`, `150` and `-5`
each make the loop push a CREATE, of score `NaN`, 150 and -5. -/
theorem C10_counterexample :
    handleBulkSaveOps exampleSel [studentA] (fun _ => some "abc") [] =
      [Op.submit { studentName := "Ada", studentId := "ST-001", level := "ZJC",
                   className := "1A", subject := "Mathematics", term := "Term 1",
                   year := "2025", score := JSNum.nan, grade := "F" }]
    ∧ handleBulkSaveOps exampleSel [studentA] (fun _ => some "150") [] =
      [Op.submit { studentName := "Ada", studentId := "ST-001", level := "ZJC",
                   className := "1A", subject := "Mathematics", term := "Term 1",
                   year := "2025", score := JSNum.ofInt 150, grade := "A+" }]
    ∧ handleBulkSaveOps exampleSel [studentA] (fun _ => some "-5") [resultOther] =
      [Op.submit { studentName := "Ada", studentId := "ST-001", level := "ZJC",
                   className := "1A", subject := "Mathematics", term := "Term 1",
                   year := "2025", score := JSNum.ofInt (-5), grade := "F" }] := by
  decide

/-- Witness of C10 as amended: the mark `abc` against A's stored result of score 65 makes
the iteration push an UPDATE of score `NaN` and grade `F`. -/
theorem C10_invalid_mark_is_processed_witness :
    bulkSaveStep exampleSel (fun _ => some "abc") [resultA 65] studentA =
      [Op.update "r1"
         { studentName := "Ada", studentId := "ST-001", level := "ZJC",
           className := "1A", subject := "Mathematics", term := "Term 1",
           year := "2025", score := JSNum.nan, grade := "F" }] :=
  ((C10_invalid_mark_is_processed exampleSel (fun _ => some "abc") [resultA 65] studentA "abc"
    rfl (by decide)).2.1 [] [] (resultA 65) rfl (by decide) (by decide) (by decide)).trans
    (by decide)

/-! ### Convergence of the store under a bulk save -/

theorem isExistingResult_iff_key (sel : Selection) (student : Student) (r : StudentResult) :
    isExistingResult sel student r = true ↔ identityKey r = studentKey sel student := by
  simp [isExistingResult_iff, identityKey, studentKey, Prod.ext_iff]

theorem identityKey_mergeFields_mkPayload (sel : Selection) (student : Student) (v : JSNum)
    (r : StudentResult) :
    identityKey (mergeFields r (mkPayload sel student v)) = studentKey sel student := rfl

/-- In a list without two elements of the same key, the elements of a given key are the
one at hand. -/
theorem filter_key_eq_singleton {α β : Type} [DecidableEq β] (f : α → β) (l : List α)
    (hnodup : (l.map f).Nodup) (x : α) (hx : x ∈ l) :
    l.filter (fun y => decide (f y = f x)) = [x] := by
  induction l with
  | nil => simp at hx
  | cons a as ih =>
    rw [List.map_cons, List.nodup_cons] at hnodup
    rcases List.mem_cons.mp hx with rfl | hmem
    · have hrest : as.filter (fun y => decide (f y = f x)) = [] := by
        rw [List.filter_eq_nil_iff]
        intro y hy hfy
        exact hnodup.1 (by
          rw [← of_decide_eq_true hfy]
          exact List.mem_map_of_mem f hy)
      simp [List.filter_cons, hrest]
    · have hne : f a ≠ f x := by
        intro h
        exact hnodup.1 (by rw [h]; exact List.mem_map_of_mem f hmem)
      simp [List.filter_cons, hne, ih hnodup.2 hmem]

/-- What the calls of one iteration do to a collection `cur` that holds, under the
student's key, what the snapshot `results` holds: identifiers and keys stay without
repetition, documents of other keys are untouched, and a non-empty mark ends up as the
score of a document under the student's key. -/
theorem applyOps_bulkSaveStep_effect (uid : String) (db : Firestore)
    (hfresh : ∀ docs, db.autoId docs ∉ docs.map StudentResult.id)
    (sel : Selection) (marks : Marks) (results cur : List StudentResult) (student : Student)
    (hids : (cur.map StudentResult.id).Nodup)
    (hkeys : (cur.map identityKey).Nodup)
    (hagree : ∀ x, identityKey x = studentKey sel student → (x ∈ cur ↔ x ∈ results)) :
    ((applyOps (some uid) db cur (bulkSaveStep sel marks results student)).map
        StudentResult.id).Nodup
    ∧ ((applyOps (some uid) db cur (bulkSaveStep sel marks results student)).map
        identityKey).Nodup
    ∧ (∀ x, identityKey x ≠ studentKey sel student →
        (x ∈ applyOps (some uid) db cur (bulkSaveStep sel marks results student) ↔ x ∈ cur))
    ∧ (∀ scoreStr, marksGet marks student.studentId = some scoreStr → scoreStr ≠ "" →
        ∃ x ∈ applyOps (some uid) db cur (bulkSaveStep sel marks results student),
          identityKey x = studentKey sel student ∧ x.score = Number scoreStr) := by
  cases hm : marksGet marks student.studentId with
  | none =>
    have hstep : bulkSaveStep sel marks results student = [] := by simp [bulkSaveStep, hm]
    rw [hstep]
    exact ⟨hids, hkeys, fun _ _ => Iff.rfl, fun _ h => by simp at h⟩
  | some m =>
    by_cases hne : m = ""
    · have hstep : bulkSaveStep sel marks results student = [] := by
        simp [bulkSaveStep, hm, hne]
      rw [hstep]
      refine ⟨hids, hkeys, fun _ _ => Iff.rfl, ?_⟩
      intro scoreStr hs hs2
      simp only [Option.some.injEq] at hs
      exact absurd (hs ▸ hne) hs2
    · have hstep := bulkSaveStep_of_get sel marks results student m hm hne
      cases hfind : results.find? (isExistingResult sel student) with
      | none =>
        rw [hfind] at hstep
        rw [hstep]
        have hnokey : ∀ x ∈ cur, identityKey x ≠ studentKey sel student := by
          intro x hx hk
          have hxr : x ∈ results := (hagree x hk).mp hx
          have := List.find?_eq_none.mp hfind x hxr
          exact this ((isExistingResult_iff_key sel student x).mpr hk)
        simp only [applyOps, List.foldl_cons, List.foldl_nil, applyOp, handleUploadResult,
          Option.isNone_some, Bool.false_eq_true, if_false, addDoc]
        refine ⟨?_, ?_, ?_, ?_⟩
        · rw [List.map_append, List.nodup_append]
          refine ⟨hids, by simp, ?_⟩
          intro a ha hb
          simp only [List.map_cons, List.map_nil, List.mem_singleton] at hb
          subst hb
          exact hfresh cur ha
        · rw [List.map_append, List.nodup_append]
          refine ⟨hkeys, by simp, ?_⟩
          intro a ha hb
          simp only [List.map_cons, List.map_nil, List.mem_singleton] at hb
          obtain ⟨x, hx, rfl⟩ := List.mem_map.mp ha
          exact hnokey x hx hb
        · intro x hx
          rw [List.mem_append, List.mem_singleton]
          constructor
          · rintro (h | h)
            · exact h
            · exact absurd (by rw [h]; rfl) hx
          · exact Or.inl
        · intro scoreStr hs _
          simp only [Option.some.injEq] at hs
          subst hs
          exact ⟨_, List.mem_append_right _ (List.mem_singleton_self _), rfl, rfl⟩
      | some r =>
        rw [hfind] at hstep
        have hrkey : identityKey r = studentKey sel student :=
          (isExistingResult_iff_key sel student r).mp (List.find?_some hfind)
        have hrcur : r ∈ cur := (hagree r hrkey).mpr (List.mem_of_find?_eq_some hfind)
        cases hcmp : r.score.strictNe (Number m) with
        | false =>
          simp only [hcmp] at hstep
          have hstep2 : bulkSaveStep sel marks results student = [] := by rw [hstep]; rfl
          rw [hstep2]
          refine ⟨hids, hkeys, fun _ _ => Iff.rfl, ?_⟩
          intro scoreStr hs _
          simp only [Option.some.injEq] at hs
          subst hs
          have heq : r.score.strictEq (Number m) = true := by
            simpa [JSNum.strictNe] using hcmp
          exact ⟨r, hrcur, hrkey, ((JSNum.strictEq_eq_true_iff _ _).mp heq).1⟩
        | true =>
          simp only [hcmp, if_true] at hstep
          rw [hstep]
          have honly : ∀ x ∈ cur, x.id = r.id → x = r := fun x hx hid =>
            List.inj_on_of_nodup_map hids hx hrcur hid
          simp only [applyOps, List.foldl_cons, List.foldl_nil, applyOp, handleUpdateResult,
            Option.isNone_some, Bool.false_eq_true, if_false, updateDoc]
          have hidmap : (cur.map (fun x => if x.id = r.id
              then mergeFields x (mkPayload sel student (Number m)) else x)).map StudentResult.id
              = cur.map StudentResult.id := by
            rw [List.map_map]
            apply List.map_congr_left
            intro x _
            simp only [Function.comp]
            split <;> rfl
          have hkeymap : (cur.map (fun x => if x.id = r.id
              then mergeFields x (mkPayload sel student (Number m)) else x)).map identityKey
              = cur.map identityKey := by
            rw [List.map_map]
            apply List.map_congr_left
            intro x hx
            simp only [Function.comp]
            split
            · next hid =>
              rw [honly x hx hid, identityKey_mergeFields_mkPayload, hrkey]
            · rfl
          refine ⟨by rw [hidmap]; exact hids, by rw [hkeymap]; exact hkeys, ?_, ?_⟩
          · intro x hx
            rw [List.mem_map]
            constructor
            · rintro ⟨y, hy, hyx⟩
              split at hyx
              · exact absurd (by rw [← hyx]; rfl) hx
              · exact hyx ▸ hy
            · intro hxc
              refine ⟨x, hxc, ?_⟩
              have hid : x.id ≠ r.id := by
                intro hid
                exact hx (by rw [honly x hxc hid]; exact hrkey)
              simp [hid]
          · intro scoreStr hs _
            simp only [Option.some.injEq] at hs
            subst hs
            refine ⟨mergeFields r (mkPayload sel student (Number m)), ?_, rfl, rfl⟩
            rw [List.mem_map]
            exact ⟨r, hrcur, by simp⟩

theorem studentKey_ne_of_studentId_ne (sel : Selection) (s t : Student)
    (h : s.studentId ≠ t.studentId) : studentKey sel s ≠ studentKey sel t := by
  intro hk
  exact h (congrArg Prod.fst hk)

theorem applyOps_append (user : Option String) (db : Firestore) (docs : List StudentResult)
    (ops1 ops2 : List Op) :
    applyOps user db docs (ops1 ++ ops2) = applyOps user db (applyOps user db docs ops1) ops2 := by
  simp [applyOps, List.foldl_append]

/-- What the calls of a whole run do, for a roster without two students of one studentId,
to a collection `cur` that holds, under each roster student's key, what the snapshot
`results` holds. -/
theorem applyOps_roster_effect (uid : String) (db : Firestore)
    (hfresh : ∀ docs, db.autoId docs ∉ docs.map StudentResult.id)
    (sel : Selection) (marks : Marks) (results : List StudentResult) :
    ∀ (rest : List Student) (cur : List StudentResult),
      (rest.map Student.studentId).Nodup →
      (cur.map StudentResult.id).Nodup →
      (cur.map identityKey).Nodup →
      (∀ s ∈ rest, ∀ x, identityKey x = studentKey sel s → (x ∈ cur ↔ x ∈ results)) →
      ((applyOps (some uid) db cur (rest.flatMap (bulkSaveStep sel marks results))).map
          StudentResult.id).Nodup
      ∧ ((applyOps (some uid) db cur (rest.flatMap (bulkSaveStep sel marks results))).map
          identityKey).Nodup
      ∧ (∀ K, (∀ s ∈ rest, K ≠ studentKey sel s) → ∀ x, identityKey x = K →
          (x ∈ applyOps (some uid) db cur (rest.flatMap (bulkSaveStep sel marks results))
            ↔ x ∈ cur))
      ∧ (∀ s ∈ rest, ∀ scoreStr, marksGet marks s.studentId = some scoreStr → scoreStr ≠ "" →
          ∃ x ∈ applyOps (some uid) db cur (rest.flatMap (bulkSaveStep sel marks results)),
            identityKey x = studentKey sel s ∧ x.score = Number scoreStr) := by
  intro rest
  induction rest with
  | nil =>
    intro cur _ hids hkeys _
    refine ⟨hids, hkeys, fun _ _ _ _ => Iff.rfl, ?_⟩
    intro s hs
    simp at hs
  | cons s rest ih =>
    intro cur hroster hids hkeys hagree
    rw [List.map_cons, List.nodup_cons] at hroster
    obtain ⟨hsnot, hrest⟩ := hroster
    have hdistinct : ∀ t ∈ rest, studentKey sel s ≠ studentKey sel t := by
      intro t ht
      apply studentKey_ne_of_studentId_ne
      intro h
      exact hsnot (by rw [h]; exact List.mem_map_of_mem Student.studentId ht)
    obtain ⟨e1, e2, e3, e4⟩ := applyOps_bulkSaveStep_effect uid db hfresh sel marks results cur s
      hids hkeys (hagree s (List.mem_cons_self _ _))
    have hagree2 : ∀ t ∈ rest, ∀ x, identityKey x = studentKey sel t →
        (x ∈ applyOps (some uid) db cur (bulkSaveStep sel marks results s) ↔ x ∈ results) := by
      intro t ht x hx
      rw [e3 x (by rw [hx]; exact (hdistinct t ht).symm)]
      exact hagree t (List.mem_cons_of_mem _ ht) x hx
    obtain ⟨f1, f2, f3, f4⟩ := ih _ hrest e1 e2 hagree2
    rw [List.flatMap_cons, applyOps_append]
    refine ⟨f1, f2, ?_, ?_⟩
    · intro K hK x hx
      rw [f3 K (fun t ht => hK t (List.mem_cons_of_mem _ ht)) x hx]
      exact e3 x (by rw [hx]; exact hK s (List.mem_cons_self _ _))
    · intro t ht scoreStr hm hne
      rcases List.mem_cons.mp ht with rfl | ht2
      · obtain ⟨x, hx, hxk, hxs⟩ := e4 scoreStr hm hne
        exact ⟨x, (f3 _ hdistinct x hxk).mpr hx, hxk, hxs⟩
      · exact f4 t ht2 scoreStr hm hne

/-- The identifiers `longerId` gives are not in use. -/
theorem longerId_fresh (docs : List StudentResult) :
    longerId docs ∉ docs.map StudentResult.id := by
  have hbound : ∀ (l : List StudentResult), ∀ r ∈ l,
      r.id.length ≤ l.foldr (fun r n => max r.id.length n) 0 := by
    intro l
    induction l with
    | nil => intro r hr; simp at hr
    | cons a as ih =>
      intro r hr
      rw [List.foldr_cons]
      rcases List.mem_cons.mp hr with rfl | h
      · exact le_max_left _ _
      · exact le_trans (ih r h) (le_max_right _ _)
  intro hmem
  obtain ⟨r, hr, hid⟩ := List.mem_map.mp hmem
  have hlen := hbound docs r hr
  have hl : (longerId docs).length = docs.foldr (fun r n => max r.id.length n) 0 + 1 := by
    simp only [longerId, String.length, List.length_replicate]
  rw [hid, hl] at hlen
  omega

/-- C7: when the stored collection holds at most one result per identity key (documents
having distinct identifiers, new ones getting an unused identifier) and no two roster
students share a studentId, the collection after a signed-in bulk save still holds at most
one result per identity key, and for every roster student with a non-empty mark exactly
one result has the key (studentId, selected subject, selected term, selected year); its
score is the parsed mark, for an integer mark that integer. -/
theorem C7_converges_to_one_result_per_key (uid : String) (db : Firestore) (sel : Selection)
    (classStudents : List Student) (marks : Marks) (results : List StudentResult)
    (hfresh : ∀ docs, db.autoId docs ∉ docs.map StudentResult.id)
    (hids : (results.map StudentResult.id).Nodup)
    (hkeys : (results.map identityKey).Nodup)
    (hroster : (classStudents.map Student.studentId).Nodup) :
    ((afterBulkSave (some uid) db sel classStudents marks results).map identityKey).Nodup
    ∧ ∀ student ∈ classStudents, ∀ scoreStr,
        marks student.studentId = some scoreStr → scoreStr ≠ "" →
        ∃ r, (afterBulkSave (some uid) db sel classStudents marks results).filter
              (fun x => decide (identityKey x =
                (student.studentId, sel.selectedSubject, sel.selectedTerm,
                  sel.selectedYear))) = [r]
          ∧ r.score = Number scoreStr
          ∧ ∀ z : Int, Number scoreStr = JSNum.ofInt z → r.score = JSNum.ofInt z := by
  unfold afterBulkSave
  rw [handleBulkSaveOps_eq_flatMap]
  obtain ⟨-, f2, -, f4⟩ := applyOps_roster_effect uid db hfresh sel marks results
    classStudents results hroster hids hkeys (fun _ _ _ _ => Iff.rfl)
  refine ⟨f2, ?_⟩
  intro student hs scoreStr hm hne
  obtain ⟨x, hx, hxk, hxs⟩ := f4 student hs scoreStr (marksGet_of_some hm) hne
  refine ⟨x, ?_, hxs, fun z hz => hxs.trans hz⟩
  have := filter_key_eq_singleton identityKey _ f2 x hx
  rw [hxk] at this
  exact this

/-- Witness of C7: the spec scenario with A's stored score 65 next to an unrelated result;
afterwards A's key holds the one result of score 70 and B's key the one new result of
score 85. -/
theorem C7_converges_to_one_result_per_key_witness :
    ((afterBulkSave (some "uid") exampleStore exampleSel [studentA, studentB] exampleMarks
        [resultOther, resultA 65]).map identityKey).Nodup
    ∧ afterBulkSave (some "uid") exampleStore exampleSel [studentA, studentB] exampleMarks
        [resultOther, resultA 65] =
      [resultOther, resultA 70,
       { id := "ddd", studentName := "Ben", studentId := "ST-002", level := "ZJC",
         className := "1A", subject := "Mathematics", score := JSNum.ofInt 85, grade := "A",
         term := "Term 1", year := "2025", createdAt := some 2 }] :=
  ⟨(C7_converges_to_one_result_per_key "uid" exampleStore exampleSel [studentA, studentB]
      exampleMarks [resultOther, resultA 65] longerId_fresh (by decide) (by decide)
      (by decide)).1,
   by decide⟩

/-! ### A second run after a bulk save -/

theorem find?_map_of_pred_eq {α : Type} (p : α → Bool) (f : α → α) (l : List α)
    (hp : ∀ y ∈ l, p (f y) = p y) :
    (l.map f).find? p = (l.find? p).map f := by
  induction l with
  | nil => rfl
  | cons a as ih =>
    have ha : p (f a) = p a := hp a (List.mem_cons_self _ _)
    have has : ∀ y ∈ as, p (f y) = p y := fun y hy => hp y (List.mem_cons_of_mem _ hy)
    simp only [List.map_cons, List.find?_cons, ha]
    cases p a
    · exact ih has
    · rfl

theorem isExistingResult_congr_key (sel : Selection) (student : Student)
    (x y : StudentResult) (h : identityKey x = identityKey y) :
    isExistingResult sel student x = isExistingResult sel student y := by
  rw [Bool.eq_iff_iff, isExistingResult_iff_key, isExistingResult_iff_key, h]

theorem studentId_eq_of_isExistingResult (sel : Selection) (s t : Student) (x : StudentResult)
    (hs : isExistingResult sel s x = true) (ht : isExistingResult sel t x = true) :
    s.studentId = t.studentId := by
  rw [isExistingResult_iff] at hs ht
  rw [← hs.1, ← ht.1]

theorem studentId_eq_of_key (sel : Selection) (s t : Student) (x : StudentResult)
    (hs : identityKey x = studentKey sel s) (ht : isExistingResult sel t x = true) :
    s.studentId = t.studentId :=
  studentId_eq_of_isExistingResult sel s t x ((isExistingResult_iff_key sel s x).mpr hs) ht

/-- The snapshot tracks itself before any call is applied. -/
theorem Tracks.init (sel : Selection) (marks : Marks) (results : List StudentResult)
    (hids : (results.map StudentResult.id).Nodup) :
    Tracks sel marks results [] results where
  keyOfId := fun y hy r hr hid => by rw [List.inj_on_of_nodup_map hids hy hr hid]
  idsKept := fun r hr => List.mem_map_of_mem StudentResult.id hr
  settled := fun s hs => by simp at hs
  first := fun s r hr => ⟨r, hr, rfl, Or.inl rfl⟩
  created := fun s hnone x hx hk => by
    have := List.find?_eq_none.mp hnone x hx
    exact absurd hk this

/-- An iteration that pushes nothing leaves the tracking in place. -/
theorem Tracks.step_nothing (sel : Selection) (marks : Marks) (results : List StudentResult)
    (done : List Student) (cur : List StudentResult) (s : Student)
    (h : Tracks sel marks results done cur)
    (hs : ∀ m, marksGet marks s.studentId = some m → m ≠ "" →
      ∃ r, results.find? (isExistingResult sel s) = some r ∧ r.score = Number m) :
    Tracks sel marks results (done ++ [s]) cur where
  keyOfId := h.keyOfId
  idsKept := h.idsKept
  first := h.first
  created := h.created
  settled := by
    intro t ht m hm hne
    rcases List.mem_append.mp ht with htd | hts
    · exact h.settled t htd m hm hne
    · rw [List.mem_singleton] at hts
      subst hts
      obtain ⟨r, hr, hscore⟩ := hs m hm hne
      obtain ⟨x, hx, -, hxs⟩ := h.first t r hr
      refine ⟨x, hx, ?_⟩
      rcases hxs with h1 | ⟨m2, hm2, -, h2⟩
      · rw [h1, hscore]
      · rw [hm] at hm2
        cases hm2
        exact h2

/-- A CREATE for a student with nothing stored under the key keeps the tracking. -/
theorem Tracks.step_submit (sel : Selection) (marks : Marks) (results : List StudentResult)
    (done : List Student) (cur : List StudentResult) (s : Student) (db : Firestore)
    (hfresh : ∀ docs, db.autoId docs ∉ docs.map StudentResult.id)
    (h : Tracks sel marks results done cur) (m : String)
    (hm : marksGet marks s.studentId = some m) (hne : m ≠ "")
    (hnone : results.find? (isExistingResult sel s) = none) :
    Tracks sel marks results (done ++ [s])
      (addDoc db (mkPayload sel s (Number m)) cur) := by
  have hmem : ∀ x, x ∈ addDoc db (mkPayload sel s (Number m)) cur →
      x ∈ cur ∨ (x.id = db.autoId cur ∧ identityKey x = studentKey sel s ∧
        x.score = Number m) := by
    intro x hx
    simp only [addDoc, List.mem_append, List.mem_singleton] at hx
    rcases hx with hx | hx
    · exact Or.inl hx
    · exact Or.inr (by subst hx; exact ⟨rfl, rfl, rfl⟩)
  have hfind : ∀ (t : Student) (x : StudentResult),
      cur.find? (isExistingResult sel t) = some x →
      (addDoc db (mkPayload sel s (Number m)) cur).find? (isExistingResult sel t) = some x := by
    intro t x hx
    simp [addDoc, List.find?_append, hx]
  refine ⟨?_, ?_, ?_, ?_, ?_⟩
  · intro y hy r hr hid
    rcases hmem y hy with hy | ⟨hyid, -, -⟩
    · exact h.keyOfId y hy r hr hid
    · exact absurd (by rw [← hyid, hid]; exact h.idsKept r hr) (hfresh cur)
  · intro r hr
    simp only [addDoc, List.map_append, List.mem_append]
    exact Or.inl (h.idsKept r hr)
  · intro t ht m2 hm2 hne2
    rcases List.mem_append.mp ht with htd | hts
    · obtain ⟨x, hx, hxs⟩ := h.settled t htd m2 hm2 hne2
      exact ⟨x, hfind t x hx, hxs⟩
    · rw [List.mem_singleton] at hts
      subst hts
      rw [hm] at hm2
      cases hm2
      cases hcur : cur.find? (isExistingResult sel t) with
      | some x =>
        refine ⟨x, hfind t x hcur, ?_⟩
        obtain ⟨m3, hm3, -, hx3⟩ := h.created t hnone x (List.mem_of_find?_eq_some hcur)
          (List.find?_some hcur)
        rw [hm] at hm3
        cases hm3
        exact hx3
      | none =>
        refine ⟨newDoc db (mkPayload sel t (Number m)) cur, ?_, rfl⟩
        have hnew : isExistingResult sel t (newDoc db (mkPayload sel t (Number m)) cur)
            = true := by
          rw [isExistingResult_iff_key]; rfl
        simp only [addDoc, List.find?_append, hcur, Option.none_or, List.find?_cons, hnew]
  · intro u r hr
    obtain ⟨x, hx, hxid, hxs⟩ := h.first u r hr
    exact ⟨x, hfind u x hx, hxid, hxs⟩
  · intro u hu x hx hk
    rcases hmem x hx with hx | ⟨-, hxkey, hxs⟩
    · exact h.created u hu x hx hk
    · refine ⟨m, ?_, hne, hxs⟩
      rw [← studentId_eq_of_key sel s u x hxkey hk]
      exact hm

/-- An UPDATE of the first stored result under the student's key keeps the tracking. -/
theorem Tracks.step_update (sel : Selection) (marks : Marks) (results : List StudentResult)
    (done : List Student) (cur : List StudentResult) (s : Student)
    (h : Tracks sel marks results done cur) (m : String)
    (hm : marksGet marks s.studentId = some m) (hne : m ≠ "") (r : StudentResult)
    (hr : results.find? (isExistingResult sel s) = some r) :
    Tracks sel marks results (done ++ [s])
      (updateDoc r.id (mkPayload sel s (Number m)) cur) := by
  have hrmem : r ∈ results := List.mem_of_find?_eq_some hr
  have hrkey : identityKey r = studentKey sel s :=
    (isExistingResult_iff_key sel s r).mp (List.find?_some hr)
  -- the documents the call writes to are under the student's key already
  have htarget : ∀ y ∈ cur, y.id = r.id → identityKey y = studentKey sel s := by
    intro y hy hid
    rw [h.keyOfId y hy r hrmem hid, hrkey]
  have hkey : ∀ y ∈ cur, identityKey
      (if y.id = r.id then mergeFields y (mkPayload sel s (Number m)) else y) = identityKey y := by
    intro y hy
    split
    · next hid => rw [identityKey_mergeFields_mkPayload, htarget y hy hid]
    · rfl
  have hid : ∀ y : StudentResult,
      (if y.id = r.id then mergeFields y (mkPayload sel s (Number m)) else y).id = y.id := by
    intro y; split <;> rfl
  have hfind : ∀ (t : Student),
      (updateDoc r.id (mkPayload sel s (Number m)) cur).find? (isExistingResult sel t) =
      (cur.find? (isExistingResult sel t)).map
        (fun y => if y.id = r.id then mergeFields y (mkPayload sel s (Number m)) else y) := by
    intro t
    unfold updateDoc
    apply find?_map_of_pred_eq
    intro y hy
    exact isExistingResult_congr_key sel t _ _ (hkey y hy)
  -- the score of a document of `cur` under student `t`'s key once the call is applied
  have hscore : ∀ (t : Student) (y : StudentResult) (v : JSNum), y ∈ cur →
      isExistingResult sel t y = true →
      (y.score = v ∨ ∃ m2, marksGet marks t.studentId = some m2 ∧ m2 ≠ "" ∧ y.score = Number m2) →
      ((if y.id = r.id then mergeFields y (mkPayload sel s (Number m)) else y).score = v ∨
        ∃ m2, marksGet marks t.studentId = some m2 ∧ m2 ≠ "" ∧
          (if y.id = r.id then mergeFields y (mkPayload sel s (Number m)) else y).score
            = Number m2) := by
    intro t y v hy hk hv
    split
    · next hyid =>
      refine Or.inr ⟨m, ?_, hne, rfl⟩
      rw [← studentId_eq_of_key sel s t y (htarget y hy hyid) hk]
      exact hm
    · exact hv
  refine ⟨?_, ?_, ?_, ?_, ?_⟩
  · intro y hy r2 hr2 hyid
    obtain ⟨z, hz, rfl⟩ := List.mem_map.mp hy
    rw [hid z] at hyid
    rw [hkey z hz]
    exact h.keyOfId z hz r2 hr2 hyid
  · intro r2 hr2
    have : (updateDoc r.id (mkPayload sel s (Number m)) cur).map StudentResult.id
        = cur.map StudentResult.id := by
      unfold updateDoc
      rw [List.map_map]
      apply List.map_congr_left
      intro y _
      exact hid y
    rw [this]
    exact h.idsKept r2 hr2
  · intro t ht m2 hm2 hne2
    rcases List.mem_append.mp ht with htd | hts
    · obtain ⟨x, hx, hxs⟩ := h.settled t htd m2 hm2 hne2
      refine ⟨_, by rw [hfind t, hx]; rfl, ?_⟩
      rcases hscore t x (Number m2) (List.mem_of_find?_eq_some hx) (List.find?_some hx)
        (Or.inl hxs) with h1 | ⟨m3, hm3, -, h3⟩
      · exact h1
      · rw [hm2] at hm3
        cases hm3
        exact h3
    · rw [List.mem_singleton] at hts
      subst hts
      rw [hm] at hm2
      cases hm2
      obtain ⟨x, hx, hxid, -⟩ := h.first t r hr
      refine ⟨_, by rw [hfind t, hx]; rfl, ?_⟩
      simp only [hxid, if_true]
      rfl
  · intro u r2 hr2
    obtain ⟨x, hx, hxid, hxs⟩ := h.first u r2 hr2
    refine ⟨_, by rw [hfind u, hx]; rfl, by rw [hid x]; exact hxid, ?_⟩
    exact hscore u x r2.score (List.mem_of_find?_eq_some hx) (List.find?_some hx) hxs
  · intro u hu x hx hk
    obtain ⟨y, hy, rfl⟩ := List.mem_map.mp hx
    have hky : isExistingResult sel u y = true := by
      rw [← isExistingResult_congr_key sel u _ _ (hkey y hy)]
      exact hk
    obtain ⟨m2, hm2, hne2, hy2⟩ := h.created u hu y hy hky
    rcases hscore u y (Number m2) hy hky (Or.inl hy2) with h1 | h1
    · exact ⟨m2, hm2, hne2, h1⟩
    · exact h1

/-- One iteration of the loop, its calls applied by a signed-in user, keeps the tracking. -/
theorem Tracks.step (uid : String) (db : Firestore)
    (hfresh : ∀ docs, db.autoId docs ∉ docs.map StudentResult.id)
    (sel : Selection) (marks : Marks) (results : List StudentResult)
    (done : List Student) (cur : List StudentResult) (s : Student)
    (h : Tracks sel marks results done cur) :
    Tracks sel marks results (done ++ [s])
      (applyOps (some uid) db cur (bulkSaveStep sel marks results s)) := by
  cases hm : marksGet marks s.studentId with
  | none =>
    have hstep : bulkSaveStep sel marks results s = [] := by simp [bulkSaveStep, hm]
    rw [hstep]
    exact Tracks.step_nothing sel marks results done cur s h (fun m h2 => by simp [hm] at h2)
  | some m =>
    by_cases hne : m = ""
    · have hstep : bulkSaveStep sel marks results s = [] := by simp [bulkSaveStep, hm, hne]
      rw [hstep]
      apply Tracks.step_nothing sel marks results done cur s h
      intro m2 h2 hne2
      rw [hm] at h2
      cases h2
      exact absurd hne hne2
    · have hstep := bulkSaveStep_of_get sel marks results s m hm hne
      cases hfind : results.find? (isExistingResult sel s) with
      | none =>
        rw [hfind] at hstep
        rw [hstep]
        exact Tracks.step_submit sel marks results done cur s db hfresh h m hm hne hfind
      | some r =>
        rw [hfind] at hstep
        cases hcmp : r.score.strictNe (Number m) with
        | false =>
          simp only [hcmp] at hstep
          have hstep2 : bulkSaveStep sel marks results s = [] := by rw [hstep]; rfl
          rw [hstep2]
          apply Tracks.step_nothing sel marks results done cur s h
          intro m2 h2 _
          rw [hm] at h2
          cases h2
          have heq : r.score.strictEq (Number m) = true := by
            simpa [JSNum.strictNe] using hcmp
          exact ⟨r, hfind, ((JSNum.strictEq_eq_true_iff _ _).mp heq).1⟩
        | true =>
          simp only [hcmp, if_true] at hstep
          rw [hstep]
          exact Tracks.step_update sel marks results done cur s h m hm hne r hfind

/-- The whole loop, its calls applied by a signed-in user, keeps the tracking. -/
theorem Tracks.run (uid : String) (db : Firestore)
    (hfresh : ∀ docs, db.autoId docs ∉ docs.map StudentResult.id)
    (sel : Selection) (marks : Marks) (results : List StudentResult) :
    ∀ (rest done : List Student) (cur : List StudentResult),
      Tracks sel marks results done cur →
      Tracks sel marks results (done ++ rest)
        (applyOps (some uid) db cur (rest.flatMap (bulkSaveStep sel marks results))) := by
  intro rest
  induction rest with
  | nil =>
    intro done cur h
    simpa [applyOps] using h
  | cons s rest ih =>
    intro done cur h
    rw [List.flatMap_cons, applyOps_append]
    have := ih (done ++ [s]) _ (Tracks.step uid db hfresh sel marks results done cur s h)
    simpa [List.append_assoc] using this

/-- Away from `NaN` a second run dispatches nothing: when the stored documents have
distinct identifiers, new ones get an unused identifier, and no non-empty text that
`marks[student.studentId]` reads for a roster student parses to `NaN`, the loop run again over the collection left by a signed-in bulk
save, with the same roster, marks and selection, pushes no call. -/
theorem handleBulkSaveOps_afterBulkSave_of_no_nan (uid : String) (db : Firestore)
    (sel : Selection) (classStudents : List Student) (marks : Marks)
    (results : List StudentResult)
    (hfresh : ∀ docs, db.autoId docs ∉ docs.map StudentResult.id)
    (hids : (results.map StudentResult.id).Nodup)
    (hnum : ∀ s ∈ classStudents, ∀ m, marksGet marks s.studentId = some m → m ≠ "" →
      Number m ≠ JSNum.nan) :
    handleBulkSaveOps sel classStudents marks
      (afterBulkSave (some uid) db sel classStudents marks results) = [] := by
  have htr := Tracks.run uid db hfresh sel marks results classStudents [] results
    (Tracks.init sel marks results hids)
  rw [List.nil_append] at htr
  have hafter : afterBulkSave (some uid) db sel classStudents marks results =
      applyOps (some uid) db results
        (classStudents.flatMap (bulkSaveStep sel marks results)) := by
    unfold afterBulkSave
    rw [handleBulkSaveOps_eq_flatMap]
  rw [hafter, handleBulkSaveOps_eq_flatMap, List.flatMap_eq_nil_iff]
  intro s hs
  cases hm : marksGet marks s.studentId with
  | none => simp [bulkSaveStep, hm]
  | some m =>
    by_cases hne : m = ""
    · simp [bulkSaveStep, hm, hne]
    · obtain ⟨x, hx, hxs⟩ := htr.settled s hs m hm hne
      rw [bulkSaveStep_of_get sel marks _ s m hm hne, hx]
      have hsame : x.score.strictNe (Number m) = false := by
        have : x.score.strictEq (Number m) = true :=
          (JSNum.strictEq_eq_true_iff _ _).mpr ⟨hxs, by rw [hxs]; exact hnum s hs m hm hne⟩
        simp [JSNum.strictNe, this]
      simp [hsame]

/-- The spec scenario run twice: after the UPDATE for A and the CREATE for B have been
applied, the same roster and marks dispatch nothing. -/
theorem handleBulkSaveOps_afterBulkSave_example :
    handleBulkSaveOps exampleSel [studentA, studentB] exampleMarks
      (afterBulkSave (some "uid") exampleStore exampleSel [studentA, studentB] exampleMarks
        [resultOther, resultA 65]) = [] :=
  handleBulkSaveOps_afterBulkSave_of_no_nan "uid" exampleStore exampleSel [studentA, studentB]
    exampleMarks [resultOther, resultA 65] longerId_fresh (by decide) (by decide)

/-- C6 at a failing input: nothing is stored and the mark of the one roster student is
`abc`. The first run pushes a CREATE of score `NaN`; run again over the collection that
results, the loop finds the new document and, `NaN !== NaN` being true, pushes an UPDATE
of it with the same payload. -/
theorem C6_second_run_updates_nan :
    handleBulkSaveOps exampleSel [studentA] (fun _ => some "abc") [] =
      [Op.submit { studentName := "Ada", studentId := "ST-001", level := "ZJC",
                   className := "1A", subject := "Mathematics", term := "Term 1",
                   year := "2025", score := JSNum.nan, grade := "F" }]
    ∧ afterBulkSave (some "uid") exampleStore exampleSel [studentA] (fun _ => some "abc") [] =
      [{ id := "d", studentName := "Ada", studentId := "ST-001", level := "ZJC",
         className := "1A", subject := "Mathematics", score := JSNum.nan, grade := "F",
         term := "Term 1", year := "2025", createdAt := some 0 }]
    ∧ handleBulkSaveOps exampleSel [studentA] (fun _ => some "abc")
        (afterBulkSave (some "uid") exampleStore exampleSel [studentA]
          (fun _ => some "abc") []) =
      [Op.update "d"
         { studentName := "Ada", studentId := "ST-001", level := "ZJC",
           className := "1A", subject := "Mathematics", term := "Term 1",
           year := "2025", score := JSNum.nan, grade := "F" }] := by
  decide

/-! ## Marks of white space only -/

theorem JSNum.ofInt_zero : JSNum.ofInt 0 = JSNum.fin 0 := by
  simp [JSNum.ofInt]

/-- `Number` of a string of white space only is `0`. -/
theorem Number_of_whitespace (s : String)
    (hblank : ∀ c ∈ s.data, isStrWhiteSpaceChar c = true) : Number s = JSNum.ofInt 0 := by
  have hdrop : s.data.dropWhile isStrWhiteSpaceChar = [] := by
    rw [List.dropWhile_eq_nil_iff]
    exact hblank
  simp [Number, trimStrWhiteSpace, hdrop, readStrNumericLiteral, JSNum.ofInt]

/-! ## The remark of a transcript row -/

/-- C20: the remark of a result of integer score `s` is `Pass` when `s >= 50` and `Fail`
when `s < 50`, so `Pass` at 50 and `Fail` at 49; results of the same score have the same
remark, whatever their stored grade and other fields. -/
theorem C20_remark_from_score (r : StudentResult) (s : Int) :
    (remark { r with score := JSNum.ofInt s } = if 50 ≤ s then "Pass" else "Fail")
    ∧ (remark { r with score := JSNum.ofInt s } = "Pass" ↔ 50 ≤ s)
    ∧ (remark { r with score := JSNum.ofInt s } = "Fail" ↔ s < 50)
    ∧ remark { r with score := JSNum.ofInt 50 } = "Pass"
    ∧ remark { r with score := JSNum.ofInt 49 } = "Fail"
    ∧ (∀ r2 : StudentResult, r2.score = r.score → remark r2 = remark r)
    ∧ (∀ g : String, remark { r with grade := g } = remark r) := by
  have h : ∀ t : Int, remark { r with score := JSNum.ofInt t } =
      if 50 ≤ t then "Pass" else "Fail" := by
    intro t
    simp [remark, JSNum.ge_ofInt]
  refine ⟨h s, ?_, ?_, ?_, ?_, ?_, ?_⟩
  · rw [h s]; split_ifs <;> simp <;> omega
  · rw [h s]; split_ifs <;> simp <;> omega
  · rw [h 50]; rfl
  · rw [h 49]; rfl
  · intro r2 h2; simp [remark, h2]
  · intro g; rfl

/-! ## No data and zero -/

theorem filter_studentId_eq_nil_iff (results : List StudentResult) (studentId : String) :
    results.filter (fun r => r.studentId == studentId) = [] ↔
      ∀ r ∈ results, r.studentId ≠ studentId := by
  simp [List.filter_eq_nil_iff]

/-- Without a result of the student `gpa` is the number `0.0`. -/
theorem gpa_of_no_result (results : List StudentResult) (studentId : String)
    (hnone : ∀ r ∈ results, r.studentId ≠ studentId) :
    gpa results studentId = JSValue.num (JSNum.ofInt 0) := by
  have h := (filter_studentId_eq_nil_iff results studentId).mpr hnone
  simp [gpa, h]

/-- With a result of the student `gpa` is the text `toFixed(2)` gives. -/
theorem gpa_of_some_result (results : List StudentResult) (studentId : String)
    (hsome : ∃ r ∈ results, r.studentId = studentId) :
    gpa results studentId =
      JSValue.str (toFixed
        (((results.filter (fun r => r.studentId == studentId)).foldl gpaReducer
          (JSNum.ofInt 0)).divLength
          (results.filter (fun r => r.studentId == studentId)).length) 2) := by
  have h : (results.filter (fun r => r.studentId == studentId)).length ≠ 0 := by
    intro h0
    rw [List.length_eq_zero, filter_studentId_eq_nil_iff] at h0
    obtain ⟨r, hr, hid⟩ := hsome
    exact h0 r hr hid
  simp [gpa, h]

theorem getTermAverage_of_ne_nil (termResults : List StudentResult) (hne : termResults ≠ []) :
    getTermAverage termResults =
      JSValue.str (toFixed
        ((termResults.foldl (fun acc curr => acc.add curr.score) (JSNum.ofInt 0)).divLength
          termResults.length) 1) := by
  have h : termResults.length ≠ 0 := by
    rw [Ne, List.length_eq_zero]; exact hne
  simp [getTermAverage, h]

/-- No number is read for a student exactly when the mark is absent or empty. -/
theorem performanceData_eq_nil_iff (classStudents : List Student) (marks : Marks) :
    performanceData classStudents marks = [] ↔
      ∀ s ∈ classStudents, marksGet marks s.studentId = none ∨ marksGet marks s.studentId = some "" := by
  unfold performanceData
  rw [List.filterMap_eq_nil_iff]
  constructor
  · intro h s hs
    have := h s hs
    cases hm : marksGet marks s.studentId with
    | none => exact Or.inl rfl
    | some m =>
      rw [hm] at this
      by_cases hne : m = ""
      · exact Or.inr (by rw [hne])
      · simp [hne] at this
  · intro h s hs
    rcases h s hs with hm | hm <;> simp [hm]

/-- C13, as the code has it: without a result of the student the GPA is the number `0.0`,
which is not `NaN`; it does not go through `toFixed(2)` and is not the text `0.00`. -/
theorem C13_gpa_of_no_result_is_number_zero (results : List StudentResult)
    (studentId : String) (hnone : ∀ r ∈ results, r.studentId ≠ studentId) :
    gpa results studentId = JSValue.num (JSNum.ofInt 0)
    ∧ gpa results studentId ≠ JSValue.num JSNum.nan
    ∧ gpa results studentId ≠ JSValue.str "0.00" := by
  rw [gpa_of_no_result results studentId hnone]
  exact ⟨rfl, by decide, by decide⟩

/-- Counterexample to C13 as stated: for a student without results, in an empty collection
or next to another student's results, `gpa` is the number `0.0` and not the text `0.00`,
which is what a student with one failed result gets. -/
theorem C13_counterexample :
    gpa [] "ST-001" = JSValue.num (JSNum.ofInt 0)
    ∧ gpa [resultOther] "ST-001" = JSValue.num (JSNum.ofInt 0)
    ∧ JSValue.num (JSNum.ofInt 0) ≠ JSValue.str "0.00"
    ∧ gpa [resultOther] "ST-003" = JSValue.str "0.00" := by
  refine ⟨by decide, by decide, by decide, by decide!⟩

/-- Witness of C13 as amended: student `ST-001` next to a result of `ST-003`. -/
theorem C13_gpa_of_no_result_is_number_zero_witness :
    gpa [resultOther] "ST-001" = JSValue.num (JSNum.ofInt 0) :=
  (C13_gpa_of_no_result_is_number_zero [resultOther] "ST-001" (by decide)).1

/-- The no-marks message of `handleGetClassInsights` is shown exactly when
`marks[student.studentId]` is `undefined` or empty for every roster student. -/
theorem handleGetClassInsights_eq_noMarks_iff (classStudents : List Student) (marks : Marks) :
    handleGetClassInsights classStudents marks =
        ClassInsights.noMarks "No marks entered yet to analyze." ↔
      ∀ s ∈ classStudents,
        marksGet marks s.studentId = none ∨ marksGet marks s.studentId = some "" := by
  rw [← performanceData_eq_nil_iff]
  unfold handleGetClassInsights
  by_cases h : performanceData classStudents marks = []
  · simp [h]
  · have hlen : (performanceData classStudents marks).length ≠ 0 := by
      rw [Ne, List.length_eq_zero]; exact h
    simp [h, hlen]

/-- C16, and the input at which the code departs from it. Without a result of the student
`gpa` is a number and with one a text, `0.00` when every point is 0; `getTermAverage` is a
number on no result and a text on some, `0.0` when every score is 0. `handleGetClassInsights`
gives its no-marks message exactly when `marks[student.studentId]` is `undefined` or empty
for every roster student; when no roster student without a mark has a `studentId` naming a
member of `Object.prototype`, that is exactly when no roster student has a non-empty mark,
and the value then differs from the one for any roster with a non-empty mark (statistics, of
average `0.0` when every mark is `0`). But for the roster of the one student of `studentId`
`constructor` and the marks map `{}`, where no mark is entered, it gives statistics of
average `NaN` over one mark instead of the message. -/
theorem C16_no_data_is_not_zero_except_prototype_names :
    (∀ (results results2 : List StudentResult) (studentId studentId2 : String),
        (∀ r ∈ results, r.studentId ≠ studentId) →
        (∃ r ∈ results2, r.studentId = studentId2) →
        gpa results studentId ≠ gpa results2 studentId2)
    ∧ (∀ termResults : List StudentResult, termResults ≠ [] →
        getTermAverage [] ≠ getTermAverage termResults)
    ∧ (∀ (classStudents : List Student) (marks : Marks),
        handleGetClassInsights classStudents marks =
            ClassInsights.noMarks "No marks entered yet to analyze." ↔
          ∀ s ∈ classStudents,
            marksGet marks s.studentId = none ∨ marksGet marks s.studentId = some "")
    ∧ (∀ (classStudents : List Student) (marks : Marks),
        (∀ s ∈ classStudents, marks s.studentId = none →
          objectPrototypeMember? s.studentId = none) →
        (handleGetClassInsights classStudents marks =
            ClassInsights.noMarks "No marks entered yet to analyze." ↔
          ∀ s ∈ classStudents, marks s.studentId = none ∨ marks s.studentId = some ""))
    ∧ (∀ (classStudents classStudents2 : List Student) (marks marks2 : Marks),
        (∀ s ∈ classStudents, marks s.studentId = none →
          objectPrototypeMember? s.studentId = none) →
        (∀ s ∈ classStudents, marks s.studentId = none ∨ marks s.studentId = some "") →
        (∃ s ∈ classStudents2, ∃ m, marks2 s.studentId = some m ∧ m ≠ "") →
        handleGetClassInsights classStudents marks ≠
          handleGetClassInsights classStudents2 marks2)
    ∧ gpa [resultOther] "ST-003" = JSValue.str "0.00"
    ∧ getTermAverage [resultA 0] = JSValue.str "0.0"
    ∧ handleGetClassInsights [studentA] (fun _ => some "0") =
        ClassInsights.stats "0.0" (JSNum.ofInt 0) (JSNum.ofInt 0) 1
    ∧ emptyMarks studentConstructor.studentId = none
    ∧ handleGetClassInsights [studentConstructor] emptyMarks =
        ClassInsights.stats "NaN" JSNum.nan JSNum.nan 1 := by
  have hown : ∀ (classStudents : List Student) (marks : Marks),
      (∀ s ∈ classStudents, marks s.studentId = none →
        objectPrototypeMember? s.studentId = none) →
      (handleGetClassInsights classStudents marks =
          ClassInsights.noMarks "No marks entered yet to analyze." ↔
        ∀ s ∈ classStudents, marks s.studentId = none ∨ marks s.studentId = some "") := by
    intro classStudents marks hp
    rw [handleGetClassInsights_eq_noMarks_iff]
    constructor
    · intro h s hs
      have := h s hs
      rwa [marksGet_of_not_inherited (hp s hs)] at this
    · intro h s hs
      rw [marksGet_of_not_inherited (hp s hs)]
      exact h s hs
  refine ⟨?_, ?_, handleGetClassInsights_eq_noMarks_iff, hown, ?_, by decide!, by decide!,
    by decide!, rfl, by decide!⟩
  · intro results results2 studentId studentId2 hnone hsome
    rw [gpa_of_no_result results studentId hnone,
      gpa_of_some_result results2 studentId2 hsome]
    exact fun h => JSValue.noConfusion h
  · intro termResults hne
    rw [getTermAverage_of_ne_nil termResults hne]
    exact fun h => JSValue.noConfusion h
  · intro classStudents classStudents2 marks marks2 hp hblank hsome hEq
    rw [(hown classStudents marks hp).mpr hblank] at hEq
    have := (handleGetClassInsights_eq_noMarks_iff classStudents2 marks2).mp hEq.symm
    obtain ⟨s, hs, m, hm, hne⟩ := hsome
    have hget := marksGet_of_some hm
    rcases this s hs with h | h
    · rw [h] at hget; cases hget
    · rw [h] at hget; cases hget; exact hne rfl

/-! ## Rounding in `toFixed` -/

/-- The integer nearest to `y`, the larger of two, is within a half of `y`. -/
theorem abs_floor_add_half_sub_le (y : ℚ) (hy : 0 ≤ y) :
    |((⌊y + 1 / 2⌋₊ : ℕ) : ℚ) - y| ≤ 1 / 2 := by
  have hpos : (0 : ℚ) ≤ y + 1 / 2 := by linarith
  have h1 : ((⌊y + 1 / 2⌋₊ : ℕ) : ℚ) ≤ y + 1 / 2 := Nat.floor_le hpos
  have h2 : y + 1 / 2 < ((⌊y + 1 / 2⌋₊ : ℕ) : ℚ) + 1 := Nat.lt_floor_add_one _
  rw [abs_le]
  constructor <;> linarith

/-- On a value that is not negative and below `10 ^ 21`, `toFixed` is the fixed notation of
the nearest integer multiple of `10 ^ -f`. -/
theorem toFixed_of_nonneg (q : ℚ) (f : Nat) (h0 : 0 ≤ q) (hlt : q < 10 ^ 21) :
    toFixed (JSNum.fin q) f = String.mk (fixedDigits ⌊q * 10 ^ f + 1 / 2⌋₊ f) := by
  have hneg : ¬ q < 0 := not_lt.mpr h0
  have habs : |q| = q := abs_of_nonneg h0
  have hbig : ¬ (10 : ℚ) ^ 21 ≤ q := not_le.mpr hlt
  simp [toFixed, hneg, habs, hbig]

/-- On a negative value above `-10 ^ 21`, `toFixed` is a minus sign and the fixed notation
for the magnitude. -/
theorem toFixed_of_neg (q : ℚ) (f : Nat) (h0 : q < 0) (hlt : -10 ^ 21 < q) :
    toFixed (JSNum.fin q) f = String.mk ('-' :: fixedDigits ⌊(-q) * 10 ^ f + 1 / 2⌋₊ f) := by
  have habs : |q| = -q := abs_of_neg h0
  have hbig : ¬ (10 : ℚ) ^ 21 ≤ -q := by
    rw [not_le]; linarith
  simp [toFixed, h0, habs, hbig]

/-! ## The binary64 quotient and its decimals -/

theorem roundHalfEven_abs_sub_le (x : ℚ) (hx : 0 ≤ x) :
    |(roundHalfEven x : ℚ) - x| ≤ 1 / 2 := by
  have h1 : ((⌊x⌋₊ : ℕ) : ℚ) ≤ x := Nat.floor_le hx
  have h2 : x < ((⌊x⌋₊ : ℕ) : ℚ) + 1 := Nat.lt_floor_add_one x
  unfold roundHalfEven
  simp only
  split_ifs with ha hb hc
  · rw [abs_le]; constructor <;> linarith
  · rw [abs_le]; push_cast; constructor <;> linarith
  · rw [abs_le]; constructor <;> linarith
  · rw [abs_le]; push_cast; constructor <;> linarith

/-- In the normal range the binary64 value of a positive rational is finite and within the
relative distance `2 ^ -53` of it. -/
theorem roundBinary64_of_pos (q : ℚ) (hlo : (2 : ℚ) ^ (-1022 : ℤ) ≤ q)
    (hhi : q < (2 : ℚ) ^ (1023 : ℤ)) :
    ∃ d : ℚ, roundBinary64 q = JSNum.fin d ∧ |d - q| ≤ q / 2 ^ 53 := by
  have hq : 0 < q := lt_of_lt_of_le (by positivity) hlo
  have habs : |q| = q := abs_of_pos hq
  have he1 : (2 : ℚ) ^ Int.log 2 q ≤ q := Int.zpow_log_le_self (by norm_num) hq
  have he3 : (-1022 : ℤ) ≤ Int.log 2 q :=
    (Int.zpow_le_iff_le_log (by norm_num) hq).mp (by exact_mod_cast hlo)
  have hmax : max (Int.log 2 q) (-1022) = Int.log 2 q := max_eq_left he3
  have hulp : (0 : ℚ) < (2 : ℚ) ^ (Int.log 2 q - 52) := by positivity
  have hulp2 : (2 : ℚ) ^ (Int.log 2 q - 52) = (2 : ℚ) ^ Int.log 2 q / 2 ^ 52 := by
    rw [zpow_sub₀ (by norm_num)]; norm_num
  have hm := roundHalfEven_abs_sub_le (q / (2 : ℚ) ^ (Int.log 2 q - 52))
    (div_nonneg hq.le hulp.le)
  set m : ℚ := (roundHalfEven (q / (2 : ℚ) ^ (Int.log 2 q - 52)) : ℚ) with hmdef
  have hv : |m * (2 : ℚ) ^ (Int.log 2 q - 52) - q| ≤ q / 2 ^ 53 := by
    have h3 : m * (2 : ℚ) ^ (Int.log 2 q - 52) - q =
        (m - q / (2 : ℚ) ^ (Int.log 2 q - 52)) * (2 : ℚ) ^ (Int.log 2 q - 52) := by
      field_simp
    rw [h3, abs_mul, abs_of_pos hulp]
    calc |m - q / (2 : ℚ) ^ (Int.log 2 q - 52)| * (2 : ℚ) ^ (Int.log 2 q - 52)
        ≤ 1 / 2 * (2 : ℚ) ^ (Int.log 2 q - 52) :=
          mul_le_mul_of_nonneg_right hm hulp.le
      _ = (2 : ℚ) ^ Int.log 2 q / 2 ^ 53 := by rw [hulp2]; ring
      _ ≤ q / 2 ^ 53 := div_le_div_of_nonneg_right he1 (by positivity)
  have hfin : ¬ (2 : ℚ) ^ (1024 : ℕ) ≤ m * (2 : ℚ) ^ (Int.log 2 q - 52) := by
    rw [not_le]
    have h4 := (abs_le.mp hv).2
    have h5 : q / 2 ^ 53 ≤ q := div_le_self hq.le (by norm_num)
    have h6 : (2 : ℚ) ^ (1023 : ℤ) * 2 = (2 : ℚ) ^ (1024 : ℕ) := by norm_num
    linarith
  refine ⟨m * (2 : ℚ) ^ (Int.log 2 q - 52), ?_, hv⟩
  unfold roundBinary64
  simp only [habs, hmax, hq.ne', if_false, not_lt.mpr hq.le]
  rw [if_neg hfin]

theorem roundBinary64_zero : roundBinary64 0 = JSNum.fin 0 := by
  simp [roundBinary64]

/-- The binary64 value of a negative rational is the opposite of that of its magnitude. -/
theorem roundBinary64_of_neg (q d : ℚ) (hq : q < 0) (h : roundBinary64 (-q) = JSNum.fin d) :
    roundBinary64 q = JSNum.fin (-d) := by
  have hq0 : q ≠ 0 := hq.ne
  have hnq0 : -q ≠ 0 := neg_ne_zero.mpr hq0
  have hnq : ¬ (-q < 0) := by rw [not_lt]; linarith
  unfold roundBinary64 at h ⊢
  simp only [hq0, hnq0, if_false, abs_neg, hq, hnq, if_true] at h ⊢
  split_ifs at h ⊢ with hbig
  exact congrArg JSNum.fin (congrArg Neg.neg (JSNum.fin.inj h))

/-- The decimal that `toFixed` picks for the binary64 quotient `d` of a natural number `S` by
`n`, on the scale `T`, when `2 * S * T` is below `2 ^ 53`: the multiple nearest to the exact
quotient, the larger one of two, but the smaller one of two when the binary64 quotient is
below the exact one. -/
theorem floor_scaled_of_near (S n T : ℕ) (d : ℚ) (hn : 0 < n) (hT : 0 < T)
    (hST : 2 * S * T < 2 ^ 53)
    (hd : |d - (S : ℚ) / n| ≤ (S : ℚ) / n / 2 ^ 53) :
    ⌊d * T + 1 / 2⌋₊ =
      if d < (S : ℚ) / n ∧ (S : ℚ) / n * T + 1 / 2 = ((⌊(S : ℚ) / n * T + 1 / 2⌋₊ : ℕ) : ℚ)
      then ⌊(S : ℚ) / n * T + 1 / 2⌋₊ - 1 else ⌊(S : ℚ) / n * T + 1 / 2⌋₊ := by
  have hnq : (0 : ℚ) < n := by exact_mod_cast hn
  have hTq : (0 : ℚ) < T := by exact_mod_cast hT
  have hx0 : (0 : ℚ) ≤ (S : ℚ) / n := div_nonneg (by positivity) hnq.le
  set x : ℚ := (S : ℚ) / n with hxdef
  have hxn : x * n = S := by rw [hxdef]; field_simp
  have hy0 : (0 : ℚ) ≤ x * T + 1 / 2 := by positivity
  set N0 : ℕ := ⌊x * T + 1 / 2⌋₊ with hN0
  have hfl1 : (N0 : ℚ) ≤ x * T + 1 / 2 := Nat.floor_le hy0
  have hfl2 : x * T + 1 / 2 < (N0 : ℚ) + 1 := Nat.lt_floor_add_one _
  have hSTq : (2 : ℚ) * S * T < 2 ^ 53 := by exact_mod_cast hST
  -- the scaled binary64 quotient is within `1 / (2 n)` of the scaled exact one
  have hdelta : |(d - x) * T| * (2 * n) < 1 := by
    rw [abs_mul, abs_of_pos hTq]
    have h1 : |d - x| * T * (2 * n) ≤ x / 2 ^ 53 * T * (2 * n) := by
      have : (0 : ℚ) ≤ (T : ℚ) * (2 * n) := by positivity
      nlinarith [mul_le_mul_of_nonneg_right hd this]
    have h2 : x / 2 ^ 53 * T * (2 * n) = 2 * S * T / 2 ^ 53 := by
      rw [← hxn]; ring
    rw [h2] at h1
    have h3 : (2 : ℚ) * S * T / 2 ^ 53 < 1 := by
      rw [div_lt_one (by positivity)]; exact hSTq
    linarith
  have hdT : d * T + 1 / 2 = (x * T + 1 / 2) + (d - x) * T := by ring
  have hA : (x * T + 1 / 2) * (2 * n) = ((2 * S * T + n : ℕ) : ℚ) := by
    push_cast
    rw [← hxn]; ring
  have hlo : -1 < (d - x) * T * (2 * n) := by
    have h := mul_le_mul_of_nonneg_right (neg_abs_le ((d - x) * T)) (by positivity : (0 : ℚ) ≤ 2 * n)
    linarith
  have hup : (d - x) * T * (2 * n) < 1 := by
    have h := mul_le_mul_of_nonneg_right (le_abs_self ((d - x) * T)) (by positivity : (0 : ℚ) ≤ 2 * n)
    linarith
  have h2n : (0 : ℚ) < 2 * n := by positivity
  by_cases htie : x * T + 1 / 2 = (N0 : ℚ)
  · by_cases hlt : d < x
    · rw [if_pos ⟨hlt, htie⟩]
      have hN1 : 1 ≤ N0 := by
        have : (0 : ℚ) < (N0 : ℚ) := by rw [← htie]; positivity
        exact_mod_cast this
      have hneg : (d - x) * T < 0 := mul_neg_of_neg_of_pos (by linarith) hTq
      have hcast : ((N0 - 1 : ℕ) : ℚ) = (N0 : ℚ) - 1 := by
        rw [Nat.cast_sub hN1]; simp
      have h1n : (1 : ℚ) ≤ 2 * n := by
        have : (1 : ℚ) ≤ n := by exact_mod_cast hn
        linarith
      have hhalf : -1 < (d - x) * T := by
        have h := mul_le_mul_of_nonpos_left h1n hneg.le
        linarith
      have hN1q : (1 : ℚ) ≤ N0 := by exact_mod_cast hN1
      have hnn : 0 ≤ d * T + 1 / 2 := by rw [hdT, htie]; linarith
      rw [Nat.floor_eq_iff hnn]
      rw [hcast, hdT, htie]
      constructor <;> linarith
    · rw [if_neg (fun h => hlt h.1)]
      have hpos : 0 ≤ (d - x) * T := mul_nonneg (by linarith) hTq.le
      have h1n : (1 : ℚ) ≤ 2 * n := by
        have : (1 : ℚ) ≤ n := by exact_mod_cast hn
        linarith
      have hhalf : (d - x) * T < 1 := by
        have h := mul_le_mul_of_nonneg_left h1n hpos
        linarith
      have hnn : 0 ≤ d * T + 1 / 2 := by rw [hdT]; linarith
      rw [Nat.floor_eq_iff hnn]
      rw [hdT, htie]
      constructor <;> linarith
  · rw [if_neg (fun h => htie h.2)]
    have hgt : (N0 : ℚ) < x * T + 1 / 2 := lt_of_le_of_ne hfl1 (Ne.symm htie)
    have hnat1 : N0 * (2 * n) < 2 * S * T + n := by
      have : (N0 : ℚ) * (2 * n) < (x * T + 1 / 2) * (2 * n) :=
        mul_lt_mul_of_pos_right hgt h2n
      rw [hA] at this
      exact_mod_cast this
    have hnat2 : 2 * S * T + n < (N0 + 1) * (2 * n) := by
      have : (x * T + 1 / 2) * (2 * n) < ((N0 : ℚ) + 1) * (2 * n) :=
        mul_lt_mul_of_pos_right hfl2 h2n
      rw [hA] at this
      exact_mod_cast this
    have hq1 : (N0 : ℚ) * (2 * n) + 1 ≤ (x * T + 1 / 2) * (2 * n) := by
      rw [hA]; exact_mod_cast hnat1
    have hq2 : (x * T + 1 / 2) * (2 * n) + 1 ≤ ((N0 : ℚ) + 1) * (2 * n) := by
      rw [hA]; exact_mod_cast hnat2
    have hge : (N0 : ℚ) ≤ d * T + 1 / 2 := by
      rw [hdT]
      by_contra hcon
      rw [not_le] at hcon
      have h := mul_lt_mul_of_pos_right hcon h2n
      rw [add_mul] at h
      linarith
    have hlt2 : d * T + 1 / 2 < (N0 : ℚ) + 1 := by
      rw [hdT]
      by_contra hcon
      rw [not_lt] at hcon
      have h := mul_le_mul_of_nonneg_right hcon h2n.le
      rw [add_mul (x * T + 1 / 2)] at h
      linarith
    rw [Nat.floor_eq_iff (le_trans (by positivity) hge)]
    exact ⟨hge, hlt2⟩

/-- The text `toFixed` gives for the binary64 quotient of a natural number `S` by a length
`n` below `2 ^ 32`, with `f` digits, when `2 * S * 10 ^ f` is below `2 ^ 53`. -/
theorem roundBinary64_div_nat (S n f : ℕ) (hn : 0 < n) (hn2 : n < 2 ^ 32)
    (hST : 2 * S * 10 ^ f < 2 ^ 53) :
    ∃ d : ℚ, roundBinary64 ((S : ℚ) / n) = JSNum.fin d
      ∧ |d - (S : ℚ) / n| ≤ (S : ℚ) / n / 2 ^ 53
      ∧ 0 ≤ d ∧ (0 < S → 0 < d) ∧ d < 10 ^ 21
      ∧ ⌊d * 10 ^ f + 1 / 2⌋₊ =
        if d < (S : ℚ) / n ∧
          (S : ℚ) / n * 10 ^ f + 1 / 2 = ((⌊(S : ℚ) / n * 10 ^ f + 1 / 2⌋₊ : ℕ) : ℚ)
        then ⌊(S : ℚ) / n * 10 ^ f + 1 / 2⌋₊ - 1 else ⌊(S : ℚ) / n * 10 ^ f + 1 / 2⌋₊ := by
  have hnq : (0 : ℚ) < n := by exact_mod_cast hn
  have hfloor : ∀ d : ℚ, |d - (S : ℚ) / n| ≤ (S : ℚ) / n / 2 ^ 53 →
      ⌊d * 10 ^ f + 1 / 2⌋₊ =
        if d < (S : ℚ) / n ∧
          (S : ℚ) / n * 10 ^ f + 1 / 2 = ((⌊(S : ℚ) / n * 10 ^ f + 1 / 2⌋₊ : ℕ) : ℚ)
        then ⌊(S : ℚ) / n * 10 ^ f + 1 / 2⌋₊ - 1 else ⌊(S : ℚ) / n * 10 ^ f + 1 / 2⌋₊ := by
    intro d hd
    have h := floor_scaled_of_near S n (10 ^ f) d hn (by positivity) hST hd
    rw [Nat.cast_pow, Nat.cast_ofNat] at h
    exact h
  by_cases hS : S = 0
  · subst hS
    refine ⟨0, by simp [roundBinary64_zero], by simp, le_refl _, fun h => absurd h (lt_irrefl _),
      by norm_num, hfloor 0 (by simp)⟩
  · have hSpos : (1 : ℚ) ≤ S := by exact_mod_cast Nat.pos_of_ne_zero hS
    have hSlt : (S : ℚ) < 2 ^ 53 := by
      have h1 : S ≤ 2 * S * 10 ^ f := by
        have : 1 ≤ 10 ^ f := Nat.one_le_pow _ _ (by norm_num)
        nlinarith
      exact_mod_cast lt_of_le_of_lt h1 hST
    have hnlt : (n : ℚ) < 2 ^ 32 := by exact_mod_cast hn2
    have hq : (0 : ℚ) < (S : ℚ) / n := div_pos (by linarith) hnq
    have hlo : (2 : ℚ) ^ (-1022 : ℤ) ≤ (S : ℚ) / n := by
      have h1 : (2 : ℚ) ^ (-1022 : ℤ) ≤ (2 : ℚ) ^ (-32 : ℤ) :=
        zpow_le_zpow_right₀ (by norm_num) (by norm_num)
      have h2 : (2 : ℚ) ^ (-32 : ℤ) = 1 / 2 ^ 32 := by
        rw [zpow_neg]; norm_num
      have h3 : (1 : ℚ) / 2 ^ 32 ≤ (S : ℚ) / n := by
        rw [div_le_div_iff₀ (by positivity) hnq]
        nlinarith
      linarith
    have hhi : (S : ℚ) / n < (2 : ℚ) ^ (1023 : ℤ) := by
      have h1 : (S : ℚ) / n ≤ S := div_le_self (by linarith) (by exact_mod_cast hn)
      have h2 : (2 : ℚ) ^ 53 ≤ (2 : ℚ) ^ (1023 : ℤ) := by
        have h3 : (2 : ℚ) ^ ((53 : ℕ) : ℤ) ≤ (2 : ℚ) ^ (1023 : ℤ) :=
          zpow_le_zpow_right₀ (by norm_num) (by norm_num)
        rwa [zpow_natCast] at h3
      linarith
    obtain ⟨d, hd, hnear⟩ := roundBinary64_of_pos _ hlo hhi
    have hsmall : (S : ℚ) / n / 2 ^ 53 < (S : ℚ) / n := div_lt_self hq (by norm_num)
    have habs := abs_le.mp hnear
    have hdpos : 0 < d := by linarith [habs.1]
    have hdlt : d < 10 ^ 21 := by
      have h1 : (S : ℚ) / n ≤ S := div_le_self (by linarith) (by exact_mod_cast hn)
      have h2 : (2 : ℚ) ^ 53 * 2 < 10 ^ 21 := by norm_num
      linarith [habs.2]
    exact ⟨d, hd, hnear, hdpos.le, fun _ => hdpos, hdlt, hfloor d hnear⟩

/-- The binary64 value of a positive rational whose binade is known. -/
theorem roundBinary64_of_binade (q : ℚ) (e : ℤ) (hq : 0 < q) (h1 : (2 : ℚ) ^ e ≤ q)
    (h2 : q < (2 : ℚ) ^ (e + 1)) (he : -1022 ≤ e) :
    roundBinary64 q =
      if (2 : ℚ) ^ (1024 : ℕ) ≤ (roundHalfEven (q / (2 : ℚ) ^ (e - 52)) : ℚ) * (2 : ℚ) ^ (e - 52)
      then JSNum.posInf
      else JSNum.fin ((roundHalfEven (q / (2 : ℚ) ^ (e - 52)) : ℚ) * (2 : ℚ) ^ (e - 52)) := by
  have hlog : Int.log 2 q = e := by
    have ha : e ≤ Int.log 2 q := (Int.zpow_le_iff_le_log (by norm_num) hq).mp (by exact_mod_cast h1)
    have hb : Int.log 2 q < e + 1 := (Int.lt_zpow_iff_log_lt (by norm_num) hq).mp (by exact_mod_cast h2)
    omega
  unfold roundBinary64
  simp only [abs_of_pos hq, hlog, max_eq_left he, hq.ne', if_false, not_lt.mpr hq.le]

theorem roundBinary64_ten_pow_21 : roundBinary64 ((10 : ℚ) ^ 21) = JSNum.fin (10 ^ 21) := by
  rw [roundBinary64_of_binade _ 69 (by norm_num) (by norm_num) (by norm_num) (by norm_num)]
  decide!

theorem roundBinary64_ten_pow_21_half :
    roundBinary64 (((10 : ℚ) ^ 21 + (10 ^ 21 + 1)) / 2) = JSNum.fin (10 ^ 21) := by
  rw [roundBinary64_of_binade _ 69 (by norm_num) (by norm_num) (by norm_num) (by norm_num)]
  decide!

/-! ## The grade point average -/

theorem JSNum.fin_add_ofInt (a : ℚ) (z : Int) :
    (JSNum.fin a).add (JSNum.ofInt z) = JSNum.fin (a + z) := rfl

theorem gpaReducer_fin (a : ℚ) (curr : StudentResult) :
    gpaReducer (JSNum.fin a) curr = JSNum.fin (a + gpaPoint curr.score) := by
  unfold gpaReducer gpaPoint
  split_ifs <;> simp [JSNum.fin_add_ofInt]

theorem foldl_gpaReducer_fin (results : List StudentResult) (a : ℚ) :
    results.foldl gpaReducer (JSNum.fin a) =
      JSNum.fin (a + (results.map (fun r => gpaPoint r.score)).sum) := by
  induction results generalizing a with
  | nil => simp
  | cons r rest ih =>
    rw [List.foldl_cons, gpaReducer_fin, ih]
    simp [add_assoc]

theorem gpaPoint_nonneg (score : JSNum) : 0 ≤ gpaPoint score := by
  unfold gpaPoint; split_ifs <;> norm_num

theorem gpaPoint_le_four (score : JSNum) : gpaPoint score ≤ 4 := by
  unfold gpaPoint; split_ifs <;> norm_num

theorem sum_gpaPoint_nonneg (results : List StudentResult) :
    0 ≤ (results.map (fun r => gpaPoint r.score)).sum := by
  apply List.sum_nonneg
  intro x hx
  obtain ⟨r, -, rfl⟩ := List.mem_map.mp hx
  exact gpaPoint_nonneg r.score

theorem sum_gpaPoint_le (results : List StudentResult) :
    (results.map (fun r => gpaPoint r.score)).sum ≤ 4 * (results.length : ℚ) := by
  induction results with
  | nil => simp
  | cons r rest ih =>
    simp only [List.map_cons, List.sum_cons, List.length_cons, Nat.cast_succ]
    have := gpaPoint_le_four r.score
    linarith

/-- The GPA point of an integer score, band by band. -/
theorem gpaPoint_ofInt (s : Int) :
    gpaPoint (JSNum.ofInt s) =
      if 90 ≤ s then 4 else if 80 ≤ s then 3 else if 70 ≤ s then 2 else if 60 ≤ s then 1
      else 0 := by
  simp [gpaPoint, JSNum.ge_ofInt]

theorem gpaPoint_nat (score : JSNum) : ∃ p : ℕ, gpaPoint score = (p : ℚ) ∧ p ≤ 4 := by
  unfold gpaPoint
  split_ifs
  · exact ⟨4, by norm_num, le_refl _⟩
  · exact ⟨3, by norm_num, by norm_num⟩
  · exact ⟨2, by norm_num, by norm_num⟩
  · exact ⟨1, by norm_num, by norm_num⟩
  · exact ⟨0, by norm_num, by norm_num⟩

/-- The points of a list of results sum to a natural number of at most four a result. -/
theorem sum_gpaPoint_nat (results : List StudentResult) :
    ∃ P : ℕ, (results.map (fun r => gpaPoint r.score)).sum = (P : ℚ)
      ∧ P ≤ 4 * results.length := by
  induction results with
  | nil => exact ⟨0, by simp, by simp⟩
  | cons r rest ih =>
    obtain ⟨P, hP, hle⟩ := ih
    obtain ⟨p, hp, hp4⟩ := gpaPoint_nat r.score
    refine ⟨p + P, ?_, ?_⟩
    · rw [List.map_cons, List.sum_cons, hP, hp]; push_cast; ring
    · rw [List.length_cons]; omega

/-- C12, as the code has it: with at least one result of the student, in a collection of
fewer than `2 ^ 32` results, the GPA is the text, with two decimals, of the hundredth
nearest to the mean of `gpaPoint(score)` over exactly the results of that student, the
larger one of two; but when the mean lies halfway between two hundredths and the binary64
quotient of the sum by the count is below the mean, it is the smaller one of the two.
`gpaPoint` of an integer score is 4 from 90, 3 on 80..89, 2 on 70..79, 1 on 60..69 and 0
below 60; the results of other students do not enter the GPA. -/
theorem C12_gpa_is_mean_of_points_rounded (results : List StudentResult) (studentId : String)
    (hsome : ∃ r ∈ results, r.studentId = studentId) (hlen : results.length < 2 ^ 32) :
    (∀ mean : ℚ,
        mean = ((results.filter (fun r => r.studentId == studentId)).map
                  (fun r => gpaPoint r.score)).sum /
                ((results.filter (fun r => r.studentId == studentId)).length : ℚ) →
        ∃ quotient : ℚ,
          roundBinary64 mean = JSNum.fin quotient
          ∧ |quotient - mean| ≤ mean / 2 ^ 53
          ∧ gpa results studentId = JSValue.str (String.mk (fixedDigits
              (if quotient < mean ∧ mean * 100 + 1 / 2 = ((⌊mean * 100 + 1 / 2⌋₊ : ℕ) : ℚ)
               then ⌊mean * 100 + 1 / 2⌋₊ - 1 else ⌊mean * 100 + 1 / 2⌋₊) 2))
          ∧ |((⌊mean * 100 + 1 / 2⌋₊ : ℕ) : ℚ) / 100 - mean| ≤ 1 / 200)
    ∧ (∀ s : Int, gpaPoint (JSNum.ofInt s) =
        if 90 ≤ s then 4 else if 80 ≤ s then 3 else if 70 ≤ s then 2 else if 60 ≤ s then 1
        else 0)
    ∧ gpa results studentId =
        gpa (results.filter (fun r => r.studentId == studentId)) studentId := by
  have hlen0 : (results.filter (fun r => r.studentId == studentId)).length ≠ 0 := by
    intro h0
    rw [List.length_eq_zero, filter_studentId_eq_nil_iff] at h0
    obtain ⟨r, hr, hid⟩ := hsome
    exact h0 r hr hid
  have hlen32 : (results.filter (fun r => r.studentId == studentId)).length < 2 ^ 32 :=
    lt_of_le_of_lt (List.length_filter_le _ _) hlen
  refine ⟨?_, gpaPoint_ofInt, ?_⟩
  · have hgpa := gpa_of_some_result results studentId hsome
    generalize results.filter (fun r => r.studentId == studentId) = my at hlen0 hlen32 hgpa ⊢
    obtain ⟨P, hP, hP4⟩ := sum_gpaPoint_nat my
    have hfold : my.foldl gpaReducer (JSNum.ofInt 0) = JSNum.fin (P : ℚ) := by
      rw [JSNum.ofInt_zero, foldl_gpaReducer_fin, hP]; simp
    have hdiv : (JSNum.fin (P : ℚ)).divLength my.length =
        roundBinary64 ((P : ℚ) / (my.length : ℚ)) := by
      simp [JSNum.divLength, hlen0]
    rw [hfold, hdiv] at hgpa
    have hST : 2 * P * 10 ^ 2 < 2 ^ 53 := by
      norm_num at hlen32 ⊢
      omega
    obtain ⟨d, hd, hnear, hd0, -, hdlt, hfl⟩ :=
      roundBinary64_div_nat P my.length 2 (Nat.pos_of_ne_zero hlen0) hlen32 hST
    have h100 : (10 : ℚ) ^ 2 = 100 := by norm_num
    rw [h100] at hfl
    intro mean hmean
    rw [hP] at hmean
    rw [← hmean] at hd hnear hfl hgpa
    have hmean0 : 0 ≤ mean := by
      rw [hmean]
      exact div_nonneg (by positivity) (by positivity)
    refine ⟨d, hd, hnear, ?_, ?_⟩
    · rw [hgpa, hd, toFixed_of_nonneg d 2 hd0 hdlt, h100, hfl]
    · have hround := abs_floor_add_half_sub_le (mean * 100) (mul_nonneg hmean0 (by norm_num))
      rw [abs_le] at hround ⊢
      constructor <;> linarith [hround.1, hround.2]
  · unfold gpa
    rw [List.filter_filter]
    simp

/-- Counterexample to C12 as stated: forty results of `ST-001`, one of score 80 and
thirty-nine of score 59. The points sum to 3 and their mean is `0.075`, which to two
decimals is `0.08`; the binary64 quotient `3 / 40` is below `0.075` and the GPA is the
text `0.07`. -/
theorem C12_counterexample :
    tieTranscript.length = 40
    ∧ ((tieTranscript.filter (fun r => r.studentId == "ST-001")).map
          (fun r => gpaPoint r.score)).sum /
        ((tieTranscript.filter (fun r => r.studentId == "ST-001")).length : ℚ) = 3 / 40
    ∧ toFixed (JSNum.fin (3 / 40)) 2 = "0.08"
    ∧ gpa tieTranscript "ST-001" = JSValue.str "0.07" := by
  refine ⟨by decide, by decide!, by decide!, by decide!⟩

/-- Witness of C12 as amended: the transcript of `ST-001` (scores 80, 60, 100 and 45,
points 3, 1, 4 and 0) next to a result of `ST-002` gives the text `2.00`. -/
theorem C12_gpa_is_mean_of_points_rounded_witness :
    gpa exampleTranscript "ST-001" = JSValue.str "2.00"
    ∧ gpa exampleTranscript "ST-001" =
        gpa (exampleTranscript.filter (fun r => r.studentId == "ST-001")) "ST-001" :=
  ⟨by decide!,
   (C12_gpa_is_mean_of_points_rounded exampleTranscript "ST-001"
      ⟨_, List.mem_cons_self _ _, rfl⟩ (by decide)).2.2⟩

/-! ## Objects, sorting and the grouping of a transcript -/

theorem JSObject.get_nil {α : Type} (key : String) (dflt : α) :
    JSObject.get ([] : JSObject α) key dflt = dflt := rfl

theorem JSObject.get_cons {α : Type} (k : String) (v : α) (obj : JSObject α) (key : String)
    (dflt : α) :
    JSObject.get ((k, v) :: obj) key dflt = if key = k then v else JSObject.get obj key dflt := by
  unfold JSObject.get
  rw [List.lookup_cons]
  by_cases h : key = k
  · simp [h]
  · have : (key == k) = false := by simpa using h
    simp [this, h]

/-- Under distinct keys an entry of an object is what reading its key gives. -/
theorem JSObject.get_of_mem {α : Type} (obj : JSObject α) (k : String) (v dflt : α)
    (hnodup : (obj.map Prod.fst).Nodup) (hmem : (k, v) ∈ obj) :
    JSObject.get obj k dflt = v := by
  induction obj with
  | nil => simp at hmem
  | cons e rest ih =>
    obtain ⟨k0, v0⟩ := e
    rw [List.map_cons, List.nodup_cons] at hnodup
    rw [JSObject.get_cons]
    rcases List.mem_cons.mp hmem with h | h
    · cases h; simp
    · have hne : k ≠ k0 := by
        intro hk
        have hk0 : k ∈ rest.map Prod.fst := List.mem_map_of_mem Prod.fst h
        rw [hk] at hk0
        exact hnodup.1 hk0
      rw [if_neg hne]
      exact ih hnodup.2 h

theorem mem_orderedInsertBy {α : Type} (le : α → α → Bool) (x y : α) (l : List α) :
    y ∈ orderedInsertBy le x l ↔ y = x ∨ y ∈ l := by
  induction l with
  | nil => simp [orderedInsertBy]
  | cons a as ih =>
    unfold orderedInsertBy
    split
    · simp
    · simp only [List.mem_cons, ih]
      tauto

theorem orderedInsertBy_perm {α : Type} (le : α → α → Bool) (x : α) (l : List α) :
    (orderedInsertBy le x l).Perm (x :: l) := by
  induction l with
  | nil => simp [orderedInsertBy]
  | cons a as ih =>
    unfold orderedInsertBy
    split
    · exact List.Perm.refl _
    · exact (List.Perm.cons a ih).trans (List.Perm.swap x a as)

/-- Sorting rearranges: the result has the elements of the list, as often. -/
theorem sortBy_perm {α : Type} (le : α → α → Bool) (l : List α) : (sortBy le l).Perm l := by
  induction l with
  | nil => exact List.Perm.refl _
  | cons a as ih =>
    unfold sortBy
    exact (orderedInsertBy_perm le a _).trans (List.Perm.cons a ih)

theorem pairwise_orderedInsertBy {α : Type} (le : α → α → Bool) (x : α) (l : List α)
    (htotal : ∀ y ∈ l, le x y = true ∨ le y x = true)
    (htrans : ∀ y ∈ l, ∀ w ∈ l, le x y = true → le y w = true → le x w = true)
    (hsorted : l.Pairwise (fun a b => le a b = true)) :
    (orderedInsertBy le x l).Pairwise (fun a b => le a b = true) := by
  induction l with
  | nil => simp [orderedInsertBy]
  | cons a as ih =>
    rw [List.pairwise_cons] at hsorted
    unfold orderedInsertBy
    split
    · next hxa =>
      rw [List.pairwise_cons]
      refine ⟨?_, List.pairwise_cons.mpr hsorted⟩
      intro w hw
      rcases List.mem_cons.mp hw with rfl | hw
      · exact hxa
      · exact htrans a (List.mem_cons_self _ _) w (List.mem_cons_of_mem _ hw) hxa
          (hsorted.1 w hw)
    · next hxa =>
      have hax : le a x = true := by
        rcases htotal a (List.mem_cons_self _ _) with h | h
        · exact absurd h hxa
        · exact h
      rw [List.pairwise_cons]
      refine ⟨?_, ih (fun y hy => htotal y (List.mem_cons_of_mem _ hy))
        (fun y hy w hw => htrans y (List.mem_cons_of_mem _ hy) w (List.mem_cons_of_mem _ hw))
        hsorted.2⟩
      intro w hw
      rcases (mem_orderedInsertBy le x w as).mp hw with rfl | hw
      · exact hax
      · exact hsorted.1 w hw

/-- Sorting sorts, when the comparison is total and transitive on the elements at hand. -/
theorem pairwise_sortBy {α : Type} (le : α → α → Bool) (l : List α)
    (htotal : ∀ x ∈ l, ∀ y ∈ l, le x y = true ∨ le y x = true)
    (htrans : ∀ x ∈ l, ∀ y ∈ l, ∀ w ∈ l, le x y = true → le y w = true → le x w = true) :
    (sortBy le l).Pairwise (fun a b => le a b = true) := by
  induction l with
  | nil => simp [sortBy]
  | cons a as ih =>
    unfold sortBy
    have hmem : ∀ y, y ∈ sortBy le as → y ∈ a :: as := fun y hy =>
      List.mem_cons_of_mem _ ((sortBy_perm le as).mem_iff.mp hy)
    apply pairwise_orderedInsertBy
    · intro y hy
      exact htotal a (List.mem_cons_self _ _) y (hmem y hy)
    · intro y hy w hw
      exact htrans a (List.mem_cons_self _ _) y (hmem y hy) w (hmem w hw)
    · exact ih (fun x hx y hy => htotal x (List.mem_cons_of_mem _ hx) y (List.mem_cons_of_mem _ hy))
        (fun x hx y hy w hw => htrans x (List.mem_cons_of_mem _ hx) y (List.mem_cons_of_mem _ hy)
          w (List.mem_cons_of_mem _ hw))

/-- The keys `Object.keys` lists are the keys of the object, as often. -/
theorem objectKeys_perm {α : Type} (obj : JSObject α) :
    (objectKeys obj).Perm (obj.map Prod.fst) := by
  unfold objectKeys
  refine ((sortBy_perm _ _).append_right _).trans ?_
  have h := List.filter_append_perm (fun k => (arrayIndex? k).isSome) (obj.map Prod.fst)
  have hnot : (fun k => (arrayIndex? k).isNone) = (fun k => !(arrayIndex? k).isSome) := by
    funext k; cases arrayIndex? k <;> rfl
  rw [hnot]
  exact h

theorem mem_objectKeys {α : Type} (obj : JSObject α) (k : String) :
    k ∈ objectKeys obj ↔ k ∈ obj.map Prod.fst :=
  (objectKeys_perm obj).mem_iff

theorem mem_arraySort {α : Type} (comparefn : α → α → JSNum) (xs : List α) (x : α) :
    x ∈ arraySort comparefn xs ↔ x ∈ xs :=
  (sortBy_perm _ xs).mem_iff

theorem mem_arraySortDefault (xs : List String) (x : String) :
    x ∈ arraySortDefault xs ↔ x ∈ xs :=
  (sortBy_perm _ xs).mem_iff

theorem pushTerm_get (r : StudentResult) (ts : JSObject (List StudentResult)) (t : String) :
    (pushTerm r ts).get t [] = if t = r.term then ts.get t [] ++ [r] else ts.get t [] := by
  induction ts with
  | nil =>
    simp only [pushTerm, JSObject.get_cons, JSObject.get_nil, List.nil_append]
  | cons e rest ih =>
    obtain ⟨t0, rs0⟩ := e
    unfold pushTerm
    by_cases h0 : t0 = r.term
    · rw [if_pos h0]
      simp only [JSObject.get_cons]
      by_cases ht : t = t0
      · simp [ht, h0]
      · have : t ≠ r.term := fun h => ht (h.trans h0.symm)
        simp [ht, this]
    · rw [if_neg h0]
      simp only [JSObject.get_cons]
      by_cases ht : t = t0
      · have : t ≠ r.term := fun h => h0 (ht.symm.trans h)
        simp [ht, this, h0]
      · simp [ht, ih]

theorem pushTerm_keys (r : StudentResult) (ts : JSObject (List StudentResult)) :
    (pushTerm r ts).map Prod.fst =
      if r.term ∈ ts.map Prod.fst then ts.map Prod.fst else ts.map Prod.fst ++ [r.term] := by
  induction ts with
  | nil => simp [pushTerm]
  | cons e rest ih =>
    obtain ⟨t0, rs0⟩ := e
    unfold pushTerm
    by_cases h0 : t0 = r.term
    · simp [h0]
    · have h1 : ¬ r.term = t0 := fun h => h0 h.symm
      rw [if_neg h0]
      simp only [List.map_cons, ih, List.mem_cons, h1, false_or]
      split <;> simp

theorem pushYear_get (r : StudentResult) (g : JSObject (JSObject (List StudentResult)))
    (y : String) :
    (pushYear r g).get y [] = if y = r.year then pushTerm r (g.get y []) else g.get y [] := by
  induction g with
  | nil =>
    simp only [pushYear, JSObject.get_cons, JSObject.get_nil]
  | cons e rest ih =>
    obtain ⟨y0, ts0⟩ := e
    unfold pushYear
    by_cases h0 : y0 = r.year
    · rw [if_pos h0]
      simp only [JSObject.get_cons]
      by_cases hy : y = y0
      · simp [hy, h0]
      · have : y ≠ r.year := fun h => hy (h.trans h0.symm)
        simp [hy, this]
    · rw [if_neg h0]
      simp only [JSObject.get_cons]
      by_cases hy : y = y0
      · have : y ≠ r.year := fun h => h0 (hy.symm.trans h)
        simp [hy, this, h0]
      · simp [hy, ih]

theorem pushYear_keys (r : StudentResult) (g : JSObject (JSObject (List StudentResult))) :
    (pushYear r g).map Prod.fst =
      if r.year ∈ g.map Prod.fst then g.map Prod.fst else g.map Prod.fst ++ [r.year] := by
  induction g with
  | nil => simp [pushYear]
  | cons e rest ih =>
    obtain ⟨y0, ts0⟩ := e
    unfold pushYear
    by_cases h0 : y0 = r.year
    · simp [h0]
    · have h1 : ¬ r.year = y0 := fun h => h0 h.symm
      rw [if_neg h0]
      simp only [List.map_cons, ih, List.mem_cons, h1, false_or]
      split <;> simp

theorem nodup_keys_of_push (keys : List String) (k : String) (hnodup : keys.Nodup) :
    (if k ∈ keys then keys else keys ++ [k]).Nodup := by
  split
  · exact hnodup
  · next h =>
    rw [List.nodup_append]
    refine ⟨hnodup, by simp, ?_⟩
    intro a ha hb
    rw [List.mem_singleton] at hb
    exact h (hb ▸ ha)

theorem mem_keys_of_push (keys : List String) (k x : String) :
    x ∈ (if k ∈ keys then keys else keys ++ [k]) ↔ x ∈ keys ∨ x = k := by
  split
  · next h =>
    constructor
    · exact Or.inl
    · rintro (h1 | h1)
      · exact h1
      · rw [h1]; exact h
  · simp

/-- What the grouping loop makes of an object `g` and further results: reading a year and
a term gives what `g` held there followed by the further results of that year and term, in
their order; the years are those of `g` and of the further results, the terms of a year
those `g` had for it and those of the further results of that year; no key is repeated. -/
theorem foldl_pushYear_spec (l : List StudentResult) :
    ∀ (g : JSObject (JSObject (List StudentResult))),
      (g.map Prod.fst).Nodup →
      (∀ y, ((g.get y []).map Prod.fst).Nodup) →
      (∀ y t, ((l.foldl (fun grouped r => pushYear r grouped) g).get y []).get t [] =
          (g.get y []).get t [] ++ l.filter (fun r => r.year == y && r.term == t))
      ∧ ((l.foldl (fun grouped r => pushYear r grouped) g).map Prod.fst).Nodup
      ∧ (∀ y, (((l.foldl (fun grouped r => pushYear r grouped) g).get y []).map Prod.fst).Nodup)
      ∧ (∀ y, y ∈ (l.foldl (fun grouped r => pushYear r grouped) g).map Prod.fst ↔
          y ∈ g.map Prod.fst ∨ ∃ r ∈ l, r.year = y)
      ∧ (∀ y t, t ∈ ((l.foldl (fun grouped r => pushYear r grouped) g).get y []).map Prod.fst ↔
          t ∈ (g.get y []).map Prod.fst ∨ ∃ r ∈ l, r.year = y ∧ r.term = t) := by
  induction l with
  | nil =>
    intro g h1 h2
    simp [h1, h2]
  | cons r rest ih =>
    intro g h1 h2
    have k1 : ((pushYear r g).map Prod.fst).Nodup := by
      rw [pushYear_keys]; exact nodup_keys_of_push _ _ h1
    have k2 : ∀ y, (((pushYear r g).get y []).map Prod.fst).Nodup := by
      intro y
      rw [pushYear_get]
      split
      · rw [pushTerm_keys]; exact nodup_keys_of_push _ _ (h2 y)
      · exact h2 y
    obtain ⟨f1, f2, f3, f4, f5⟩ := ih (pushYear r g) k1 k2
    rw [List.foldl_cons]
    refine ⟨?_, f2, f3, ?_, ?_⟩
    · intro y t
      rw [f1 y t, pushYear_get]
      by_cases hy : y = r.year
      · rw [if_pos hy, pushTerm_get]
        by_cases ht : t = r.term
        · simp [hy, ht]
        · have : ¬ r.term = t := fun h => ht h.symm
          simp [hy, ht, this]
      · have : ¬ r.year = y := fun h => hy h.symm
        simp [hy, this]
    · intro y
      rw [f4 y, pushYear_keys, mem_keys_of_push]
      simp only [List.mem_cons, exists_eq_or_imp]
      constructor
      · rintro ((h | h) | h)
        · exact Or.inl h
        · exact Or.inr (Or.inl h.symm)
        · exact Or.inr (Or.inr h)
      · rintro (h | h | h)
        · exact Or.inl (Or.inl h)
        · exact Or.inl (Or.inr h.symm)
        · exact Or.inr h
    · intro y t
      rw [f5 y t, pushYear_get]
      simp only [List.mem_cons, exists_eq_or_imp]
      by_cases hy : y = r.year
      · rw [if_pos hy, pushTerm_keys, mem_keys_of_push]
        constructor
        · rintro ((h | h) | h)
          · exact Or.inl h
          · exact Or.inr (Or.inl ⟨hy.symm, h.symm⟩)
          · exact Or.inr (Or.inr h)
        · rintro (h | ⟨-, h⟩ | h)
          · exact Or.inl (Or.inl h)
          · exact Or.inl (Or.inr h.symm)
          · exact Or.inr h
      · rw [if_neg hy]
        constructor
        · rintro (h | h)
          · exact Or.inl h
          · exact Or.inr (Or.inr h)
        · rintro (h | ⟨h, -⟩ | h)
          · exact Or.inl h
          · exact absurd h.symm hy
          · exact Or.inr h

/-! ## The grouping and the cards of a transcript -/

/-- The grouping of a student's results, key by key. -/
theorem groupedResults_spec (results : List StudentResult) (studentId : String) :
    (∀ y t, ((groupedResults (results.filter (fun r => r.studentId == studentId))).get y
          []).get t [] =
        results.filter (fun r => r.studentId == studentId && (r.year == y && r.term == t)))
    ∧ ((groupedResults (results.filter (fun r => r.studentId == studentId))).map
        Prod.fst).Nodup
    ∧ (∀ y, (((groupedResults (results.filter (fun r => r.studentId == studentId))).get y
          []).map Prod.fst).Nodup)
    ∧ (∀ y, y ∈ (groupedResults (results.filter (fun r => r.studentId == studentId))).map
          Prod.fst ↔ ∃ r ∈ results, r.studentId = studentId ∧ r.year = y)
    ∧ (∀ y t, t ∈ ((groupedResults (results.filter (fun r => r.studentId == studentId))).get y
          []).map Prod.fst ↔
        ∃ r ∈ results, r.studentId = studentId ∧ r.year = y ∧ r.term = t) := by
  obtain ⟨f1, f2, f3, f4, f5⟩ :=
    foldl_pushYear_spec (results.filter (fun r => r.studentId == studentId)) []
      (by simp) (by intro y; simp [JSObject.get_nil])
  refine ⟨?_, f2, f3, ?_, ?_⟩
  · intro y t
    have := f1 y t
    unfold groupedResults
    rw [this, List.filter_filter]
    simp only [JSObject.get_nil, List.nil_append]
    apply List.filter_congr
    intro r _
    rw [Bool.and_comm]
  · intro y
    have := f4 y
    unfold groupedResults
    rw [this]
    simp only [List.map_nil, List.not_mem_nil, false_or, List.mem_filter, beq_iff_eq]
    constructor
    · rintro ⟨r, ⟨hr, hid⟩, hy⟩
      exact ⟨r, hr, hid, hy⟩
    · rintro ⟨r, hr, hid, hy⟩
      exact ⟨r, ⟨hr, hid⟩, hy⟩
  · intro y t
    have := f5 y t
    unfold groupedResults
    rw [this]
    simp only [JSObject.get_nil, List.map_nil, List.not_mem_nil, false_or, List.mem_filter,
      beq_iff_eq]
    constructor
    · rintro ⟨r, ⟨hr, hid⟩, hy⟩
      exact ⟨r, hr, hid, hy⟩
    · rintro ⟨r, hr, hid, hy⟩
      exact ⟨r, ⟨hr, hid⟩, hy⟩

/-- C17: the grouping partitions the student's results. The group read under a year and a
term is the list of the results of that student, year and term, in the order of the
collection; hence a result is in that group as often as it is in the collection when it is
the student's and of that year and term, and in no group otherwise. The year keys are the
years of the student's results and the term keys of a year the terms of the student's
results of that year, no key twice, and every entry of the grouping is the group read
under its keys. -/
theorem C17_grouping_is_partition (results : List StudentResult) (studentId : String) :
    (∀ y t, ((groupedResults (results.filter (fun r => r.studentId == studentId))).get y
          []).get t [] =
        results.filter (fun r => r.studentId == studentId && (r.year == y && r.term == t)))
    ∧ (∀ (r : StudentResult) (y t : String),
        (((groupedResults (results.filter (fun r => r.studentId == studentId))).get y
          []).get t []).count r =
        if r.studentId = studentId ∧ r.year = y ∧ r.term = t then results.count r else 0)
    ∧ ((groupedResults (results.filter (fun r => r.studentId == studentId))).map
        Prod.fst).Nodup
    ∧ (∀ y, (((groupedResults (results.filter (fun r => r.studentId == studentId))).get y
          []).map Prod.fst).Nodup)
    ∧ (∀ y, y ∈ (groupedResults (results.filter (fun r => r.studentId == studentId))).map
          Prod.fst ↔ ∃ r ∈ results, r.studentId = studentId ∧ r.year = y)
    ∧ (∀ y t, t ∈ ((groupedResults (results.filter (fun r => r.studentId == studentId))).get y
          []).map Prod.fst ↔
        ∃ r ∈ results, r.studentId = studentId ∧ r.year = y ∧ r.term = t)
    ∧ (∀ y ts t rs,
        (y, ts) ∈ groupedResults (results.filter (fun r => r.studentId == studentId)) →
        (t, rs) ∈ ts →
        rs = results.filter
          (fun r => r.studentId == studentId && (r.year == y && r.term == t))) := by
  obtain ⟨g1, g2, g3, g4, g5⟩ := groupedResults_spec results studentId
  refine ⟨g1, ?_, g2, g3, g4, g5, ?_⟩
  · intro r y t
    rw [g1 y t]
    by_cases h : r.studentId = studentId ∧ r.year = y ∧ r.term = t
    · rw [if_pos h]
      apply List.count_filter
      simp [h.1, h.2.1, h.2.2]
    · rw [if_neg h]
      apply List.count_eq_zero_of_not_mem
      intro hmem
      have := (List.mem_filter.mp hmem).2
      simp only [Bool.and_eq_true, beq_iff_eq] at this
      exact h this
  · intro y ts t rs hy ht
    have hts : (groupedResults (results.filter (fun r => r.studentId == studentId))).get y []
        = ts := JSObject.get_of_mem _ y ts [] g2 hy
    have hrs : ts.get t [] = rs :=
      JSObject.get_of_mem ts t rs [] (by rw [← hts]; exact g3 y) ht
    rw [← hrs, ← hts]
    exact g1 y t

/-- What `TranscriptsSection` renders, from the grouping: the panel when the grouping has no
key, else for each year key in sorted order the cards of its term keys in sorted order. -/
theorem TranscriptsSection_eq (results : List StudentResult) (studentId : String) :
    TranscriptsSection results studentId =
      if objectKeys (groupedResults (results.filter (fun r => r.studentId == studentId))) = []
      then TranscriptView.noRecords
      else TranscriptView.years
        ((arraySort (fun a b => (Number b).sub (Number a))
          (objectKeys (groupedResults
            (results.filter (fun r => r.studentId == studentId))))).map (fun year =>
          (year, (arraySortDefault (objectKeys
            ((groupedResults (results.filter (fun r => r.studentId == studentId))).get year
              []))).map
            (termCard (groupedResults (results.filter (fun r => r.studentId == studentId)))
              year)))) := by
  unfold TranscriptsSection
  simp only [List.length_eq_zero]

/-- The grouping has no key exactly when no result is the student's. -/
theorem objectKeys_groupedResults_eq_nil_iff (results : List StudentResult)
    (studentId : String) :
    objectKeys (groupedResults (results.filter (fun r => r.studentId == studentId))) = [] ↔
      ∀ r ∈ results, r.studentId ≠ studentId := by
  obtain ⟨-, -, -, g4, -⟩ := groupedResults_spec results studentId
  constructor
  · intro h r hr hid
    have : r.year ∈ objectKeys
        (groupedResults (results.filter (fun r => r.studentId == studentId))) := by
      rw [mem_objectKeys, g4]
      exact ⟨r, hr, hid, rfl⟩
    rw [h] at this
    simp at this
  · intro h
    rw [List.eq_nil_iff_forall_not_mem]
    intro y hy
    rw [mem_objectKeys, g4] at hy
    obtain ⟨r, hr, hid, -⟩ := hy
    exact h r hr hid

/-- The cards of a rendered transcript: each year is a year of the student's results and
its cards are those of its sorted term keys; each card is the one of a term of the
student's results of that year, and its rows are the student's results of that year and
term in the order of the collection. -/
theorem cards_spec (results : List StudentResult) (studentId : String)
    (cards : List (String × List TermCard))
    (hview : TranscriptsSection results studentId = TranscriptView.years cards) :
    cards.map Prod.fst =
        arraySort (fun a b => (Number b).sub (Number a))
          (objectKeys (groupedResults (results.filter (fun r => r.studentId == studentId))))
    ∧ ∀ yc ∈ cards,
        (∃ r ∈ results, r.studentId = studentId ∧ r.year = yc.1)
        ∧ yc.2.map TermCard.term = arraySortDefault (objectKeys
            ((groupedResults (results.filter (fun r => r.studentId == studentId))).get yc.1 []))
        ∧ ∀ c ∈ yc.2,
            c.year = yc.1
            ∧ (∃ r ∈ results, r.studentId = studentId ∧ r.year = yc.1 ∧ r.term = c.term)
            ∧ c.rows.map Prod.fst = results.filter
                (fun r => r.studentId == studentId && (r.year == yc.1 && r.term == c.term))
            ∧ c.termAverage = getTermAverage (c.rows.map Prod.fst)
            ∧ c.rows = (c.rows.map Prod.fst).map (fun result => (result, remark result)) := by
  obtain ⟨g1, -, -, g4, g5⟩ := groupedResults_spec results studentId
  rw [TranscriptsSection_eq] at hview
  split at hview
  · cases hview
  · injection hview with hcards
    subst hcards
    refine ⟨?_, ?_⟩
    · rw [List.map_map]
      have hfst : (Prod.fst ∘ fun year =>
          (year, (arraySortDefault (objectKeys
            ((groupedResults (results.filter (fun r => r.studentId == studentId))).get year
              []))).map
            (termCard (groupedResults (results.filter (fun r => r.studentId == studentId)))
              year))) = id := by
        funext y; rfl
      rw [hfst, List.map_id]
    · intro yc hyc
      obtain ⟨year, hyear, rfl⟩ := List.mem_map.mp hyc
      rw [mem_arraySort, mem_objectKeys, g4] at hyear
      refine ⟨hyear, ?_, ?_⟩
      · rw [List.map_map]
        have : (TermCard.term ∘ termCard
            (groupedResults (results.filter (fun r => r.studentId == studentId))) year) = id := by
          funext t; rfl
        rw [this, List.map_id]
      · intro c hc
        obtain ⟨term, hterm, rfl⟩ := List.mem_map.mp hc
        rw [mem_arraySortDefault, mem_objectKeys, g5] at hterm
        have hrows : (termCard
            (groupedResults (results.filter (fun r => r.studentId == studentId))) year
              term).rows.map Prod.fst =
            ((groupedResults (results.filter (fun r => r.studentId == studentId))).get year
              []).get term [] := by
          have hfst : (Prod.fst ∘ fun result : StudentResult => (result, remark result)) = id := by
            funext x; rfl
          simp only [termCard, List.map_map, hfst, List.map_id]
        refine ⟨rfl, hterm, ?_, ?_, ?_⟩
        · rw [hrows]; exact g1 year term
        · rw [hrows]; rfl
        · rw [hrows]; rfl

/-- C19: `TranscriptsSection` renders the "no records" panel exactly when no result of the
collection has the studentId; when it renders years there is at least one, every year has
at least one term card and every term card has at least one row. -/
theorem C19_no_records_iff_no_result (results : List StudentResult) (studentId : String) :
    (TranscriptsSection results studentId = TranscriptView.noRecords ↔
      ∀ r ∈ results, r.studentId ≠ studentId)
    ∧ ∀ cards, TranscriptsSection results studentId = TranscriptView.years cards →
        cards ≠ [] ∧ ∀ yc ∈ cards, yc.2 ≠ [] ∧ ∀ c ∈ yc.2, c.rows ≠ [] := by
  constructor
  · rw [TranscriptsSection_eq, ← objectKeys_groupedResults_eq_nil_iff]
    constructor
    · intro h
      by_contra hne
      rw [if_neg hne] at h
      cases h
    · intro h
      rw [if_pos h]
  · intro cards hview
    obtain ⟨hyears, hcards⟩ := cards_spec results studentId cards hview
    refine ⟨?_, ?_⟩
    · intro hnil
      rw [TranscriptsSection_eq] at hview
      split at hview
      · cases hview
      · next hne =>
        apply hne
        have hlen := congrArg List.length hyears
        rw [hnil] at hlen
        simp only [List.map_nil, List.length_nil] at hlen
        have hperm := (sortBy_perm (fun a b => !((Number b).sub (Number a)).isPositive)
          (objectKeys (groupedResults
            (results.filter (fun r => r.studentId == studentId))))).length_eq
        unfold arraySort at hlen
        rw [hperm] at hlen
        exact List.length_eq_zero.mp hlen.symm
    · intro yc hyc
      obtain ⟨-, hterms, hc⟩ := hcards yc hyc
      have hrows : ∀ c ∈ yc.2, c.rows ≠ [] := by
        intro c hcm hnil
        obtain ⟨-, ⟨r, hr, hid, hy, ht⟩, hfilter, -, -⟩ := hc c hcm
        rw [hnil] at hfilter
        have : r ∈ results.filter
            (fun r => r.studentId == studentId && (r.year == yc.1 && r.term == c.term)) := by
          rw [List.mem_filter]
          exact ⟨hr, by simp [hid, hy, ht]⟩
        rw [← hfilter] at this
        simp at this
      refine ⟨?_, hrows⟩
      intro hnil
      obtain ⟨⟨r, hr, hid, hy⟩, hterms, -⟩ := hcards yc hyc
      obtain ⟨-, -, -, -, g5⟩ := groupedResults_spec results studentId
      have hmem : r.term ∈ arraySortDefault (objectKeys
          ((groupedResults (results.filter (fun r => r.studentId == studentId))).get yc.1
            [])) := by
        rw [mem_arraySortDefault, mem_objectKeys, g5]
        exact ⟨r, hr, hid, hy, rfl⟩
      rw [← hterms, hnil] at hmem
      simp at hmem

/-! ## Decimal digits -/

theorem decDigit?_digitChar : ∀ d, d < 10 → decDigit? (Nat.digitChar d) = some d := by
  decide

theorem length_le_toDigitsCore (fuel n : Nat) (ds : List Char) :
    ds.length ≤ (Nat.toDigitsCore 10 fuel n ds).length := by
  induction fuel generalizing n ds with
  | zero => simp [Nat.toDigitsCore]
  | succ fuel ih =>
    simp only [Nat.toDigitsCore]
    split
    · simp
    · exact le_trans (by simp) (ih _ _)

theorem toDigitsCore_digits (fuel n : Nat) (ds : List Char) :
    ∀ c ∈ Nat.toDigitsCore 10 fuel n ds, c ∈ ds ∨ (decDigit? c).isSome = true := by
  induction fuel generalizing n ds with
  | zero => intro c hc; exact Or.inl (by simpa [Nat.toDigitsCore] using hc)
  | succ fuel ih =>
    intro c hc
    have hd : (decDigit? (Nat.digitChar (n % 10))).isSome = true := by
      rw [decDigit?_digitChar _ (Nat.mod_lt _ (by decide))]; rfl
    simp only [Nat.toDigitsCore] at hc
    split at hc
    · rcases List.mem_cons.mp hc with h | h
      · exact Or.inr (h ▸ hd)
      · exact Or.inl h
    · rcases ih _ _ c hc with h | h
      · rcases List.mem_cons.mp h with h | h
        · exact Or.inr (h ▸ hd)
        · exact Or.inl h
      · exact Or.inr h

/-- The decimal digits of a number are digits, and there is at least one. -/
theorem toDigits_digits (n : Nat) :
    Nat.toDigits 10 n ≠ [] ∧ ∀ c ∈ Nat.toDigits 10 n, (decDigit? c).isSome = true := by
  constructor
  · intro h
    have h1 : (Nat.toDigits 10 n).length = 0 := by rw [h]; rfl
    unfold Nat.toDigits at h1
    simp only [Nat.toDigitsCore] at h1
    split at h1
    · simp at h1
    · have := length_le_toDigitsCore n (n / 10) [Nat.digitChar (n % 10)]
      rw [h1] at this
      simp at this
  · intro c hc
    rcases toDigitsCore_digits (n + 1) n [] c hc with h | h
    · simp at h
    · exact h

/-- Fixed notation with one digit after the point: digits, at least one, a point and one
digit. -/
theorem fixedDigits_one (n : Nat) :
    ∃ (whole : List Char) (d : Char),
      fixedDigits n 1 = whole ++ ['.', d] ∧ whole ≠ []
      ∧ (∀ c ∈ whole, (decDigit? c).isSome = true) ∧ (decDigit? d).isSome = true := by
  obtain ⟨hne, hdig⟩ := toDigits_digits n
  have hz : ∀ c ∈ List.replicate (1 + 1 - (Nat.toDigits 10 n).length) '0' ++ Nat.toDigits 10 n,
      (decDigit? c).isSome = true := by
    intro c hc
    rcases List.mem_append.mp hc with h | h
    · rw [(List.mem_replicate.mp h).2]; rfl
    · exact hdig c h
  have hlen : 2 ≤ (List.replicate (1 + 1 - (Nat.toDigits 10 n).length) '0' ++
      Nat.toDigits 10 n).length := by
    simp only [List.length_append, List.length_replicate]
    omega
  generalize hzdef :
    List.replicate (1 + 1 - (Nat.toDigits 10 n).length) '0' ++ Nat.toDigits 10 n = z at hz hlen
  have hdrop : (z.drop (z.length - 1)).length = 1 := by
    rw [List.length_drop]; omega
  obtain ⟨d, hd⟩ := List.length_eq_one.mp hdrop
  refine ⟨z.take (z.length - 1), d, ?_, ?_, ?_, ?_⟩
  · have hfd : fixedDigits n 1 = z.take (z.length - 1) ++ '.' :: z.drop (z.length - 1) := by
      rw [← hzdef]; rfl
    rw [hfd, hd]
  · intro h
    have := congrArg List.length h
    rw [List.length_take] at this
    simp only [List.length_nil] at this
    omega
  · intro c hc
    exact hz c (List.mem_of_mem_take hc)
  · apply hz d
    have : d ∈ z.drop (z.length - 1) := by rw [hd]; simp
    exact List.mem_of_mem_drop this

/-! ## The term average -/

theorem foldl_add_score (termResults : List StudentResult) (z : StudentResult → ℤ)
    (hint : ∀ r ∈ termResults, r.score = JSNum.ofInt (z r)) (a : ℚ) :
    termResults.foldl (fun acc curr => acc.add curr.score) (JSNum.fin a) =
      JSNum.fin (a + (((termResults.map z).sum : ℤ) : ℚ)) := by
  induction termResults generalizing a with
  | nil => simp
  | cons r rest ih =>
    rw [List.foldl_cons, hint r (List.mem_cons_self _ _), JSNum.fin_add_ofInt,
      ih (fun x hx => hint x (List.mem_cons_of_mem _ hx))]
    simp [add_assoc]

theorem abs_sum_le_sum_abs (l : List StudentResult) (z : StudentResult → ℤ) :
    |(l.map z).sum| ≤ (l.map (fun r => |z r|)).sum := by
  induction l with
  | nil => simp
  | cons r rest ih =>
    simp only [List.map_cons, List.sum_cons]
    exact le_trans (abs_add _ _) (by linarith)

/-- The text of the term average of fewer than `2 ^ 32` results with integer scores whose
magnitudes sum to less than `10 ^ 14`: a minus sign when the mean is negative, then the
fixed notation, with one digit after the point, of the tenth nearest to the magnitude of the
mean, the larger one of two, but the smaller one of two when the binary64 quotient is
smaller in magnitude than the mean. -/
theorem getTermAverage_of_int_scores (termResults : List StudentResult)
    (z : StudentResult → ℤ) (hne : termResults ≠ [])
    (hlen32 : termResults.length < 2 ^ 32)
    (hint : ∀ r ∈ termResults, r.score = JSNum.ofInt (z r))
    (hbound : (termResults.map (fun r => |z r|)).sum < 10 ^ 14)
    (mean : ℚ)
    (hmean : mean = (((termResults.map z).sum : ℤ) : ℚ) / (termResults.length : ℚ)) :
    ∃ quotient : ℚ,
      roundBinary64 mean = JSNum.fin quotient
      ∧ |quotient - mean| ≤ abs mean / 2 ^ 53
      ∧ getTermAverage termResults =
        JSValue.str (String.mk
          ((if mean < 0 then ['-'] else []) ++ fixedDigits
            (if abs quotient < abs mean ∧
                abs mean * 10 + 1 / 2 = ((⌊abs mean * 10 + 1 / 2⌋₊ : ℕ) : ℚ)
             then ⌊abs mean * 10 + 1 / 2⌋₊ - 1 else ⌊abs mean * 10 + 1 / 2⌋₊) 1))
      ∧ |((⌊abs mean * 10 + 1 / 2⌋₊ : ℕ) : ℚ) / 10 - abs mean| ≤ 1 / 20 := by
  have hlen : termResults.length ≠ 0 := by
    rw [Ne, List.length_eq_zero]; exact hne
  have hlenpos : (0 : ℚ) < (termResults.length : ℚ) := by
    exact_mod_cast Nat.pos_of_ne_zero hlen
  have havg := getTermAverage_of_ne_nil termResults hne
  rw [JSNum.ofInt_zero, foldl_add_score termResults z hint 0, zero_add] at havg
  have hdiv : (JSNum.fin (((termResults.map z).sum : ℤ) : ℚ)).divLength termResults.length =
      roundBinary64 ((((termResults.map z).sum : ℤ) : ℚ) / (termResults.length : ℚ)) := by
    simp [JSNum.divLength, hlen]
  rw [hdiv, ← hmean] at havg
  have htotal : |(termResults.map z).sum| < 10 ^ 14 :=
    lt_of_le_of_lt (abs_sum_le_sum_abs termResults z) hbound
  generalize (termResults.map z).sum = total at hmean htotal
  have hS : total.natAbs < 10 ^ 14 := by
    have h : ((total.natAbs : ℕ) : ℤ) < 10 ^ 14 := by
      rw [Int.natCast_natAbs]; exact htotal
    exact_mod_cast h
  have hST : 2 * total.natAbs * 10 ^ 1 < 2 ^ 53 := by
    norm_num at hS ⊢
    omega
  obtain ⟨d, hd, hnear, hd0, hdpos, hdlt, hfl⟩ :=
    roundBinary64_div_nat total.natAbs termResults.length 1 (Nat.pos_of_ne_zero hlen) hlen32 hST
  rw [pow_one] at hfl
  have hround : ∀ x : ℚ, 0 ≤ x → |((⌊x * 10 + 1 / 2⌋₊ : ℕ) : ℚ) / 10 - x| ≤ 1 / 20 := by
    intro x hx
    have h := abs_floor_add_half_sub_le (x * 10) (mul_nonneg hx (by norm_num))
    rw [abs_le] at h ⊢
    constructor <;> linarith [h.1, h.2]
  by_cases hneg : total < 0
  · have hcast : ((total : ℤ) : ℚ) = -((total.natAbs : ℕ) : ℚ) := by
      rw [Nat.cast_natAbs, abs_of_neg hneg]; push_cast; ring
    have hSpos : 0 < total.natAbs := Int.natAbs_pos.mpr hneg.ne
    have hm : mean = -(((total.natAbs : ℕ) : ℚ) / (termResults.length : ℚ)) := by
      rw [hmean, hcast]; ring
    have hqpos : 0 < ((total.natAbs : ℕ) : ℚ) / (termResults.length : ℚ) :=
      div_pos (by exact_mod_cast hSpos) hlenpos
    have hmneg : mean < 0 := by rw [hm]; linarith
    have habs : abs mean = ((total.natAbs : ℕ) : ℚ) / (termResults.length : ℚ) := by
      rw [abs_of_neg hmneg, hm, neg_neg]
    have hdp := hdpos hSpos
    have hq : roundBinary64 mean = JSNum.fin (-d) :=
      roundBinary64_of_neg mean d hmneg (by rw [hm, neg_neg]; exact hd)
    rw [← habs] at hnear hfl
    refine ⟨-d, hq, ?_, ?_, hround _ (abs_nonneg _)⟩
    · have h1 : -d - mean = -(d - abs mean) := by rw [abs_of_neg hmneg]; ring
      rw [h1, abs_neg]; exact hnear
    · rw [havg, hq, toFixed_of_neg (-d) 1 (by linarith) (by linarith), if_pos hmneg,
        pow_one, neg_neg, hfl, abs_neg, abs_of_pos hdp]
      rfl
  · have htot0 : 0 ≤ total := not_lt.mp hneg
    have hcast : ((total : ℤ) : ℚ) = ((total.natAbs : ℕ) : ℚ) := by
      rw [Nat.cast_natAbs, abs_of_nonneg htot0]
    have hm : mean = ((total.natAbs : ℕ) : ℚ) / (termResults.length : ℚ) := by
      rw [hmean, hcast]
    have hm0 : 0 ≤ mean := by
      rw [hm]; exact div_nonneg (by positivity) hlenpos.le
    have habs : abs mean = mean := abs_of_nonneg hm0
    rw [← hm] at hd hnear hfl
    refine ⟨d, hd, by rw [habs]; exact hnear, ?_, hround _ (abs_nonneg _)⟩
    rw [havg, hd, toFixed_of_nonneg d 1 hd0 hdlt, if_neg (not_lt.mpr hm0), pow_one, hfl, habs,
      abs_of_nonneg hd0]
    rfl

/-- C14, as the code has it: for a non-empty list of fewer than `2 ^ 32` results with
integer scores whose magnitudes sum to less than `10 ^ 14`, `getTermAverage` is the text,
written with digits, a point and exactly one digit after it (after a minus sign when the
mean is negative), of the tenth nearest to the magnitude of the mean of the scores, the
larger one of two; but when the mean lies halfway between two tenths and the binary64
quotient of the sum by the count is smaller in magnitude than the mean, it is the smaller
one of the two. For the empty list it is the number `0`; and the average on each card of a
transcript is `getTermAverage` of the rows of that card, which are the student's results of
the card's year and term. -/
theorem C14_term_average_rounded (termResults : List StudentResult) (z : StudentResult → ℤ)
    (hne : termResults ≠ []) (hlen : termResults.length < 2 ^ 32)
    (hint : ∀ r ∈ termResults, r.score = JSNum.ofInt (z r))
    (hbound : (termResults.map (fun r => |z r|)).sum < 10 ^ 14) :
    (∀ mean : ℚ,
      mean = (((termResults.map z).sum : ℤ) : ℚ) / (termResults.length : ℚ) →
      ∃ (quotient : ℚ) (whole : List Char) (digit : Char),
        roundBinary64 mean = JSNum.fin quotient
        ∧ |quotient - mean| ≤ abs mean / 2 ^ 53
        ∧ getTermAverage termResults =
          JSValue.str (String.mk
            ((if mean < 0 then ['-'] else []) ++ (whole ++ ['.', digit])))
        ∧ fixedDigits
            (if abs quotient < abs mean ∧
                abs mean * 10 + 1 / 2 = ((⌊abs mean * 10 + 1 / 2⌋₊ : ℕ) : ℚ)
             then ⌊abs mean * 10 + 1 / 2⌋₊ - 1 else ⌊abs mean * 10 + 1 / 2⌋₊) 1 =
          whole ++ ['.', digit]
        ∧ whole ≠ [] ∧ (∀ c ∈ whole, (decDigit? c).isSome = true)
        ∧ (decDigit? digit).isSome = true
        ∧ |((⌊abs mean * 10 + 1 / 2⌋₊ : ℕ) : ℚ) / 10 - abs mean| ≤ 1 / 20)
    ∧ getTermAverage [] = JSValue.num (JSNum.ofInt 0)
    ∧ (∀ (results : List StudentResult) (studentId : String)
        (cards : List (String × List TermCard)),
        TranscriptsSection results studentId = TranscriptView.years cards →
        ∀ yc ∈ cards, ∀ c ∈ yc.2,
          c.termAverage = getTermAverage (c.rows.map Prod.fst)
          ∧ c.rows.map Prod.fst = results.filter
              (fun r => r.studentId == studentId && (r.year == yc.1 && r.term == c.term))) := by
  refine ⟨?_, rfl, ?_⟩
  · intro mean hmean
    obtain ⟨q, hq, hnear, havg, hten⟩ :=
      getTermAverage_of_int_scores termResults z hne hlen hint hbound mean hmean
    obtain ⟨whole, d, hfd, hw, hwd, hd⟩ := fixedDigits_one
      (if abs q < abs mean ∧ abs mean * 10 + 1 / 2 = ((⌊abs mean * 10 + 1 / 2⌋₊ : ℕ) : ℚ)
       then ⌊abs mean * 10 + 1 / 2⌋₊ - 1 else ⌊abs mean * 10 + 1 / 2⌋₊)
    exact ⟨q, whole, d, hq, hnear, by rw [havg, hfd], hfd, hw, hwd, hd, hten⟩
  · intro results studentId cards hview yc hyc c hc
    obtain ⟨-, hcards⟩ := cards_spec results studentId cards hview
    obtain ⟨-, -, hcs⟩ := hcards yc hyc
    obtain ⟨-, -, hrows, havg, -⟩ := hcs c hc
    exact ⟨havg, hrows⟩

theorem getTermAverage_ten_pow_21 :
    getTermAverage [exampleResult "t1" "ST-001" "Mathematics" (10 ^ 21) "Term 1" "2025"] =
      JSValue.str "1e+21" := by
  have h : getTermAverage [exampleResult "t1" "ST-001" "Mathematics" (10 ^ 21) "Term 1" "2025"] =
      JSValue.str (toFixed (roundBinary64 ((10 : ℚ) ^ 21)) 1) := by
    rw [getTermAverage_of_ne_nil _ (by simp)]
    simp [exampleResult, JSNum.ofInt, JSNum.add, JSNum.divLength]
    norm_num
  rw [h, roundBinary64_ten_pow_21]
  decide!

/-- Counterexample to C14 as stated: twenty results, three of score 1 and seventeen of score
0. The mean of the scores is `0.15`, which to one decimal is `0.2`; the binary64 quotient
`3 / 20` is below `0.15` and the average is the text `0.1`. And one result of the integer
score `10 ^ 21` has as average the text `1e+21`, which has no digit after a point. -/
theorem C14_counterexample :
    tieTermResults.map (fun r => r.score) =
      (List.replicate 3 (JSNum.ofInt 1) ++ List.replicate 17 (JSNum.ofInt 0))
    ∧ toFixed (JSNum.fin (3 / 20)) 1 = "0.2"
    ∧ getTermAverage tieTermResults = JSValue.str "0.1"
    ∧ (exampleResult "t1" "ST-001" "Mathematics" (10 ^ 21) "Term 1" "2025").score =
      JSNum.ofInt (10 ^ 21)
    ∧ getTermAverage [exampleResult "t1" "ST-001" "Mathematics" (10 ^ 21) "Term 1" "2025"] =
      JSValue.str "1e+21" := by
  refine ⟨by decide, by decide!, by decide!, rfl, getTermAverage_ten_pow_21⟩

/-- Witness of C14 as amended: the scores 80, 60 and 100 of the specification give the
text `80.0`. -/
theorem C14_term_average_rounded_witness :
    getTermAverage
        [exampleResult "t1" "ST-001" "Mathematics" 80 "Term 1" "2025",
         exampleResult "t2" "ST-001" "English" 60 "Term 1" "2025",
         exampleResult "t3" "ST-001" "History" 100 "Term 1" "2025"] = JSValue.str "80.0"
    ∧ getTermAverage [] = JSValue.num (JSNum.ofInt 0) :=
  ⟨by decide!,
   (C14_term_average_rounded
      [exampleResult "t1" "ST-001" "Mathematics" 80 "Term 1" "2025",
       exampleResult "t2" "ST-001" "English" 60 "Term 1" "2025",
       exampleResult "t3" "ST-001" "History" 100 "Term 1" "2025"]
      (fun r => if r.id = "t1" then 80 else if r.id = "t2" then 60 else 100)
      (by decide) (by decide) (by decide) (by decide)).2.1⟩

/-! ## Reading runs of decimal digits -/

theorem decDigit?_isSome_iff (c : Char) :
    (decDigit? c).isSome = true ↔ 48 ≤ c.toNat ∧ c.toNat ≤ 57 := by
  unfold decDigit?
  split <;> simp_all

theorem decDigit?_of_isSome (c : Char) (h : (decDigit? c).isSome = true) :
    decDigit? c = some (c.toNat - 48) := by
  have := (decDigit?_isSome_iff c).mp h
  simp [decDigit?, this]

theorem isStrWhiteSpaceChar_of_digit (c : Char) (h : (decDigit? c).isSome = true) :
    isStrWhiteSpaceChar c = false := by
  have hc := (decDigit?_isSome_iff c).mp h
  unfold isStrWhiteSpaceChar
  rw [List.contains_eq_any_beq, List.any_eq_false]
  intro x hx
  simp only [List.mem_cons, List.mem_singleton, List.not_mem_nil, or_false] at hx
  simp only [beq_iff_eq]
  omega

/-- A run of decimal digits is read to the number it denotes. -/
theorem readDigits_of_digits (cs : List Char) (acc : Nat)
    (hdig : ∀ c ∈ cs, (decDigit? c).isSome = true) :
    readDigits decDigit? 10 acc cs =
      some (cs.foldl (fun a c => a * 10 + (c.toNat - 48)) acc) := by
  induction cs generalizing acc with
  | nil => rfl
  | cons c rest ih =>
    rw [readDigits, decDigit?_of_isSome c (hdig c (List.mem_cons_self _ _))]
    exact ih _ (fun x hx => hdig x (List.mem_cons_of_mem _ hx))

theorem takeWhile_digits (cs : List Char) (hdig : ∀ c ∈ cs, (decDigit? c).isSome = true) :
    cs.takeWhile (fun c => (decDigit? c).isSome) = cs := by
  rw [List.takeWhile_eq_self_iff]
  exact hdig

theorem dropWhile_digits (cs : List Char) (hdig : ∀ c ∈ cs, (decDigit? c).isSome = true) :
    cs.dropWhile (fun c => (decDigit? c).isSome) = [] := by
  rw [List.dropWhile_eq_nil_iff]
  exact hdig

theorem dropWhile_whitespace_of_digit (c : Char) (rest : List Char)
    (h : (decDigit? c).isSome = true) :
    (c :: rest).dropWhile isStrWhiteSpaceChar = c :: rest := by
  rw [List.dropWhile_cons, isStrWhiteSpaceChar_of_digit c h]
  rfl

/-- White space is not stripped from a run of decimal digits. -/
theorem trimStrWhiteSpace_of_digits (cs : List Char)
    (hdig : ∀ c ∈ cs, (decDigit? c).isSome = true) : trimStrWhiteSpace cs = cs := by
  unfold trimStrWhiteSpace
  have h1 : cs.dropWhile isStrWhiteSpaceChar = cs := by
    cases cs with
    | nil => rfl
    | cons c rest => exact dropWhile_whitespace_of_digit c rest (hdig c (List.mem_cons_self _ _))
  rw [h1]
  have h2 : cs.reverse.dropWhile isStrWhiteSpaceChar = cs.reverse := by
    cases hr : cs.reverse with
    | nil => rfl
    | cons c rest =>
      apply dropWhile_whitespace_of_digit
      apply hdig
      rw [← List.mem_reverse, hr]
      exact List.mem_cons_self _ _
  rw [h2, List.reverse_reverse]

/-- `parseInt` of a non-empty run of decimal digits is the number it denotes. -/
theorem parseInt_of_digits (s : String) (hne : s ≠ "")
    (hdig : ∀ c ∈ s.data, (decDigit? c).isSome = true) :
    parseInt s = JSNum.fin (digitsValue s.data : ℚ) := by
  obtain ⟨cs⟩ := s
  cases cs with
  | nil => exact absurd rfl hne
  | cons c rest =>
    have hc : (decDigit? c).isSome = true := hdig c (List.mem_cons_self _ _)
    have hcb := (decDigit?_isSome_iff c).mp hc
    have hplus : c ≠ '+' := by
      intro h; rw [h] at hcb; revert hcb; decide
    have hminus : c ≠ '-' := by
      intro h; rw [h] at hcb; revert hcb; decide
    have hhex : ¬ ((c :: rest).take 2 = ['0', 'x'] ∨ (c :: rest).take 2 = ['0', 'X']) := by
      cases rest with
      | nil => simp
      | cons c2 rest2 =>
        have hc2 := (decDigit?_isSome_iff c2).mp
          (hdig c2 (List.mem_cons_of_mem _ (List.mem_cons_self _ _)))
        have hx : c2 ≠ 'x' := by
          intro h; rw [h] at hc2; revert hc2; decide
        have hX : c2 ≠ 'X' := by
          intro h; rw [h] at hc2; revert hc2; decide
        simp [List.take, hx, hX]
    unfold parseInt
    simp only [dropWhile_whitespace_of_digit c rest hc, List.head?_cons, Option.some.injEq,
      hplus, hminus, or_self, if_false, hhex]
    rw [takeWhile_digits (c :: rest) hdig]
    simp only [readNumeral, List.isEmpty_cons, Bool.false_eq_true, if_false]
    rw [readDigits_of_digits (c :: rest) 0 hdig]
    rfl

/-- `Number` of a non-empty run of decimal digits is the number it denotes. -/
theorem Number_of_digits (s : String) (hne : s ≠ "")
    (hdig : ∀ c ∈ s.data, (decDigit? c).isSome = true) :
    Number s = JSNum.fin (digitsValue s.data : ℚ) := by
  obtain ⟨cs⟩ := s
  cases cs with
  | nil => exact absurd rfl hne
  | cons c rest =>
    have hc : (decDigit? c).isSome = true := hdig c (List.mem_cons_self _ _)
    have hcb := (decDigit?_isSome_iff c).mp hc
    unfold Number
    rw [trimStrWhiteSpace_of_digits (c :: rest) hdig]
    have hplus : c ≠ '+' := by
      intro h; rw [h] at hcb; revert hcb; decide
    have hminus : c ≠ '-' := by
      intro h; rw [h] at hcb; revert hcb; decide
    have hsecond : ∀ (c2 : Char) (rest2 : List Char), rest = c2 :: rest2 →
        c2 ≠ 'x' ∧ c2 ≠ 'X' ∧ c2 ≠ 'o' ∧ c2 ≠ 'O' ∧ c2 ≠ 'b' ∧ c2 ≠ 'B' := by
      intro c2 rest2 h
      have hc2 : 48 ≤ c2.toNat ∧ c2.toNat ≤ 57 := by
        apply (decDigit?_isSome_iff c2).mp
        apply hdig
        rw [h]
        exact List.mem_cons_of_mem _ (List.mem_cons_self _ _)
      refine ⟨?_, ?_, ?_, ?_, ?_, ?_⟩ <;>
        (intro h2; rw [h2] at hc2; revert hc2; decide)
    have hlit : readStrNumericLiteral (c :: rest) = readUnsignedDecimal (c :: rest) := by
      unfold readStrNumericLiteral
      split
      all_goals first
        | rfl
        | (next h =>
            exfalso
            simp only [List.cons.injEq] at h
            first
              | exact hplus h.1
              | exact hminus h.1
              | exact (hsecond _ _ h.2).1 rfl
              | exact (hsecond _ _ h.2).2.1 rfl
              | exact (hsecond _ _ h.2).2.2.1 rfl
              | exact (hsecond _ _ h.2).2.2.2.1 rfl
              | exact (hsecond _ _ h.2).2.2.2.2.1 rfl
              | exact (hsecond _ _ h.2).2.2.2.2.2 rfl)
        | (next h => exact absurd h (by simp))
    rw [hlit]
    unfold readUnsignedDecimal
    have hinf : ¬ (c :: rest = "Infinity".data) := by
      intro h
      have : c = 'I' := by
        have := congrArg List.head? h
        simpa using this
      rw [this] at hcb
      revert hcb
      decide
    rw [if_neg hinf]
    simp only [takeWhile_digits (c :: rest) hdig, dropWhile_digits (c :: rest) hdig,
      List.isEmpty_cons, Bool.false_and, Bool.false_eq_true, if_false, List.append_nil,
      readDigits_of_digits (c :: rest) 0 hdig, readExponent]
    simp [scale10, digitsValue]

/-! ## The order of years and terms -/

theorem Char.eq_of_toNat_eq (a b : Char) (h : a.toNat = b.toNat) : a = b := by
  apply Char.ext
  apply UInt32.ext
  exact h

theorem unitsLt_irrefl (a : List Nat) : unitsLt a a = false := by
  induction a with
  | nil => rfl
  | cons x xs ih => simp [unitsLt, ih]

theorem unitsLt_trans (a b c : List Nat) (hab : unitsLt a b = true) (hbc : unitsLt b c = true) :
    unitsLt a c = true := by
  induction a generalizing b c with
  | nil =>
    cases b with
    | nil => simp [unitsLt] at hab
    | cons y ys =>
      cases c with
      | nil => simp [unitsLt] at hbc
      | cons w ws => rfl
  | cons x xs ih =>
    cases b with
    | nil => simp [unitsLt] at hab
    | cons y ys =>
      cases c with
      | nil => simp [unitsLt] at hbc
      | cons w ws =>
        simp only [unitsLt, Bool.or_eq_true, decide_eq_true_eq, Bool.and_eq_true,
          beq_iff_eq] at hab hbc ⊢
        rcases hab with h1 | ⟨h1, h1r⟩
        · rcases hbc with h2 | ⟨h2, -⟩
          · exact Or.inl (lt_trans h1 h2)
          · exact Or.inl (h2 ▸ h1)
        · rcases hbc with h2 | ⟨h2, h2r⟩
          · exact Or.inl (h1 ▸ h2)
          · exact Or.inr ⟨h1.trans h2, ih ys ws h1r h2r⟩

theorem unitsLt_trichotomy (a b : List Nat) :
    unitsLt a b = true ∨ a = b ∨ unitsLt b a = true := by
  induction a generalizing b with
  | nil =>
    cases b with
    | nil => exact Or.inr (Or.inl rfl)
    | cons y ys => exact Or.inl rfl
  | cons x xs ih =>
    cases b with
    | nil => exact Or.inr (Or.inr rfl)
    | cons y ys =>
      simp only [unitsLt, Bool.or_eq_true, decide_eq_true_eq, Bool.and_eq_true, beq_iff_eq,
        List.cons.injEq]
      rcases Nat.lt_trichotomy x y with h | h | h
      · exact Or.inl (Or.inl h)
      · rcases ih ys with h2 | h2 | h2
        · exact Or.inl (Or.inr ⟨h, h2⟩)
        · exact Or.inr (Or.inl ⟨h, h2⟩)
        · exact Or.inr (Or.inr (Or.inr ⟨h.symm, h2⟩))
      · exact Or.inr (Or.inr (Or.inl h))

/-- The order of `sort()` on strings is total. -/
theorem stringLe_total (a b : String) :
    (!(unitsLt (utf16Units b) (utf16Units a))) = true ∨
      (!(unitsLt (utf16Units a) (utf16Units b))) = true := by
  simp only [Bool.not_eq_true']
  cases h1 : unitsLt (utf16Units b) (utf16Units a) with
  | false => exact Or.inl rfl
  | true =>
    right
    cases h2 : unitsLt (utf16Units a) (utf16Units b) with
    | false => rfl
    | true =>
      have := unitsLt_trans _ _ _ h1 h2
      rw [unitsLt_irrefl] at this
      cases this

/-- The order of `sort()` on strings is transitive. -/
theorem stringLe_trans (a b c : String)
    (hab : (!(unitsLt (utf16Units b) (utf16Units a))) = true)
    (hbc : (!(unitsLt (utf16Units c) (utf16Units b))) = true) :
    (!(unitsLt (utf16Units c) (utf16Units a))) = true := by
  simp only [Bool.not_eq_true'] at hab hbc ⊢
  cases hca : unitsLt (utf16Units c) (utf16Units a) with
  | false => rfl
  | true =>
    rcases unitsLt_trichotomy (utf16Units a) (utf16Units b) with h | h | h
    · rw [unitsLt_trans _ _ _ hca h] at hbc; cases hbc
    · rw [← h, hca] at hbc; cases hbc
    · rw [h] at hab; cases hab

/-- The terms come out of `sort()` in ascending order. -/
theorem pairwise_arraySortDefault (xs : List String) :
    (arraySortDefault xs).Pairwise
      (fun a b => unitsLt (utf16Units b) (utf16Units a) = false) := by
  have h := pairwise_sortBy (fun a b => !(unitsLt (utf16Units b) (utf16Units a))) xs
    (fun x _ y _ => stringLe_total x y)
    (fun x _ y _ w _ => stringLe_trans x y w)
  unfold arraySortDefault
  exact h.imp (fun hab => by simpa using hab)

theorem isFourDigitNumeral_iff (s : String) :
    isFourDigitNumeral s = true ↔
      ∃ a b c d : Char, s.data = [a, b, c, d] ∧
        (decDigit? a).isSome = true ∧ (decDigit? b).isSome = true ∧
        (decDigit? c).isSome = true ∧ (decDigit? d).isSome = true := by
  unfold isFourDigitNumeral
  constructor
  · intro h
    simp only [Bool.and_eq_true, beq_iff_eq, List.all_eq_true] at h
    obtain ⟨hlen, hall⟩ := h
    match hs : s.data, hlen with
    | [a, b, c, d], _ =>
      rw [hs] at hall
      exact ⟨a, b, c, d, rfl, hall a (by simp), hall b (by simp), hall c (by simp),
        hall d (by simp)⟩
  · rintro ⟨a, b, c, d, hs, ha, hb, hc, hd⟩
    simp [hs, ha, hb, hc, hd]

/-- `Number` of a four-digit year is the number it denotes. -/
theorem Number_of_fourDigit (s : String) (h : isFourDigitNumeral s = true) :
    Number s = JSNum.fin (digitsValue s.data : ℚ) := by
  obtain ⟨a, b, c, d, hs, ha, hb, hc, hd⟩ := (isFourDigitNumeral_iff s).mp h
  apply Number_of_digits
  · intro hempty
    rw [hempty] at hs
    cases hs
  · intro x hx
    rw [hs] at hx
    simp only [List.mem_cons, List.mem_singleton, List.not_mem_nil, or_false] at hx
    rcases hx with rfl | rfl | rfl | rfl <;> assumption

/-- Two four-digit years that denote the same number are the same string. -/
theorem fourDigit_eq_of_value_eq (s t : String) (hs : isFourDigitNumeral s = true)
    (ht : isFourDigitNumeral t = true) (hv : digitsValue s.data = digitsValue t.data) :
    s = t := by
  obtain ⟨a, b, c, d, hsd, ha, hb, hc, hd⟩ := (isFourDigitNumeral_iff s).mp hs
  obtain ⟨a2, b2, c2, d2, htd, ha2, hb2, hc2, hd2⟩ := (isFourDigitNumeral_iff t).mp ht
  rw [decDigit?_isSome_iff] at ha hb hc hd ha2 hb2 hc2 hd2
  rw [hsd, htd] at hv
  simp only [digitsValue, List.foldl_cons, List.foldl_nil] at hv
  have e1 : a = a2 := Char.eq_of_toNat_eq _ _ (by omega)
  have e2 : b = b2 := Char.eq_of_toNat_eq _ _ (by omega)
  have e3 : c = c2 := Char.eq_of_toNat_eq _ _ (by omega)
  have e4 : d = d2 := Char.eq_of_toNat_eq _ _ (by omega)
  have : s.data = t.data := by rw [hsd, htd, e1, e2, e3, e4]
  exact String.ext this

/-- The comparison of the year sort on four-digit years. -/
theorem yearLe_iff (a b : String) (ha : isFourDigitNumeral a = true)
    (hb : isFourDigitNumeral b = true) :
    (!((Number b).sub (Number a)).isPositive) = true ↔
      digitsValue b.data ≤ digitsValue a.data := by
  rw [Number_of_fourDigit a ha, Number_of_fourDigit b hb]
  simp only [JSNum.sub, JSNum.neg, JSNum.add, JSNum.isPositive, Bool.not_eq_true',
    decide_eq_false_iff_not, not_lt]
  constructor
  · intro h
    have : ((digitsValue b.data : ℕ) : ℚ) ≤ (digitsValue a.data : ℕ) := by linarith
    exact_mod_cast this
  · intro h
    have : ((digitsValue b.data : ℕ) : ℚ) ≤ (digitsValue a.data : ℕ) := by exact_mod_cast h
    linarith

/-- C18: when the years of the student's results are four-digit numerals, the years of the
rendered transcript are in strictly descending numeric order and are exactly the years of
the student's results; and within each year the terms are in ascending order of their
strings, each term of the student's results of that year once, so that `Term 1` precedes
`Term 2` precedes `Term 3`. -/
theorem C18_transcript_order (results : List StudentResult) (studentId : String)
    (cards : List (String × List TermCard))
    (hview : TranscriptsSection results studentId = TranscriptView.years cards)
    (hyears : ∀ r ∈ results, r.studentId = studentId → isFourDigitNumeral r.year = true) :
    (cards.map Prod.fst).Pairwise (fun a b =>
        ∃ va vb : ℕ, Number a = JSNum.fin va ∧ Number b = JSNum.fin vb ∧ vb < va)
    ∧ (∀ y, y ∈ cards.map Prod.fst ↔ ∃ r ∈ results, r.studentId = studentId ∧ r.year = y)
    ∧ (∀ yc ∈ cards,
        (yc.2.map TermCard.term).Pairwise
          (fun a b => unitsLt (utf16Units b) (utf16Units a) = false)
        ∧ (yc.2.map TermCard.term).Nodup
        ∧ (∀ t, t ∈ yc.2.map TermCard.term ↔
            ∃ r ∈ results, r.studentId = studentId ∧ r.year = yc.1 ∧ r.term = t))
    ∧ arraySortDefault ["Term 3", "Term 1", "Term 2"] = ["Term 1", "Term 2", "Term 3"] := by
  obtain ⟨hys, hcards⟩ := cards_spec results studentId cards hview
  obtain ⟨-, g2, g3, g4, g5⟩ := groupedResults_spec results studentId
  have hmemy : ∀ y, y ∈ cards.map Prod.fst ↔
      ∃ r ∈ results, r.studentId = studentId ∧ r.year = y := by
    intro y
    rw [hys, mem_arraySort, mem_objectKeys, g4]
  have hfour : ∀ y ∈ objectKeys
      (groupedResults (results.filter (fun r => r.studentId == studentId))),
      isFourDigitNumeral y = true := by
    intro y hy
    rw [mem_objectKeys, g4] at hy
    obtain ⟨r, hr, hid, rfl⟩ := hy
    exact hyears r hr hid
  refine ⟨?_, hmemy, ?_, by decide⟩
  · rw [hys]
    have hsorted := pairwise_sortBy (fun a b => !((Number b).sub (Number a)).isPositive)
      (objectKeys (groupedResults (results.filter (fun r => r.studentId == studentId))))
      (by
        intro x hx y hy
        rw [yearLe_iff x y (hfour x hx) (hfour y hy), yearLe_iff y x (hfour y hy) (hfour x hx)]
        exact le_total _ _)
      (by
        intro x hx y hy w hw
        rw [yearLe_iff x y (hfour x hx) (hfour y hy), yearLe_iff y w (hfour y hy) (hfour w hw),
          yearLe_iff x w (hfour x hx) (hfour w hw)]
        exact fun h1 h2 => le_trans h2 h1)
    have hnodup : (arraySort (fun a b => (Number b).sub (Number a))
        (objectKeys (groupedResults
          (results.filter (fun r => r.studentId == studentId))))).Nodup :=
      ((sortBy_perm _ _).nodup_iff).mpr (((objectKeys_perm _).nodup_iff).mpr g2)
    have hboth := hsorted.and hnodup
    refine hboth.imp_of_mem ?_
    intro a b ha hb hab
    have ha4 := hfour a ((mem_arraySort _ _ a).mp ha)
    have hb4 := hfour b ((mem_arraySort _ _ b).mp hb)
    refine ⟨digitsValue a.data, digitsValue b.data, Number_of_fourDigit a ha4,
      Number_of_fourDigit b hb4, ?_⟩
    have hle := (yearLe_iff a b ha4 hb4).mp hab.1
    rcases Nat.lt_or_ge (digitsValue b.data) (digitsValue a.data) with h | h
    · exact h
    · exact absurd (fourDigit_eq_of_value_eq a b ha4 hb4 (le_antisymm h hle)) hab.2
  · intro yc hyc
    obtain ⟨-, hterms, -⟩ := hcards yc hyc
    rw [hterms]
    refine ⟨pairwise_arraySortDefault _, ?_, ?_⟩
    · exact ((sortBy_perm _ _).nodup_iff).mpr (((objectKeys_perm _).nodup_iff).mpr (g3 yc.1))
    · intro t
      rw [mem_arraySortDefault, mem_objectKeys, g5]

/-- Witness of C18: the transcript of `ST-001`, with results of 2024 and 2025 and of Term 1
and Term 2, is rendered with 2025 before 2024 and, within 2024, Term 1 before Term 2. -/
theorem C18_transcript_order_witness :
    TranscriptsSection exampleTranscript "ST-001" = TranscriptView.years exampleCards
    ∧ exampleCards.map Prod.fst = ["2025", "2024"]
    ∧ exampleCards.map (fun yc => yc.2.map TermCard.term) =
        [["Term 1"], ["Term 1", "Term 2"]]
    ∧ (exampleCards.map Prod.fst).Pairwise (fun a b =>
        ∃ va vb : ℕ, Number a = JSNum.fin va ∧ Number b = JSNum.fin vb ∧ vb < va) :=
  ⟨by decide!, by decide, by decide,
   (C18_transcript_order exampleTranscript "ST-001" exampleCards (by decide!) (by decide)).1⟩

/-! ## Class statistics -/

theorem JSNum.ge_fin (a b : ℚ) : (JSNum.fin a).ge (JSNum.fin b) = decide (b ≤ a) := rfl

theorem JSNum.max2_fin (a b : ℕ) :
    JSNum.max2 (JSNum.fin a) (JSNum.fin b) = JSNum.fin ((max a b : ℕ) : ℚ) := by
  simp only [JSNum.max2, JSNum.ge_fin, Nat.cast_le]
  rcases le_total a b with h | h
  · rcases eq_or_lt_of_le h with rfl | h2
    · simp
    · simp [h2.not_le, max_eq_right h]
  · simp [h, max_eq_left h]

theorem JSNum.min2_fin (a b : ℕ) :
    JSNum.min2 (JSNum.fin a) (JSNum.fin b) = JSNum.fin ((min a b : ℕ) : ℚ) := by
  simp only [JSNum.min2, JSNum.ge_fin, Nat.cast_le]
  rcases le_total a b with h | h
  · simp [h, min_eq_left h]
  · rcases eq_or_lt_of_le h with rfl | h2
    · simp
    · simp [h2.not_le, min_eq_right h]

theorem foldl_max2_fin (vals : List ℕ) (a : ℕ) :
    (vals.map (fun (v : ℕ) => JSNum.fin (v : ℚ))).foldl JSNum.max2 (JSNum.fin a) =
      JSNum.fin ((vals.foldl max a : ℕ) : ℚ) := by
  induction vals generalizing a with
  | nil => rfl
  | cons v rest ih => rw [List.map_cons, List.foldl_cons, JSNum.max2_fin, ih]; rfl

theorem foldl_min2_fin (vals : List ℕ) (a : ℕ) :
    (vals.map (fun (v : ℕ) => JSNum.fin (v : ℚ))).foldl JSNum.min2 (JSNum.fin a) =
      JSNum.fin ((vals.foldl min a : ℕ) : ℚ) := by
  induction vals generalizing a with
  | nil => rfl
  | cons v rest ih => rw [List.map_cons, List.foldl_cons, JSNum.min2_fin, ih]; rfl

theorem foldl_max_spec (vals : List ℕ) (a : ℕ) :
    (vals.foldl max a = a ∨ vals.foldl max a ∈ vals) ∧ a ≤ vals.foldl max a
      ∧ ∀ v ∈ vals, v ≤ vals.foldl max a := by
  induction vals generalizing a with
  | nil => simp
  | cons v rest ih =>
    obtain ⟨h1, h2, h3⟩ := ih (max a v)
    rw [List.foldl_cons]
    refine ⟨?_, le_trans (le_max_left _ _) h2, ?_⟩
    · rcases h1 with h | h
      · rcases max_choice a v with hm | hm
        · exact Or.inl (h.trans hm)
        · exact Or.inr (by rw [h, hm]; exact List.mem_cons_self _ _)
      · exact Or.inr (List.mem_cons_of_mem _ h)
    · intro w hw
      rcases List.mem_cons.mp hw with rfl | hw
      · exact le_trans (le_max_right _ _) h2
      · exact h3 w hw

theorem foldl_min_spec (vals : List ℕ) (a : ℕ) :
    (vals.foldl min a = a ∨ vals.foldl min a ∈ vals) ∧ vals.foldl min a ≤ a
      ∧ ∀ v ∈ vals, vals.foldl min a ≤ v := by
  induction vals generalizing a with
  | nil => simp
  | cons v rest ih =>
    obtain ⟨h1, h2, h3⟩ := ih (min a v)
    rw [List.foldl_cons]
    refine ⟨?_, le_trans h2 (min_le_left _ _), ?_⟩
    · rcases h1 with h | h
      · rcases min_choice a v with hm | hm
        · exact Or.inl (h.trans hm)
        · exact Or.inr (by rw [h, hm]; exact List.mem_cons_self _ _)
      · exact Or.inr (List.mem_cons_of_mem _ h)
    · intro w hw
      rcases List.mem_cons.mp hw with rfl | hw
      · exact le_trans h2 (min_le_right _ _)
      · exact h3 w hw

/-- The highest of a non-empty list of natural numbers as `Math.max` gives it. -/
theorem mathMax_fin (vals : List ℕ) (hne : vals ≠ []) :
    ∃ hi ∈ vals, (∀ v ∈ vals, v ≤ hi) ∧
      mathMax (vals.map (fun (v : ℕ) => JSNum.fin (v : ℚ))) = JSNum.fin (hi : ℚ) := by
  cases vals with
  | nil => exact absurd rfl hne
  | cons v rest =>
    obtain ⟨h1, h2, h3⟩ := foldl_max_spec rest v
    refine ⟨rest.foldl max v, ?_, ?_, ?_⟩
    · rcases h1 with h | h
      · rw [h]; exact List.mem_cons_self _ _
      · exact List.mem_cons_of_mem _ h
    · intro w hw
      rcases List.mem_cons.mp hw with rfl | hw
      · exact h2
      · exact h3 w hw
    · have hstart : JSNum.max2 JSNum.negInf (JSNum.fin (v : ℚ)) = JSNum.fin (v : ℚ) := rfl
      rw [mathMax, List.map_cons, List.foldl_cons, hstart, foldl_max2_fin]

/-- The lowest of a non-empty list of natural numbers as `Math.min` gives it. -/
theorem mathMin_fin (vals : List ℕ) (hne : vals ≠ []) :
    ∃ lo ∈ vals, (∀ v ∈ vals, lo ≤ v) ∧
      mathMin (vals.map (fun (v : ℕ) => JSNum.fin (v : ℚ))) = JSNum.fin (lo : ℚ) := by
  cases vals with
  | nil => exact absurd rfl hne
  | cons v rest =>
    obtain ⟨h1, h2, h3⟩ := foldl_min_spec rest v
    refine ⟨rest.foldl min v, ?_, ?_, ?_⟩
    · rcases h1 with h | h
      · rw [h]; exact List.mem_cons_self _ _
      · exact List.mem_cons_of_mem _ h
    · intro w hw
      rcases List.mem_cons.mp hw with rfl | hw
      · exact h2
      · exact h3 w hw
    · have hstart : JSNum.min2 JSNum.posInf (JSNum.fin (v : ℚ)) = JSNum.fin (v : ℚ) := rfl
      rw [mathMin, List.map_cons, List.foldl_cons, hstart, foldl_min2_fin]

theorem foldl_add_fin (vals : List ℕ) (a : ℚ) :
    (vals.map (fun (v : ℕ) => JSNum.fin (v : ℚ))).foldl JSNum.add (JSNum.fin a) =
      JSNum.fin (a + ((vals.sum : ℕ) : ℚ)) := by
  induction vals generalizing a with
  | nil => simp
  | cons v rest ih =>
    rw [List.map_cons, List.foldl_cons]
    have : (JSNum.fin a).add (JSNum.fin (v : ℚ)) = JSNum.fin (a + v) := rfl
    rw [this, ih]
    simp [add_assoc]

/-- With marks that are runs of decimal digits the numbers read are the mark values. -/
theorem performanceData_of_digits (classStudents : List Student) (marks : Marks)
    (hown : ∀ s ∈ classStudents, marks s.studentId = none →
      objectPrototypeMember? s.studentId = none)
    (hdig : ∀ s ∈ classStudents, ∀ m, marks s.studentId = some m →
      ∀ c ∈ m.data, (decDigit? c).isSome = true) :
    performanceData classStudents marks =
      (markValues classStudents marks).map (fun (v : ℕ) => JSNum.fin (v : ℚ)) := by
  induction classStudents with
  | nil => rfl
  | cons s rest ih =>
    have ih2 := ih (fun x hx => hown x (List.mem_cons_of_mem _ hx))
      (fun x hx => hdig x (List.mem_cons_of_mem _ hx))
    unfold performanceData markValues at ih2 ⊢
    rw [List.filterMap_cons, List.filterMap_cons,
      marksGet_of_not_inherited (hown s (List.mem_cons_self _ _))]
    cases hm : marks s.studentId with
    | none => simpa using ih2
    | some m =>
      by_cases hne : m = ""
      · simpa [hne] using ih2
      · have hp := parseInt_of_digits m hne (hdig s (List.mem_cons_self _ _) m hm)
        simp only [hne, if_false, List.map_cons, hp, ih2]

theorem markValues_length (classStudents : List Student) (marks : Marks) :
    (markValues classStudents marks).length =
      (classStudents.filter (hasMark marks)).length := by
  induction classStudents with
  | nil => rfl
  | cons s rest ih =>
    unfold markValues at ih ⊢
    rw [List.filterMap_cons, List.filter_cons]
    cases hm : marks s.studentId with
    | none => simpa [hasMark, hm] using ih
    | some m =>
      by_cases hne : m = ""
      · simpa [hasMark, hm, hne] using ih
      · simp [hasMark, hm, hne, ih]

theorem markValues_ne_nil (classStudents : List Student) (marks : Marks)
    (hsome : ∃ s ∈ classStudents, hasMark marks s = true) :
    markValues classStudents marks ≠ [] := by
  intro h
  have hlen := markValues_length classStudents marks
  rw [h] at hlen
  obtain ⟨s, hs, hm⟩ := hsome
  have : s ∈ classStudents.filter (hasMark marks) := by
    rw [List.mem_filter]
    exact ⟨hs, hm⟩
  have hpos := List.length_pos_of_mem this
  simp only [List.length_nil] at hlen
  omega

theorem sum_le_length_mul (vals : List ℕ) (hi : ℕ) (h : ∀ v ∈ vals, v ≤ hi) :
    vals.sum ≤ vals.length * hi := by
  induction vals with
  | nil => simp
  | cons v rest ih =>
    simp only [List.sum_cons, List.length_cons]
    have := ih (fun w hw => h w (List.mem_cons_of_mem _ hw))
    have := h v (List.mem_cons_self _ _)
    nlinarith

theorem length_mul_le_sum (vals : List ℕ) (lo : ℕ) (h : ∀ v ∈ vals, lo ≤ v) :
    vals.length * lo ≤ vals.sum := by
  induction vals with
  | nil => simp
  | cons v rest ih =>
    simp only [List.sum_cons, List.length_cons]
    have := ih (fun w hw => h w (List.mem_cons_of_mem _ hw))
    have := h v (List.mem_cons_self _ _)
    nlinarith

/-- C15, as the code has it: for a roster of fewer than `2 ^ 32` students in which no student
without a mark has a `studentId` naming a member of `Object.prototype`, every mark of a
roster student is a run of decimal digits, at least one roster student has a non-empty mark
and the non-empty marks of the roster sum to less than `10 ^ 14`, the statistics of
`handleGetClassInsights` are: as count the number of roster students with a non-empty mark;
as average the text, with one digit after the point, of the tenth nearest to the sum of
their marks divided by the count, the larger one of two, but the smaller one of two when
the mean lies halfway between two tenths and the binary64 quotient is below the mean; as
highest the largest and as lowest the smallest of their marks, with lowest <= average <=
highest; and they depend on the marks of the roster students only. -/
theorem C15_class_statistics_rounded (classStudents : List Student) (marks : Marks)
    (hlen : classStudents.length < 2 ^ 32)
    (hown : ∀ s ∈ classStudents, marks s.studentId = none →
      objectPrototypeMember? s.studentId = none)
    (hdig : ∀ s ∈ classStudents, ∀ m, marks s.studentId = some m →
      ∀ c ∈ m.data, (decDigit? c).isSome = true)
    (hsome : ∃ s ∈ classStudents, hasMark marks s = true)
    (hbound : (markValues classStudents marks).sum < 10 ^ 14) :
    (∀ mean : ℚ,
      mean = ((markValues classStudents marks).sum : ℚ) /
        ((markValues classStudents marks).length : ℚ) →
      ∃ (quotient : ℚ) (n hi lo : ℕ),
        roundBinary64 mean = JSNum.fin quotient
        ∧ |quotient - mean| ≤ mean / 2 ^ 53
        ∧ n = (if quotient < mean ∧ mean * 10 + 1 / 2 = ((⌊mean * 10 + 1 / 2⌋₊ : ℕ) : ℚ)
               then ⌊mean * 10 + 1 / 2⌋₊ - 1 else ⌊mean * 10 + 1 / 2⌋₊)
        ∧ handleGetClassInsights classStudents marks =
          ClassInsights.stats (String.mk (fixedDigits n 1)) (JSNum.fin hi) (JSNum.fin lo)
            (classStudents.filter (hasMark marks)).length
        ∧ |((⌊mean * 10 + 1 / 2⌋₊ : ℕ) : ℚ) / 10 - mean| ≤ 1 / 20
        ∧ hi ∈ markValues classStudents marks
        ∧ (∀ v ∈ markValues classStudents marks, v ≤ hi)
        ∧ lo ∈ markValues classStudents marks
        ∧ (∀ v ∈ markValues classStudents marks, lo ≤ v)
        ∧ lo * 10 ≤ n ∧ n ≤ hi * 10)
    ∧ ∀ marks2 : Marks, (∀ s ∈ classStudents, marks2 s.studentId = marks s.studentId) →
        handleGetClassInsights classStudents marks2 =
          handleGetClassInsights classStudents marks := by
  constructor
  · have hpd := performanceData_of_digits classStudents marks hown hdig
    have hne := markValues_ne_nil classStudents marks hsome
    have hcount := markValues_length classStudents marks
    have hlen32 : (markValues classStudents marks).length < 2 ^ 32 := by
      rw [hcount]
      exact lt_of_le_of_lt (List.length_filter_le _ _) hlen
    generalize markValues classStudents marks = vals at hpd hne hcount hbound hlen32 ⊢
    have hlen0 : vals.length ≠ 0 := by
      rw [Ne, List.length_eq_zero]; exact hne
    have hlenq : (0 : ℚ) < (vals.length : ℚ) := by
      exact_mod_cast Nat.pos_of_ne_zero hlen0
    obtain ⟨hi, hhi, hhimax, hmax⟩ := mathMax_fin vals hne
    obtain ⟨lo, hlo, hlomin, hmin⟩ := mathMin_fin vals hne
    have hST : 2 * vals.sum * 10 ^ 1 < 2 ^ 53 := by
      norm_num at hbound ⊢
      omega
    obtain ⟨d, hd, hnear, hd0, -, hdlt, hfl⟩ :=
      roundBinary64_div_nat vals.sum vals.length 1 (Nat.pos_of_ne_zero hlen0) hlen32 hST
    rw [pow_one] at hfl
    intro mean hmean
    rw [← hmean] at hd hnear hfl
    have hmean0 : 0 ≤ mean := by
      rw [hmean]; exact div_nonneg (by positivity) hlenq.le
    have hins : handleGetClassInsights classStudents marks =
        ClassInsights.stats (String.mk (fixedDigits ⌊d * 10 + 1 / 2⌋₊ 1))
          (JSNum.fin hi) (JSNum.fin lo) vals.length := by
      unfold handleGetClassInsights
      simp only [hpd, List.length_map, hlen0, if_false, hmax, hmin, JSNum.ofInt_zero,
        foldl_add_fin, zero_add]
      have hdiv : (JSNum.fin ((vals.sum : ℕ) : ℚ)).divLength vals.length =
          JSNum.fin d := by
        rw [← hd, hmean]
        simp [JSNum.divLength, hlen0]
      rw [hdiv, toFixed_of_nonneg d 1 hd0 hdlt, pow_one]
    have hupper : mean ≤ hi := by
      rw [hmean, div_le_iff₀ hlenq]
      have := sum_le_length_mul vals hi hhimax
      have h2 : ((vals.sum : ℕ) : ℚ) ≤ ((vals.length * hi : ℕ) : ℚ) := by exact_mod_cast this
      rw [Nat.cast_mul] at h2
      linarith
    have hlower : (lo : ℚ) ≤ mean := by
      rw [hmean, le_div_iff₀ hlenq]
      have := length_mul_le_sum vals lo hlomin
      have h2 : ((vals.length * lo : ℕ) : ℚ) ≤ ((vals.sum : ℕ) : ℚ) := by exact_mod_cast this
      rw [Nat.cast_mul] at h2
      linarith
    have hfloor_lo : lo * 10 ≤ ⌊mean * 10 + 1 / 2⌋₊ := by
      apply Nat.le_floor
      rw [Nat.cast_mul, Nat.cast_ofNat]
      linarith
    have hfloor_hi : ⌊mean * 10 + 1 / 2⌋₊ ≤ hi * 10 := by
      have : ⌊mean * 10 + 1 / 2⌋₊ < hi * 10 + 1 := by
        rw [Nat.floor_lt (by positivity)]
        rw [Nat.cast_add, Nat.cast_mul, Nat.cast_ofNat, Nat.cast_one]
        linarith
      omega
    refine ⟨d, _, hi, lo, hd, hnear, rfl, by rw [hins, hfl, ← hcount], ?_, hhi, hhimax, hlo,
      hlomin, ?_, ?_⟩
    · have hround := abs_floor_add_half_sub_le (mean * 10) (mul_nonneg hmean0 (by norm_num))
      rw [abs_le] at hround ⊢
      constructor <;> linarith [hround.1, hround.2]
    · split_ifs with htie
      · have h1 : ((lo * 10 : ℕ) : ℚ) + 1 / 2 ≤ ((⌊mean * 10 + 1 / 2⌋₊ : ℕ) : ℚ) := by
          rw [← htie.2, Nat.cast_mul, Nat.cast_ofNat]
          linarith
        have h2 : ((lo * 10 : ℕ) : ℚ) < ((⌊mean * 10 + 1 / 2⌋₊ : ℕ) : ℚ) := by linarith
        have h3 : lo * 10 < ⌊mean * 10 + 1 / 2⌋₊ := by exact_mod_cast h2
        omega
      · exact hfloor_lo
    · split_ifs with htie
      · omega
      · exact hfloor_hi
  · intro marks2 hsame
    have hpd : performanceData classStudents marks2 = performanceData classStudents marks := by
      unfold performanceData
      apply List.filterMap_congr
      intro s hs
      unfold marksGet
      rw [hsame s hs]
    unfold handleGetClassInsights
    rw [hpd]

theorem handleGetClassInsights_hugeMarks :
    handleGetClassInsights [studentA, studentB] hugeMarks =
      ClassInsights.stats "1e+21" (JSNum.fin (10 ^ 21 + 1)) (JSNum.fin (10 ^ 21)) 2 := by
  have hpd : performanceData [studentA, studentB] hugeMarks =
      [JSNum.fin (10 ^ 21), JSNum.fin (10 ^ 21 + 1)] := by decide!
  have hsum : List.foldl JSNum.add (JSNum.ofInt 0)
      [JSNum.fin (10 ^ 21), JSNum.fin (10 ^ 21 + 1)] =
        JSNum.fin ((10 : ℚ) ^ 21 + (10 ^ 21 + 1)) := by
    simp [JSNum.ofInt, JSNum.add]
  have hdiv : (JSNum.fin ((10 : ℚ) ^ 21 + (10 ^ 21 + 1))).divLength 2 =
      JSNum.fin (10 ^ 21) := by
    rw [← roundBinary64_ten_pow_21_half]
    simp [JSNum.divLength]
  unfold handleGetClassInsights
  simp only [hpd, List.length_cons, List.length_nil, hsum]
  rw [show (0 + 1 + 1 : ℕ) = 2 from rfl, hdiv]
  decide!

/-- Counterexample to C15 as stated: a roster of twenty students, with the mark `1` for
three of them and `0` for the others. The sum of the marks divided by the count is `0.15`,
which to one decimal is `0.2`; the binary64 quotient `3 / 20` is below `0.15` and the
average of the statistics is the text `0.1`. And for the marks `1000000000000000000000` and
`1000000000000000000001`, whose sum divided by the count is `10 ^ 21 + 1/2`, the average
is the text `1e+21`, which denotes `10 ^ 21`, half a unit away from it. -/
theorem C15_counterexample :
    markValues tieRoster tieMarks = List.replicate 3 1 ++ List.replicate 17 0
    ∧ toFixed (JSNum.fin (3 / 20)) 1 = "0.2"
    ∧ handleGetClassInsights tieRoster tieMarks =
        ClassInsights.stats "0.1" (JSNum.fin 1) (JSNum.fin 0) 20
    ∧ (∃ hi lo, handleGetClassInsights [studentA, studentB] hugeMarks =
        ClassInsights.stats "1e+21" hi lo 2)
    ∧ Number "1e+21" = JSNum.fin (10 ^ 21)
    ∧ markValues [studentA, studentB] hugeMarks = [10 ^ 21, 10 ^ 21 + 1]
    ∧ (1 : ℚ) / 20 < |(10 : ℚ) ^ 21 -
        ((markValues [studentA, studentB] hugeMarks).sum : ℚ) /
          ((markValues [studentA, studentB] hugeMarks).length : ℚ)| :=
  ⟨by decide!, by decide!, by decide!,
   ⟨JSNum.fin (10 ^ 21 + 1), JSNum.fin (10 ^ 21), handleGetClassInsights_hugeMarks⟩,
   by decide!, by decide,
   by
    have h : markValues [studentA, studentB] hugeMarks = [10 ^ 21, 10 ^ 21 + 1] := by decide
    rw [h]
    norm_num [abs_lt, lt_abs]⟩

/-- Witness of C15 as amended: the marks `70` and `85` of the specification's roster give
the count 2, the average `77.5`, the highest 85 and the lowest 70. -/
theorem C15_class_statistics_rounded_witness :
    handleGetClassInsights [studentA, studentB] exampleMarks =
      ClassInsights.stats "77.5" (JSNum.fin 85) (JSNum.fin 70) 2
    ∧ ∀ marks2 : Marks, (∀ s ∈ [studentA, studentB], marks2 s.studentId = exampleMarks s.studentId) →
        handleGetClassInsights [studentA, studentB] marks2 =
          handleGetClassInsights [studentA, studentB] exampleMarks :=
  ⟨by decide!,
   (C15_class_statistics_rounded [studentA, studentB] exampleMarks (by decide) (by decide)
      (by decide) (by decide) (by decide)).2⟩

/-! ## Grade points and letter grades -/

theorem remark_ofInt (r : StudentResult) (s : Int) :
    remark { r with score := JSNum.ofInt s } = if 50 ≤ s then "Pass" else "Fail" := by
  simp only [remark, JSNum.ge_ofInt]
  by_cases h : 50 ≤ s <;> simp [h]

theorem pointOfGrade_calculateGrade (s : Int) :
    pointOfGrade (calculateGrade (JSNum.ofInt s)) =
      if 90 ≤ s then 4 else if 80 ≤ s then 3 else if 70 ≤ s then 2 else if 60 ≤ s then 1
      else 0 := by
  rw [calculateGrade_ofInt]
  unfold pointOfGrade
  split_ifs <;> first | rfl | simp_all

theorem gradeRank_calculateGrade (s : Int) :
    gradeRank (calculateGrade (JSNum.ofInt s)) =
      if 90 ≤ s then 5 else if 80 ≤ s then 4 else if 70 ≤ s then 3 else if 60 ≤ s then 2
      else if 50 ≤ s then 1 else 0 := by
  rw [calculateGrade_ofInt]
  unfold gradeRank
  split_ifs <;> first | rfl | simp_all

/-- C29: for an integer score the point the reducer of `gpa` adds is the one that goes
with the letter grade of the score (4 for `A+`, 3 for `A`, 2 for `B`, 1 for `C`, 0 for `D`
and `F`); the point and the grade do not decrease when the score grows; and the remark is
`Fail` exactly when the grade is `F`, so that a `D` is a `Pass` with 0 points. -/
theorem C29_point_follows_grade (s t : Int) (acc : ℚ) (r : StudentResult) :
    gpaReducer (JSNum.fin acc) { r with score := JSNum.ofInt s } =
      JSNum.fin (acc + pointOfGrade (calculateGrade (JSNum.ofInt s)))
    ∧ (s ≤ t → pointOfGrade (calculateGrade (JSNum.ofInt s)) ≤
        pointOfGrade (calculateGrade (JSNum.ofInt t)))
    ∧ (s ≤ t → gradeRank (calculateGrade (JSNum.ofInt s)) ≤
        gradeRank (calculateGrade (JSNum.ofInt t)))
    ∧ (remark { r with score := JSNum.ofInt s } = "Fail" ↔
        calculateGrade (JSNum.ofInt s) = "F")
    ∧ (calculateGrade (JSNum.ofInt s) = "D" →
        remark { r with score := JSNum.ofInt s } = "Pass"
        ∧ gpaReducer (JSNum.fin acc) { r with score := JSNum.ofInt s } = JSNum.fin acc)
    ∧ pointOfGrade "A+" = 4 ∧ pointOfGrade "A" = 3 ∧ pointOfGrade "B" = 2
    ∧ pointOfGrade "C" = 1 ∧ pointOfGrade "D" = 0 ∧ pointOfGrade "F" = 0 := by
  have hred : gpaReducer (JSNum.fin acc) { r with score := JSNum.ofInt s } =
      JSNum.fin (acc + pointOfGrade (calculateGrade (JSNum.ofInt s))) := by
    rw [gpaReducer_fin, pointOfGrade_calculateGrade]
    show JSNum.fin (acc + gpaPoint (JSNum.ofInt s)) = _
    rw [gpaPoint_ofInt]
  refine ⟨hred, ?_, ?_, ?_, ?_, by decide, by decide, by decide, by decide, by decide,
    by decide⟩
  · intro h
    rw [pointOfGrade_calculateGrade, pointOfGrade_calculateGrade]
    split_ifs <;> first | (exfalso; omega) | norm_num
  · intro h
    rw [gradeRank_calculateGrade, gradeRank_calculateGrade]
    split_ifs <;> first | (exfalso; omega) | norm_num
  · rw [remark_ofInt, calculateGrade_ofInt]
    split_ifs <;> first | (exfalso; omega) | decide
  · intro hD
    have h50 : 50 ≤ s ∧ s < 60 := by
      rw [calculateGrade_ofInt] at hD
      split_ifs at hD <;> first | (exfalso; revert hD; decide) | omega
    refine ⟨by rw [remark_ofInt, if_pos h50.1], ?_⟩
    rw [hred, pointOfGrade_calculateGrade]
    have h1 : ¬ (90 ≤ s) := by omega
    have h2 : ¬ (80 ≤ s) := by omega
    have h3 : ¬ (70 ≤ s) := by omega
    have h4 : ¬ (60 ≤ s) := by omega
    simp [h1, h2, h3, h4]

/-! ## The frame of the reconciliation -/

theorem bulkSaveStep_cases (sel : Selection) (marks : Marks) (results : List StudentResult)
    (student : Student) :
    bulkSaveStep sel marks results student = []
    ∨ ∃ m, marksGet marks student.studentId = some m ∧ m ≠ "" ∧
        ((results.find? (isExistingResult sel student) = none ∧
            bulkSaveStep sel marks results student =
              [Op.submit (mkPayload sel student (Number m))])
         ∨ ∃ r, results.find? (isExistingResult sel student) = some r ∧
            bulkSaveStep sel marks results student =
              [Op.update r.id (mkPayload sel student (Number m))]) := by
  cases hm : marksGet marks student.studentId with
  | none => left; simp [bulkSaveStep, hm]
  | some m =>
    by_cases hne : m = ""
    · left; simp [bulkSaveStep, hm, hne]
    · rw [bulkSaveStep_of_get sel marks results student m hm hne]
      cases hf : results.find? (isExistingResult sel student) with
      | none => right; exact ⟨m, rfl, hne, Or.inl ⟨rfl, rfl⟩⟩
      | some r =>
        by_cases hs : r.score.strictNe (Number m) = true
        · right; exact ⟨m, rfl, hne, Or.inr ⟨r, rfl, by simp [hs]⟩⟩
        · left; simp [hs]

theorem bulkSaveStep_length_le (sel : Selection) (marks : Marks)
    (results : List StudentResult) (student : Student) :
    (bulkSaveStep sel marks results student).length ≤ 1 := by
  rcases bulkSaveStep_cases sel marks results student with h | ⟨m, _, _, h | h⟩
  · rw [h]; simp
  · rw [h.2]; simp
  · obtain ⟨r, _, h⟩ := h; rw [h]; simp

theorem bulkSaveStep_studentIds (sel : Selection) (marks : Marks)
    (results : List StudentResult) (student : Student) :
    (bulkSaveStep sel marks results student).filterMap
        (fun op => op.payload?.map Payload.studentId) = []
    ∨ (bulkSaveStep sel marks results student).filterMap
        (fun op => op.payload?.map Payload.studentId) = [student.studentId] := by
  rcases bulkSaveStep_cases sel marks results student with h | ⟨m, _, _, h | h⟩
  · left; rw [h]; rfl
  · right; rw [h.2]; rfl
  · obtain ⟨r, _, h⟩ := h; right; rw [h]; rfl

theorem find?_eq_some_first {α : Type} (p : α → Bool) (l : List α) (a : α)
    (h : l.find? p = some a) :
    p a = true ∧ ∃ before after, l = before ++ a :: after ∧ ∀ x ∈ before, p x = false := by
  induction l with
  | nil => simp at h
  | cons x xs ih =>
    by_cases hx : p x = true
    · rw [List.find?_cons_of_pos _ hx] at h
      cases h
      exact ⟨hx, [], xs, rfl, by simp⟩
    · rw [List.find?_cons_of_neg _ hx] at h
      obtain ⟨ha, before, after, hl, hb⟩ := ih h
      refine ⟨ha, x :: before, after, by rw [hl]; rfl, ?_⟩
      intro y hy
      rcases List.mem_cons.mp hy with rfl | hy
      · simpa using hx
      · exact hb y hy

theorem handleBulkSaveOps_no_delete (sel : Selection) (classStudents : List Student)
    (marks : Marks) (results : List StudentResult) :
    ∀ id, Op.delete id ∉ handleBulkSaveOps sel classStudents marks results := by
  intro id hop
  rw [handleBulkSaveOps_eq_flatMap, List.mem_flatMap] at hop
  obtain ⟨s, _, hop⟩ := hop
  rcases bulkSaveStep_cases sel marks results s with h | ⟨m, _, _, h | h⟩
  · rw [h] at hop; cases hop
  · rw [h.2] at hop; simp at hop
  · obtain ⟨r, _, h⟩ := h
    rw [h] at hop; simp at hop

/-- C26, and the input at which the code departs from it. The calls of a bulk save are those
of the roster entries, in roster order, at most one each; each call carries the payload of a
roster student for whom `marks[student.studentId]` reads a text that is not empty, and is a
CREATE when no stored result has the student's studentId and the selected subject, term and
year, and else an UPDATE of the identifier of the first stored result that has them; when no
roster student without a mark has a `studentId` naming a member of `Object.prototype`, that
text is the student's own mark; there is no delete; with distinct document identifiers the
document an UPDATE goes to is of a roster student and of the selected subject, term and
year; and the mark `0` is processed as the score 0. But for the roster of the one student of
`studentId` `constructor` and the marks map `{}` the loop pushes a CREATE for a student
without a mark. -/
theorem C26_frame_of_reconciliation_except_prototype_names (sel : Selection)
    (classStudents : List Student) (marks : Marks) (results : List StudentResult) :
    handleBulkSaveOps sel classStudents marks results =
        classStudents.flatMap (bulkSaveStep sel marks results)
    ∧ (∀ s, (bulkSaveStep sel marks results s).length ≤ 1)
    ∧ ((handleBulkSaveOps sel classStudents marks results).filterMap
          (fun op => op.payload?.map Payload.studentId)).Sublist
        (classStudents.map Student.studentId)
    ∧ (∀ op ∈ handleBulkSaveOps sel classStudents marks results,
        ∃ s ∈ classStudents, ∃ m, marksGet marks s.studentId = some m ∧ m ≠ "" ∧
          ((op = Op.submit (mkPayload sel s (Number m)) ∧
              ∀ r ∈ results, ¬ (r.studentId = s.studentId ∧ r.subject = sel.selectedSubject ∧
                r.term = sel.selectedTerm ∧ r.year = sel.selectedYear))
           ∨ ∃ before r after, results = before ++ r :: after ∧
              op = Op.update r.id (mkPayload sel s (Number m)) ∧
              (r.studentId = s.studentId ∧ r.subject = sel.selectedSubject ∧
                r.term = sel.selectedTerm ∧ r.year = sel.selectedYear) ∧
              (∀ x ∈ before, ¬ (x.studentId = s.studentId ∧ x.subject = sel.selectedSubject ∧
                x.term = sel.selectedTerm ∧ x.year = sel.selectedYear)) ∧
              r.score.strictNe (Number m) = true))
    ∧ ((∀ s ∈ classStudents, marks s.studentId = none →
          objectPrototypeMember? s.studentId = none) →
        ∀ op ∈ handleBulkSaveOps sel classStudents marks results,
          ∃ s ∈ classStudents, ∃ m, marks s.studentId = some m ∧ m ≠ "" ∧
            op.payload? = some (mkPayload sel s (Number m)))
    ∧ (∀ id data, Op.update id data ∈ handleBulkSaveOps sel classStudents marks results →
        (results.map StudentResult.id).Nodup →
        ∀ r ∈ results, r.id = id →
          ∃ s ∈ classStudents, r.studentId = s.studentId ∧ r.subject = sel.selectedSubject ∧
            r.term = sel.selectedTerm ∧ r.year = sel.selectedYear)
    ∧ (∀ id, Op.delete id ∉ handleBulkSaveOps sel classStudents marks results)
    ∧ (∀ s, marks s.studentId = some "0" →
        bulkSaveStep sel marks results s =
          match results.find? (isExistingResult sel s) with
          | some r =>
            if r.score.strictNe (JSNum.ofInt 0)
            then [Op.update r.id (mkPayload sel s (JSNum.ofInt 0))] else []
          | none => [Op.submit (mkPayload sel s (JSNum.ofInt 0))])
    ∧ emptyMarks studentConstructor.studentId = none
    ∧ handleBulkSaveOps exampleSel [studentConstructor] emptyMarks [] =
      [Op.submit { studentName := "Con", studentId := "constructor", level := "ZJC",
                   className := "1A", subject := "Mathematics", term := "Term 1",
                   year := "2025", score := JSNum.nan, grade := "F" }] := by
  have hflat := handleBulkSaveOps_eq_flatMap sel classStudents marks results
  have hmem : ∀ op ∈ handleBulkSaveOps sel classStudents marks results,
      ∃ s ∈ classStudents, ∃ m, marksGet marks s.studentId = some m ∧ m ≠ "" ∧
        ((op = Op.submit (mkPayload sel s (Number m)) ∧
            ∀ r ∈ results, ¬ (r.studentId = s.studentId ∧ r.subject = sel.selectedSubject ∧
              r.term = sel.selectedTerm ∧ r.year = sel.selectedYear))
         ∨ ∃ before r after, results = before ++ r :: after ∧
            op = Op.update r.id (mkPayload sel s (Number m)) ∧
            (r.studentId = s.studentId ∧ r.subject = sel.selectedSubject ∧
              r.term = sel.selectedTerm ∧ r.year = sel.selectedYear) ∧
            (∀ x ∈ before, ¬ (x.studentId = s.studentId ∧ x.subject = sel.selectedSubject ∧
              x.term = sel.selectedTerm ∧ x.year = sel.selectedYear)) ∧
            r.score.strictNe (Number m) = true) := by
    intro op hop
    rw [hflat, List.mem_flatMap] at hop
    obtain ⟨s, hs, hop⟩ := hop
    cases hm : marksGet marks s.studentId with
    | none => simp [bulkSaveStep, hm] at hop
    | some m =>
      by_cases hne : m = ""
      · simp [bulkSaveStep, hm, hne] at hop
      · refine ⟨s, hs, m, hm, hne, ?_⟩
        rw [bulkSaveStep_of_get sel marks results s m hm hne] at hop
        cases hf : results.find? (isExistingResult sel s) with
        | none =>
          rw [hf] at hop
          left
          refine ⟨by simpa using hop, ?_⟩
          intro r hr hkey
          have := List.find?_eq_none.mp hf r hr
          exact this ((isExistingResult_iff sel s r).mpr hkey)
        | some r =>
          rw [hf] at hop
          right
          by_cases hsc : r.score.strictNe (Number m) = true
          · simp only [hsc, if_true, List.mem_singleton] at hop
            obtain ⟨hr, before, after, hl, hb⟩ := find?_eq_some_first _ _ _ hf
            refine ⟨before, r, after, hl, hop, (isExistingResult_iff sel s r).mp hr, ?_, hsc⟩
            intro x hx hkey
            have := hb x hx
            rw [(isExistingResult_iff sel s x).mpr hkey] at this
            exact Bool.noConfusion this
          · simp [hsc] at hop
  refine ⟨hflat, bulkSaveStep_length_le sel marks results, ?_, hmem, ?_, ?_, ?_, ?_, rfl,
    by decide⟩
  · rw [hflat]
    clear hmem hflat
    induction classStudents with
    | nil => simp
    | cons s rest ih =>
      rw [List.flatMap_cons, List.filterMap_append, List.map_cons]
      rcases bulkSaveStep_studentIds sel marks results s with h | h
      · rw [h, List.nil_append]
        exact List.Sublist.cons _ ih
      · rw [h]
        exact List.Sublist.cons₂ _ ih
  · intro hp op hop
    obtain ⟨s, hs, m, hm, hne, h⟩ := hmem op hop
    rw [marksGet_of_not_inherited (hp s hs)] at hm
    refine ⟨s, hs, m, hm, hne, ?_⟩
    rcases h with h | ⟨_, r, _, _, h, _⟩
    · rw [h.1]; rfl
    · rw [h]; rfl
  · intro id data hop hnodup r hr hid
    obtain ⟨s, hs, m, _, _, h | h⟩ := hmem _ hop
    · exact absurd h.1 (by simp)
    · obtain ⟨before, r0, after, hl, hop0, hkey, _, _⟩ := h
      have hid0 : id = r0.id := by
        injection hop0
      have hr0 : r0 ∈ results := by rw [hl]; simp
      have : r = r0 :=
        List.inj_on_of_nodup_map hnodup hr hr0 (by rw [hid, hid0])
      exact ⟨s, hs, by rw [this]; exact hkey⟩
  · intro id hop
    obtain ⟨s, _, m, _, _, h | h⟩ := hmem _ hop
    · exact absurd h.1 (by simp)
    · obtain ⟨_, r0, _, _, hop0, _⟩ := h
      exact absurd hop0 (by simp)
  · intro s hm
    rw [bulkSaveStep_of_mark sel marks results s "0" hm (by decide)]
    have h0 : Number "0" = JSNum.ofInt 0 := by decide
    rw [h0]

/-- C28: a roster with two entries of one studentId, a mark for it that is not empty and no
stored result under the key: the loop pushes two CREATEs, whose payloads have the same
studentId, subject, term and year, and once both are applied by a signed-in user the
collection ends with two documents under that one identity key. -/
theorem C28_duplicate_studentId_two_creates (user : String) (db : Firestore)
    (sel : Selection) (marks : Marks) (results : List StudentResult) (s1 s2 : Student)
    (m : String) (hsame : s1.studentId = s2.studentId)
    (hmark : marks s1.studentId = some m) (hne : m ≠ "")
    (hnone : ∀ r ∈ results, ¬ (r.studentId = s1.studentId ∧ r.subject = sel.selectedSubject ∧
      r.term = sel.selectedTerm ∧ r.year = sel.selectedYear)) :
    handleBulkSaveOps sel [s1, s2] marks results =
      [Op.submit (mkPayload sel s1 (Number m)), Op.submit (mkPayload sel s2 (Number m))]
    ∧ ((mkPayload sel s1 (Number m)).studentId, (mkPayload sel s1 (Number m)).subject,
        (mkPayload sel s1 (Number m)).term, (mkPayload sel s1 (Number m)).year) =
      ((mkPayload sel s2 (Number m)).studentId, (mkPayload sel s2 (Number m)).subject,
        (mkPayload sel s2 (Number m)).term, (mkPayload sel s2 (Number m)).year)
    ∧ ∃ d1 d2, afterBulkSave (some user) db sel [s1, s2] marks results = results ++ [d1, d2]
        ∧ identityKey d1 = studentKey sel s1 ∧ identityKey d2 = studentKey sel s1
        ∧ ((afterBulkSave (some user) db sel [s1, s2] marks results).filter
            (fun r => decide (identityKey r = studentKey sel s1))).length = 2 := by
  have hfind1 : results.find? (isExistingResult sel s1) = none := by
    rw [List.find?_eq_none]
    intro r hr h
    exact hnone r hr ((isExistingResult_iff sel s1 r).mp h)
  have hfind2 : results.find? (isExistingResult sel s2) = none := by
    rw [List.find?_eq_none]
    intro r hr h
    have := (isExistingResult_iff sel s2 r).mp h
    exact hnone r hr ⟨by rw [hsame]; exact this.1, this.2⟩
  have hops : handleBulkSaveOps sel [s1, s2] marks results =
      [Op.submit (mkPayload sel s1 (Number m)), Op.submit (mkPayload sel s2 (Number m))] := by
    rw [handleBulkSaveOps_eq_flatMap]
    simp only [List.flatMap_cons, List.flatMap_nil, List.append_nil]
    rw [bulkSaveStep_of_mark sel marks results s1 m hmark hne,
      bulkSaveStep_of_mark sel marks results s2 m (by rw [← hsame]; exact hmark) hne,
      hfind1, hfind2]
    rfl
  refine ⟨hops, by simp [mkPayload, hsame], ?_⟩
  refine ⟨newDoc db (mkPayload sel s1 (Number m)) results,
    newDoc db (mkPayload sel s2 (Number m))
      (results ++ [newDoc db (mkPayload sel s1 (Number m)) results]), ?_, rfl, ?_, ?_⟩
  · rw [afterBulkSave, hops]
    simp [applyOps, applyOp, handleUploadResult, addDoc]
  · simp [identityKey, studentKey, newDoc, mkPayload, hsame]
  · have hafter : afterBulkSave (some user) db sel [s1, s2] marks results =
        results ++ [newDoc db (mkPayload sel s1 (Number m)) results,
          newDoc db (mkPayload sel s2 (Number m))
            (results ++ [newDoc db (mkPayload sel s1 (Number m)) results])] := by
      rw [afterBulkSave, hops]
      simp [applyOps, applyOp, handleUploadResult, addDoc]
    rw [hafter, List.filter_append]
    have hnil : results.filter (fun r => decide (identityKey r = studentKey sel s1)) = [] := by
      rw [List.filter_eq_nil_iff]
      intro r hr h
      have hk : identityKey r = studentKey sel s1 := by simpa using h
      exact hnone r hr ((isExistingResult_iff sel s1 r).mp
        ((isExistingResult_iff_key sel s1 r).mpr hk))
    rw [hnil]
    simp [identityKey, studentKey, newDoc, mkPayload, hsame]

/-- Witness of C28: the roster of two student documents with studentId `ST-001`, the mark
`70` and an empty collection. -/
theorem C28_duplicate_studentId_two_creates_witness :
    handleBulkSaveOps exampleSel [studentA, studentA2] exampleMarks [] =
      [Op.submit (mkPayload exampleSel studentA (JSNum.ofInt 70)),
       Op.submit (mkPayload exampleSel studentA2 (JSNum.ofInt 70))]
    ∧ (afterBulkSave (some "uid") exampleStore exampleSel [studentA, studentA2]
        exampleMarks []).map identityKey =
      [("ST-001", "Mathematics", "Term 1", "2025"), ("ST-001", "Mathematics", "Term 1", "2025")]
    ∧ ((afterBulkSave (some "uid") exampleStore exampleSel [studentA, studentA2]
        exampleMarks []).filter
          (fun r => decide (identityKey r = studentKey exampleSel studentA))).length = 2 :=
  ⟨by decide, by decide,
   (C28_duplicate_studentId_two_creates "uid" exampleStore exampleSel exampleMarks []
      studentA studentA2 "70" (by decide) (by decide) (by decide)
      (by intro r hr; cases hr)).2.2.elim
     (fun _ h => h.elim (fun _ h2 => h2.2.2.2))⟩

/-! ## Marks typed into the entry grid -/

/-- The value of the number input on some texts: numbers are kept, other texts are
blanked. -/
theorem numberInputValue_examples :
    numberInputValue "70" = "70" ∧ numberInputValue "-7.5e+3" = "-7.5e+3"
    ∧ numberInputValue ".5" = ".5" ∧ numberInputValue "5." = ""
    ∧ numberInputValue " " = "" ∧ numberInputValue "abc" = ""
    ∧ numberInputValue "1e" = "" ∧ numberInputValue "" = ""
    ∧ numberInputValue "-" = "" ∧ numberInputValue "+5" = "" := by
  decide

theorem isValidFloatingPointNumber_of_whitespace (typed : String)
    (hblank : ∀ c ∈ typed.data, isStrWhiteSpaceChar c = true) :
    isValidFloatingPointNumber typed = false := by
  unfold isValidFloatingPointNumber
  cases hd : typed.data with
  | nil => simp [isExponentPart]
  | cons c rest =>
    have hc : isStrWhiteSpaceChar c = true := hblank c (by rw [hd]; exact List.mem_cons_self _ _)
    have hminus : c ≠ '-' := by
      intro h; rw [h] at hc; exact absurd hc (by decide)
    have hpoint : c ≠ '.' := by
      intro h; rw [h] at hc; exact absurd hc (by decide)
    have hdigit : (decDigit? c).isSome = false := by
      cases h : (decDigit? c).isSome with
      | false => rfl
      | true =>
        rw [isStrWhiteSpaceChar_of_digit c h] at hc
        exact Bool.noConfusion hc
    simp [hminus, hpoint, hdigit, List.dropWhile_cons, List.takeWhile_cons]

/-- C11: a text typed into the mark input of a roster student that consists of white space
only, such as one space, reaches the marks as the empty string, the value of a number input that
holds no valid number; the loop then skips the student, whatever is stored: it pushes no
call for this studentId, for any roster, and a bulk save over the roster of this student
leaves the stored collection as it was. -/
theorem C11_whitespace_mark_is_skipped (sel : Selection) (marks : Marks)
    (results : List StudentResult) (student : Student) (typed : String)
    (hblank : ∀ c ∈ typed.data, isStrWhiteSpaceChar c = true) :
    numberInputValue typed = ""
    ∧ onChangeMark marks student typed student.studentId = some ""
    ∧ bulkSaveStep sel (onChangeMark marks student typed) results student = []
    ∧ (∀ (roster : List Student), ∀ op ∈ handleBulkSaveOps sel roster
          (onChangeMark marks student typed) results,
        ∀ data, op.payload? = some data → data.studentId ≠ student.studentId)
    ∧ (∀ (user : Option String) (db : Firestore),
        afterBulkSave user db sel [student] (onChangeMark marks student typed) results =
          results) := by
  have hval : numberInputValue typed = "" := by
    simp [numberInputValue, isValidFloatingPointNumber_of_whitespace typed hblank]
  have hmark : onChangeMark marks student typed student.studentId = some "" := by
    simp [onChangeMark, handleMarkChange, hval]
  have hskip : ∀ s : Student, s.studentId = student.studentId →
      bulkSaveStep sel (onChangeMark marks student typed) results s = [] := by
    intro s hs
    exact bulkSaveStep_of_blank sel _ results s (Or.inl (by rw [hs]; exact hmark))
  refine ⟨hval, hmark, hskip student rfl, ?_, ?_⟩
  · intro roster op hop data hdata hid
    rw [handleBulkSaveOps_eq_flatMap, List.mem_flatMap] at hop
    obtain ⟨s, -, hop⟩ := hop
    by_cases hs : s.studentId = student.studentId
    · rw [hskip s hs] at hop; cases hop
    · rcases bulkSaveStep_cases sel (onChangeMark marks student typed) results s with
        h | ⟨m, _, _, h | h⟩
      · rw [h] at hop; cases hop
      · rw [h.2] at hop
        rw [List.mem_singleton] at hop
        rw [hop] at hdata
        simp only [Op.payload?, Option.some.injEq] at hdata
        rw [← hdata] at hid
        exact hs hid
      · obtain ⟨r, _, h⟩ := h
        rw [h] at hop
        rw [List.mem_singleton] at hop
        rw [hop] at hdata
        simp only [Op.payload?, Option.some.injEq] at hdata
        rw [← hdata] at hid
        exact hs hid
  · intro user db
    unfold afterBulkSave
    rw [handleBulkSaveOps_eq_flatMap]
    simp [hskip student rfl, applyOps]

/-- Witness of C11: one space typed into A's input while A's result of score 65 is stored;
the marks hold the empty string for A and the bulk save leaves the result as it is. -/
theorem C11_whitespace_mark_is_skipped_witness :
    numberInputValue " " = ""
    ∧ handleBulkSaveOps exampleSel [studentA] (onChangeMark exampleMarks studentA " ")
        [resultA 65] = []
    ∧ afterBulkSave (some "uid") exampleStore exampleSel [studentA]
        (onChangeMark exampleMarks studentA " ") [resultA 65] = [resultA 65] :=
  ⟨by decide, by decide,
   (C11_whitespace_mark_is_skipped exampleSel exampleMarks [resultA 65] studentA " "
      (by decide)).2.2.2.2 (some "uid") exampleStore⟩

/-! ## The promises of a bulk save -/

theorem applyOp_none (db : Firestore) (docs : List StudentResult) (op : Op) :
    applyOp none db docs op = docs := by
  cases op <;> rfl

theorem applyOps_none (db : Firestore) (docs : List StudentResult) (ops : List Op) :
    applyOps none db docs ops = docs := by
  induction ops with
  | nil => rfl
  | cons op ops ih =>
    rw [applyOps, List.foldl_cons, applyOp_none]
    exact ih

theorem dispatchOp_fst (user : Option String) (db : Firestore) (op : Op) (write : Settled)
    (docs : List StudentResult) :
    (dispatchOp user db op write docs).1 =
      if write = Settled.fulfilled then applyOp user db docs op else docs := by
  cases user with
  | none => cases op <;> cases write <;> rfl
  | some u => cases op <;> cases write <;> rfl

theorem dispatchOp_snd (user : Option String) (db : Firestore) (op : Op) (write : Settled)
    (docs : List StudentResult) :
    (dispatchOp user db op write docs).2 =
      if user.isNone then Settled.fulfilled else write := by
  cases user with
  | none => cases op <;> cases write <;> rfl
  | some u => cases op <;> cases write <;> rfl

theorem dispatchAll_snd (user : Option String) (db : Firestore) (writes : Nat → Settled)
    (ops : List Op) (i : Nat) (docs : List StudentResult) :
    (dispatchAll user db writes ops i docs).2 =
      (List.range ops.length).map
        (fun k => if user.isNone then Settled.fulfilled else writes (i + k)) := by
  induction ops generalizing i docs with
  | nil => rfl
  | cons op ops ih =>
    rw [dispatchAll, List.length_cons, List.range_succ_eq_map, List.map_cons, List.map_map]
    simp only [dispatchOp_snd, ih, Nat.add_zero]
    congr 1
    apply List.map_congr_left
    intro k _
    simp only [Function.comp, Nat.succ_eq_add_one]
    rw [Nat.add_assoc, Nat.add_comm 1 k]

theorem dispatchAll_fst (user : Option String) (db : Firestore) (writes : Nat → Settled)
    (ops : List Op) (i : Nat) (docs : List StudentResult) :
    (dispatchAll user db writes ops i docs).1 =
      applyOps user db docs (fulfilledOps writes ops i) := by
  induction ops generalizing i docs with
  | nil => rfl
  | cons op ops ih =>
    rw [dispatchAll]
    simp only [ih, dispatchOp_fst, fulfilledOps]
    by_cases hw : writes i = Settled.fulfilled
    · simp only [hw, if_true]
      rfl
    · simp only [hw, if_false]

theorem promiseAll_eq_fulfilled_iff (promises : List Settled) :
    promiseAll promises = Settled.fulfilled ↔ ∀ p ∈ promises, p = Settled.fulfilled := by
  unfold promiseAll
  by_cases h : promises.all (fun p => p == Settled.fulfilled) = true
  · simp only [h, if_true, true_iff]
    intro p hp
    have := List.all_eq_true.mp h p hp
    simpa using this
  · simp only [h, if_false]
    constructor
    · intro hc; cases hc
    · intro hall
      exfalso
      apply h
      rw [List.all_eq_true]
      intro p hp
      simp [hall p hp]

theorem handleBulkSave_of_fulfilled (user : Option String) (db : Firestore)
    (sel : Selection) (classStudents : List Student) (marks : Marks)
    (results : List StudentResult) (writes : Nat → Settled) (st : DashboardState)
    (h : promiseAll (dispatchAll user db writes
      (handleBulkSaveOps sel classStudents marks results) 0 results).2 = Settled.fulfilled) :
    handleBulkSave user db sel classStudents marks results writes st =
      { state := { loading := false, success := true },
        docs := applyOps user db results
          (fulfilledOps writes (handleBulkSaveOps sel classStudents marks results) 0),
        outcome := Settled.fulfilled } := by
  unfold handleBulkSave
  simp only [h, dispatchAll_fst]

theorem handleBulkSave_of_rejected (user : Option String) (db : Firestore)
    (sel : Selection) (classStudents : List Student) (marks : Marks)
    (results : List StudentResult) (writes : Nat → Settled) (st : DashboardState)
    (h : promiseAll (dispatchAll user db writes
      (handleBulkSaveOps sel classStudents marks results) 0 results).2 ≠ Settled.fulfilled) :
    handleBulkSave user db sel classStudents marks results writes st =
      { state := { loading := true, success := st.success },
        docs := applyOps user db results
          (fulfilledOps writes (handleBulkSaveOps sel classStudents marks results) 0),
        outcome := Settled.rejected } := by
  have h2 : promiseAll (dispatchAll user db writes
      (handleBulkSaveOps sel classStudents marks results) 0 results).2 = Settled.rejected := by
    cases hp : promiseAll (dispatchAll user db writes
      (handleBulkSaveOps sel classStudents marks results) 0 results).2 with
    | fulfilled => exact absurd hp h
    | rejected => rfl
  unfold handleBulkSave
  simp only [h2, dispatchAll_fst]

/-- C22: the promises of a bulk save are those of its calls, each fulfilled without a
signed-in user and else settled as the store settles the write. When all are fulfilled the
run ends with `loading` false and `success` true; when one is rejected the function ends
at the `await` with a rejection, `success` is what it was before and is true afterwards
only if it was true before; in both cases the stored collection is the one in which the
writes the store fulfilled have been applied, a rejection undoing none of them. -/
theorem C22_success_only_if_all_resolved (user : Option String) (db : Firestore)
    (sel : Selection) (classStudents : List Student) (marks : Marks)
    (results : List StudentResult) (writes : Nat → Settled) (st : DashboardState) :
    (dispatchAll user db writes (handleBulkSaveOps sel classStudents marks results) 0
        results).2 =
      (List.range (handleBulkSaveOps sel classStudents marks results).length).map
        (fun k => if user.isNone then Settled.fulfilled else writes k)
    ∧ ((∀ p ∈ (dispatchAll user db writes (handleBulkSaveOps sel classStudents marks results)
          0 results).2, p = Settled.fulfilled) →
        (handleBulkSave user db sel classStudents marks results writes st).state =
            { loading := false, success := true }
        ∧ (handleBulkSave user db sel classStudents marks results writes st).outcome =
            Settled.fulfilled)
    ∧ ((∃ p ∈ (dispatchAll user db writes (handleBulkSaveOps sel classStudents marks results)
          0 results).2, p = Settled.rejected) →
        (handleBulkSave user db sel classStudents marks results writes st).state =
            { loading := true, success := st.success }
        ∧ (handleBulkSave user db sel classStudents marks results writes st).outcome =
            Settled.rejected)
    ∧ (st.success = false →
        ((handleBulkSave user db sel classStudents marks results writes st).state.success
            = true ↔
          ∀ p ∈ (dispatchAll user db writes
            (handleBulkSaveOps sel classStudents marks results) 0 results).2,
            p = Settled.fulfilled))
    ∧ (handleBulkSave user db sel classStudents marks results writes st).docs =
        applyOps user db results
          (fulfilledOps writes (handleBulkSaveOps sel classStudents marks results) 0) := by
  have hsnd := dispatchAll_snd user db writes
    (handleBulkSaveOps sel classStudents marks results) 0 results
  simp only [Nat.zero_add] at hsnd
  have hrej : (∃ p ∈ (dispatchAll user db writes
      (handleBulkSaveOps sel classStudents marks results) 0 results).2,
      p = Settled.rejected) →
      promiseAll (dispatchAll user db writes
        (handleBulkSaveOps sel classStudents marks results) 0 results).2 ≠
        Settled.fulfilled := by
    rintro ⟨p, hp, hpr⟩ hall
    have := (promiseAll_eq_fulfilled_iff _).mp hall p hp
    rw [hpr] at this
    cases this
  refine ⟨hsnd, ?_, ?_, ?_, ?_⟩
  · intro hall
    rw [handleBulkSave_of_fulfilled _ _ _ _ _ _ _ _ ((promiseAll_eq_fulfilled_iff _).mpr hall)]
    exact ⟨rfl, rfl⟩
  · intro h
    rw [handleBulkSave_of_rejected _ _ _ _ _ _ _ _ (hrej h)]
    exact ⟨rfl, rfl⟩
  · intro hst
    constructor
    · intro hsucc
      by_contra hnot
      have hne : promiseAll (dispatchAll user db writes
          (handleBulkSaveOps sel classStudents marks results) 0 results).2 ≠
          Settled.fulfilled := fun hc => hnot ((promiseAll_eq_fulfilled_iff _).mp hc)
      rw [handleBulkSave_of_rejected _ _ _ _ _ _ _ _ hne] at hsucc
      simp only [hst] at hsucc
      cases hsucc
    · intro hall
      rw [handleBulkSave_of_fulfilled _ _ _ _ _ _ _ _
        ((promiseAll_eq_fulfilled_iff _).mpr hall)]
  · by_cases hall : promiseAll (dispatchAll user db writes
        (handleBulkSaveOps sel classStudents marks results) 0 results).2 = Settled.fulfilled
    · rw [handleBulkSave_of_fulfilled _ _ _ _ _ _ _ _ hall]
    · rw [handleBulkSave_of_rejected _ _ _ _ _ _ _ _ hall]

/-- C23, where the code departs from it: when a signed-in user's bulk save has a write that
the store rejects, the function ends at the `await` and the `setLoading(false)` that
follows it is not reached: `loading` is true when the run has ended, whatever it was
before, and the Publish Results button is disabled, so the save cannot be retried. -/
theorem C23_loading_stays_true_after_rejection (user : String) (db : Firestore)
    (sel : Selection) (classStudents : List Student) (marks : Marks)
    (results : List StudentResult) (writes : Nat → Settled) (st : DashboardState)
    (hrej : ∃ k, k < (handleBulkSaveOps sel classStudents marks results).length ∧
      writes k = Settled.rejected) :
    (handleBulkSave (some user) db sel classStudents marks results writes st).state.loading
      = true
    ∧ publishDisabled
        (handleBulkSave (some user) db sel classStudents marks results writes st).state
        classStudents = true
    ∧ (handleBulkSave (some user) db sel classStudents marks results writes st).outcome =
        Settled.rejected := by
  obtain ⟨k, hk, hw⟩ := hrej
  have hne : promiseAll (dispatchAll (some user) db writes
      (handleBulkSaveOps sel classStudents marks results) 0 results).2 ≠
      Settled.fulfilled := by
    intro hall
    have hmem : writes k ∈ (dispatchAll (some user) db writes
        (handleBulkSaveOps sel classStudents marks results) 0 results).2 := by
      rw [dispatchAll_snd]
      simp only [Option.isNone_some, Bool.false_eq_true, if_false, Nat.zero_add,
        List.mem_map, List.mem_range]
      exact ⟨k, hk, rfl⟩
    have := (promiseAll_eq_fulfilled_iff _).mp hall _ hmem
    rw [hw] at this
    cases this
  rw [handleBulkSave_of_rejected _ _ _ _ _ _ _ _ hne]
  exact ⟨rfl, rfl, rfl⟩

/-- C23 at a failing input: the specification's roster with the marks 70 and 85 over an
empty collection, saved by a signed-in user against a store that rejects the second write.
The run ends with `loading` true and the button disabled, and the first student's result
is stored. -/
theorem C23_loading_stays_true_after_rejection_witness :
    handleBulkSave (some "uid") exampleStore exampleSel [studentA, studentB] exampleMarks []
        rejectSecond { loading := false, success := false } =
      { state := { loading := true, success := false },
        docs := [newDoc exampleStore (mkPayload exampleSel studentA (JSNum.ofInt 70)) []],
        outcome := Settled.rejected }
    ∧ publishDisabled { loading := true, success := false } [studentA, studentB] = true
    ∧ (handleBulkSave (some "uid") exampleStore exampleSel [studentA, studentB] exampleMarks []
        rejectSecond { loading := false, success := false }).state.loading = true :=
  ⟨by decide, by decide,
   (C23_loading_stays_true_after_rejection "uid" exampleStore exampleSel [studentA, studentB]
    exampleMarks [] rejectSecond { loading := false, success := false }
    ⟨1, by decide, by decide⟩).1⟩

/-- C25: without a signed-in user `handleUploadResult` and `handleUpdateResult` write
nothing and their promises are fulfilled, whatever the store would do; so a bulk save
without a user leaves the stored collection as it was, for every roster and marks, and
ends with `loading` false and `success` true. -/
theorem C25_no_user_no_write (db : Firestore) (sel : Selection)
    (classStudents : List Student) (marks : Marks) (results : List StudentResult)
    (writes : Nat → Settled) (st : DashboardState) :
    (∀ data write docs, onSubmitResult none db data write docs = (docs, Settled.fulfilled))
    ∧ (∀ id data write docs, onUpdateResult none id data write docs = (docs, Settled.fulfilled))
    ∧ (∀ data docs, handleUploadResult none db data docs = docs)
    ∧ (∀ id data docs, handleUpdateResult none id data docs = docs)
    ∧ afterBulkSave none db sel classStudents marks results = results
    ∧ handleBulkSave none db sel classStudents marks results writes st =
        { state := { loading := false, success := true }, docs := results,
          outcome := Settled.fulfilled } := by
  refine ⟨fun _ _ _ => rfl, fun _ _ _ _ => rfl, fun _ _ => rfl, fun _ _ _ => rfl,
    applyOps_none db results _, ?_⟩
  have hall : promiseAll (dispatchAll none db writes
      (handleBulkSaveOps sel classStudents marks results) 0 results).2 = Settled.fulfilled := by
    rw [promiseAll_eq_fulfilled_iff, dispatchAll_snd]
    intro p hp
    simp only [Option.isNone_none, if_true, List.mem_map] at hp
    obtain ⟨_, _, hp⟩ := hp
    exact hp.symm
  rw [handleBulkSave_of_fulfilled _ _ _ _ _ _ _ _ hall, applyOps_none]

/-! ## The fields an UPDATE writes -/

theorem mergeFields_data (r : StudentResult) (data : Payload) :
    (mergeFields r data).data = updateFields r.data data.fields := by
  rcases r with ⟨id, studentName, studentId, level, className, subject, score, grade, term,
    year, createdAt⟩
  cases createdAt <;>
    simp [mergeFields, StudentResult.data, updateFields, Payload.fields, JSObject.set]

theorem updateDoc_eq_map (id : String) (data : Payload) (docs : List StudentResult) :
    (updateDoc id data docs).map (fun r => (r.id, r.createdAt)) =
      docs.map (fun r => (r.id, r.createdAt)) := by
  rw [updateDoc, List.map_map]
  apply List.map_congr_left
  intro r _
  simp only [Function.comp]
  by_cases h : r.id = id
  · simp [h, mergeFields]
  · simp [h]

theorem applyOp_frame (user : Option String) (db : Firestore) (docs : List StudentResult)
    (op : Op) (hnodel : ∀ id, op ≠ Op.delete id) :
    ((applyOp user db docs op).map (fun r => (r.id, r.createdAt))).take docs.length =
      docs.map (fun r => (r.id, r.createdAt))
    ∧ docs.length ≤ (applyOp user db docs op).length := by
  have hself : ((docs.map (fun r => (r.id, r.createdAt))).take docs.length) =
      docs.map (fun r => (r.id, r.createdAt)) := by
    rw [List.take_of_length_le]
    simp
  cases user with
  | none => rw [applyOp_none]; exact ⟨hself, le_refl _⟩
  | some u =>
    cases op with
    | submit data =>
      simp only [applyOp, handleUploadResult, Option.isNone_some, Bool.false_eq_true,
        if_false, addDoc, List.map_append, List.length_append]
      refine ⟨?_, Nat.le_add_right _ _⟩
      rw [List.take_append_of_le_length (by simp)]
      exact hself
    | update id data =>
      simp only [applyOp, handleUpdateResult, Option.isNone_some, Bool.false_eq_true,
        if_false]
      rw [updateDoc_eq_map]
      refine ⟨hself, ?_⟩
      simp [updateDoc]
    | delete id => exact absurd rfl (hnodel id)

theorem applyOps_frame (user : Option String) (db : Firestore) (ops : List Op)
    (hnodel : ∀ id, Op.delete id ∉ ops) (docs : List StudentResult) :
    ((applyOps user db docs ops).map (fun r => (r.id, r.createdAt))).take docs.length =
      docs.map (fun r => (r.id, r.createdAt))
    ∧ docs.length ≤ (applyOps user db docs ops).length := by
  induction ops generalizing docs with
  | nil =>
    refine ⟨?_, le_refl _⟩
    show ((docs.map (fun r => (r.id, r.createdAt))).take docs.length) = _
    rw [List.take_of_length_le]
    simp
  | cons op rest ih =>
    have hop := applyOp_frame user db docs op
      (fun id h => hnodel id (by rw [h]; exact List.mem_cons_self _ _))
    have hrest := ih (fun id h => hnodel id (List.mem_cons_of_mem _ h)) (applyOp user db docs op)
    have hstep : applyOps user db docs (op :: rest) =
        applyOps user db (applyOp user db docs op) rest := rfl
    rw [hstep]
    refine ⟨?_, le_trans hop.2 hrest.2⟩
    have h1 : docs.length = min docs.length (applyOp user db docs op).length := by
      rw [Nat.min_eq_left hop.2]
    rw [h1, ← List.take_take, hrest.1]
    exact hop.1

/-- C24: the payload of every UPDATE of a bulk save has exactly the fields studentName,
studentId, level, className, subject, term, year, score and grade, and neither `id` nor
`createdAt`; merging a payload into a document writes these fields and leaves the
identifier and `createdAt` of the document as they were; `handleUpdateResult` changes no
document but the one of the targeted identifier; `handleUploadResult` is what gives a new
document its `createdAt`; and after a bulk save every document of the collection is still
there under its identifier with the `createdAt` it had. -/
theorem C24_createdAt_immutable (user : Option String) (db : Firestore) (sel : Selection)
    (classStudents : List Student) (marks : Marks) (results : List StudentResult) :
    (∀ id data, Op.update id data ∈ handleBulkSaveOps sel classStudents marks results →
        data.fields.map Prod.fst =
          ["studentName", "studentId", "level", "className", "subject", "term", "year",
           "score", "grade"]
        ∧ "id" ∉ data.fields.map Prod.fst ∧ "createdAt" ∉ data.fields.map Prod.fst)
    ∧ (∀ (r : StudentResult) (data : Payload),
        (mergeFields r data).data = updateFields r.data data.fields
        ∧ (mergeFields r data).id = r.id ∧ (mergeFields r data).createdAt = r.createdAt
        ∧ List.lookup "createdAt" (updateFields r.data data.fields) =
            List.lookup "createdAt" r.data)
    ∧ (∀ id data docs,
        (handleUpdateResult user id data docs).map (fun r => (r.id, r.createdAt)) =
          docs.map (fun r => (r.id, r.createdAt))
        ∧ ∃ f : StudentResult → StudentResult,
            handleUpdateResult user id data docs = docs.map f ∧ ∀ r, r.id ≠ id → f r = r)
    ∧ (∀ u data docs,
        handleUploadResult (some u) db data docs = docs ++ [newDoc db data docs]
        ∧ (newDoc db data docs).createdAt = some (db.serverTimestamp docs))
    ∧ ((afterBulkSave user db sel classStudents marks results).map
          (fun r => (r.id, r.createdAt))).take results.length =
        results.map (fun r => (r.id, r.createdAt)) := by
  refine ⟨fun _ data _ => ⟨rfl, by simp [Payload.fields], by simp [Payload.fields]⟩, ?_, ?_,
    fun _ _ _ => ⟨rfl, rfl⟩, ?_⟩
  · intro r data
    refine ⟨mergeFields_data r data, rfl, rfl, ?_⟩
    rw [← mergeFields_data]
    rcases r with ⟨id, studentName, studentId, level, className, subject, score, grade,
      term, year, createdAt⟩
    cases createdAt <;> rfl
  · intro id data docs
    cases user with
    | none =>
      refine ⟨rfl, fun r => r, ?_, fun _ _ => rfl⟩
      show docs = docs.map (fun r => r)
      simp
    | some u =>
      refine ⟨updateDoc_eq_map id data docs,
        fun r => if r.id = id then mergeFields r data else r, rfl, ?_⟩
      intro r hr
      simp [hr]
  · refine (applyOps_frame user db _ ?_ results).1
    exact handleBulkSaveOps_no_delete sel classStudents marks results

/-! ## Subjects of a class -/

set_option maxRecDepth 100000 in
theorem ALL_POSSIBLE_SUBJECTS_eq :
    ALL_POSSIBLE_SUBJECTS =
      ["Accounts", "Agriculture", "Art & Design", "Biology", "Business Studies", "Chemistry",
       "Combined Science", "Computer Science", "Economics", "English", "FRS", "Geography",
       "Heritage", "History", "Literature in English", "Literature in Shona", "Mathematics",
       "Physics", "Shona", "Sociology"] := by
  decide

/-- Whatever the class name, `getSubjectsForClass` returns one of eight lists. -/
theorem getSubjectsForClass_mem (className : String) :
    getSubjectsForClass className ∈
      [ALL_POSSIBLE_SUBJECTS, O_LEVEL_SUBJECTS.get "ZJC" [], O_LEVEL_SUBJECTS.get "Sciences" [],
       O_LEVEL_SUBJECTS.get "Commercials" [], O_LEVEL_SUBJECTS.get "Arts" [],
       A_LEVEL_SUBJECTS.get "Sciences" [], A_LEVEL_SUBJECTS.get "Commercials" [],
       A_LEVEL_SUBJECTS.get "Arts" []] := by
  unfold getSubjectsForClass
  by_cases h0 : className = ""
  · simp [h0]
  · by_cases hl : includes (toLowerCase className) "lower 6" = true <;>
    by_cases hu : includes (toLowerCase className) "upper 6" = true <;>
    by_cases hs : includes (toLowerCase className) "sciences" = true <;>
    by_cases hc : includes (toLowerCase className) "commercials" = true <;>
    by_cases ha : includes (toLowerCase className) "arts" = true <;>
    by_cases h1 : startsWith (toLowerCase className) "1" = true <;>
    by_cases h2 : startsWith (toLowerCase className) "2" = true <;>
    simp [h0, hl, hu, hs, hc, ha, h1, h2]

set_option maxRecDepth 100000 in
/-- C30: each class of `ACADEMIC_LEVELS` gets the subject list of its level and stream:
the ZJC classes the list `ZJC`, the O Level classes `3 X` and `4 X` the O Level list of
stream `X`, the A Level classes `Lower 6 X` and `Upper 6 X` the A Level list of stream `X`,
these being all the classes listed; the empty class name gets `ALL_POSSIBLE_SUBJECTS`; and
every list returned, for these and for any other class name, is not empty and is
contained in `ALL_POSSIBLE_SUBJECTS`. -/
theorem C30_subjects_of_listed_classes :
    ACADEMIC_LEVELS.map Prod.fst = ["ZJC", "O Level", "A Level"]
    ∧ ACADEMIC_LEVELS.get "ZJC" [] = ["1A", "1B", "2A", "2B"]
    ∧ ACADEMIC_LEVELS.get "O Level" [] =
        ["3 ", "4 "].flatMap (fun n => ["Sciences", "Commercials", "Arts"].map (fun x => n ++ x))
    ∧ ACADEMIC_LEVELS.get "A Level" [] =
        ["Lower 6 ", "Upper 6 "].flatMap
          (fun n => ["Sciences", "Commercials", "Arts"].map (fun x => n ++ x))
    ∧ (∀ c ∈ ACADEMIC_LEVELS.get "ZJC" [],
        getSubjectsForClass c = O_LEVEL_SUBJECTS.get "ZJC" [])
    ∧ (∀ x ∈ ["Sciences", "Commercials", "Arts"],
        getSubjectsForClass ("3 " ++ x) = O_LEVEL_SUBJECTS.get x []
        ∧ getSubjectsForClass ("4 " ++ x) = O_LEVEL_SUBJECTS.get x []
        ∧ getSubjectsForClass ("Lower 6 " ++ x) = A_LEVEL_SUBJECTS.get x []
        ∧ getSubjectsForClass ("Upper 6 " ++ x) = A_LEVEL_SUBJECTS.get x []
        ∧ x ∈ O_LEVEL_SUBJECTS.map Prod.fst ∧ x ∈ A_LEVEL_SUBJECTS.map Prod.fst)
    ∧ getSubjectsForClass "" = ALL_POSSIBLE_SUBJECTS
    ∧ (∀ className, getSubjectsForClass className ≠ []
        ∧ ∀ subject ∈ getSubjectsForClass className, subject ∈ ALL_POSSIBLE_SUBJECTS) := by
  refine ⟨by decide, by decide, by decide, by decide, by decide, by decide, by decide, ?_⟩
  intro className
  have hall : ∀ l ∈ [ALL_POSSIBLE_SUBJECTS, O_LEVEL_SUBJECTS.get "ZJC" [],
      O_LEVEL_SUBJECTS.get "Sciences" [], O_LEVEL_SUBJECTS.get "Commercials" [],
      O_LEVEL_SUBJECTS.get "Arts" [], A_LEVEL_SUBJECTS.get "Sciences" [],
      A_LEVEL_SUBJECTS.get "Commercials" [], A_LEVEL_SUBJECTS.get "Arts" []],
      l ≠ [] ∧ ∀ subject ∈ l, subject ∈ ALL_POSSIBLE_SUBJECTS := by
    rw [ALL_POSSIBLE_SUBJECTS_eq]
    decide
  exact hall _ (getSubjectsForClass_mem className)

/-! ## The roster -/

theorem compareStudents_le_iff (localeCompare : String → String → Int) (a b : Student) :
    (!(compareStudents localeCompare a b).isPositive) = true ↔
      localeCompare a.name b.name < 0 ∨
        (localeCompare a.name b.name = 0 ∧ localeCompare a.studentId b.studentId ≤ 0) := by
  unfold compareStudents JSNum.ofInt
  by_cases h0 : localeCompare a.name b.name = 0
  · simp [JSNum.or, h0, JSNum.isPositive]
  · have hq : ((localeCompare a.name b.name : Int) : ℚ) ≠ 0 := by exact_mod_cast h0
    simp only [JSNum.or, hq, if_false, JSNum.isPositive, Bool.not_eq_true',
      decide_eq_false_iff_not, not_lt, h0, false_and, or_false]
    constructor
    · intro h
      have : localeCompare a.name b.name ≤ 0 := by exact_mod_cast h
      omega
    · intro h
      have : localeCompare a.name b.name ≤ 0 := by omega
      exact_mod_cast this

theorem ConsistentComparator.symm_zero {localeCompare : String → String → Int}
    (hc : ConsistentComparator localeCompare) (a b : String) (h : localeCompare a b = 0) :
    localeCompare b a = 0 := by
  have h1 := (hc.2.1 a b)
  have h2 := (hc.2.1 b a)
  omega

theorem ConsistentComparator.total {localeCompare : String → String → Int}
    (hc : ConsistentComparator localeCompare) (a b : String) :
    localeCompare a b ≤ 0 ∨ localeCompare b a ≤ 0 := by
  have h1 := (hc.2.1 a b)
  have h2 := (hc.2.1 b a)
  omega

theorem keyLe_total {localeCompare : String → String → Int}
    (hc : ConsistentComparator localeCompare) (a b : Student) :
    (localeCompare a.name b.name < 0 ∨
        (localeCompare a.name b.name = 0 ∧ localeCompare a.studentId b.studentId ≤ 0))
    ∨ (localeCompare b.name a.name < 0 ∨
        (localeCompare b.name a.name = 0 ∧ localeCompare b.studentId a.studentId ≤ 0)) := by
  have h1 := hc.2.1 a.name b.name
  have h2 := hc.2.1 b.name a.name
  have h3 := hc.total a.studentId b.studentId
  omega

theorem keyLe_trans {localeCompare : String → String → Int}
    (hc : ConsistentComparator localeCompare) (a b c : Student)
    (hab : localeCompare a.name b.name < 0 ∨
        (localeCompare a.name b.name = 0 ∧ localeCompare a.studentId b.studentId ≤ 0))
    (hbc : localeCompare b.name c.name < 0 ∨
        (localeCompare b.name c.name = 0 ∧ localeCompare b.studentId c.studentId ≤ 0)) :
    localeCompare a.name c.name < 0 ∨
        (localeCompare a.name c.name = 0 ∧ localeCompare a.studentId c.studentId ≤ 0) := by
  have hle : localeCompare a.name c.name ≤ 0 :=
    hc.2.2 a.name b.name c.name (by omega) (by omega)
  by_cases hlt : localeCompare a.name c.name < 0
  · exact Or.inl hlt
  · have h0 : localeCompare a.name c.name = 0 := by omega
    have hca : localeCompare c.name a.name = 0 := hc.symm_zero _ _ h0
    -- then neither step is strict
    have hab0 : localeCompare a.name b.name = 0 := by
      rcases hab with h | h
      · exfalso
        have hcb : localeCompare c.name b.name ≤ 0 :=
          hc.2.2 c.name a.name b.name (by omega) (by omega)
        have hbc' : localeCompare b.name c.name ≤ 0 := by omega
        have hba : localeCompare b.name a.name ≤ 0 :=
          hc.2.2 b.name c.name a.name hbc' (by omega)
        have := hc.2.1 a.name b.name
        omega
      · exact h.1
    have hbc0 : localeCompare b.name c.name = 0 := by
      rcases hbc with h | h
      · exfalso
        have hba : localeCompare b.name a.name = 0 := hc.symm_zero _ _ hab0
        have hcb : localeCompare c.name b.name ≤ 0 :=
          hc.2.2 c.name a.name b.name (by omega) (by omega)
        have := hc.2.1 b.name c.name
        omega
      · exact h.1
    refine Or.inr ⟨h0, hc.2.2 a.studentId b.studentId c.studentId ?_ ?_⟩
    · rcases hab with h | h
      · omega
      · exact h.2
    · rcases hbc with h | h
      · omega
      · exact h.2

theorem filter_orderedInsertBy {α : Type} (le : α → α → Bool) (p : α → Bool) (x : α)
    (l : List α) (h : p x = true → ∀ y ∈ l, p y = true → le x y = true) :
    (orderedInsertBy le x l).filter p = (x :: l).filter p := by
  induction l with
  | nil => rfl
  | cons y ys ih =>
    by_cases hle : le x y = true
    · simp [orderedInsertBy, hle]
    · have ih2 := ih (fun hx z hz hpz => h hx z (List.mem_cons_of_mem _ hz) hpz)
      have hxy : ¬ (p x = true ∧ p y = true) := by
        rintro ⟨hx, hy⟩
        exact hle (h hx y (List.mem_cons_self _ _) hy)
      simp only [orderedInsertBy, hle, Bool.false_eq_true, if_false]
      rw [List.filter_cons, ih2]
      by_cases hx : p x = true
      · have hy : p y = false := by
          cases hpy : p y with
          | false => rfl
          | true => exact absurd ⟨hx, hpy⟩ hxy
        simp [List.filter_cons, hx, hy]
      · simp [List.filter_cons, hx]

theorem filter_sortBy {α : Type} (le : α → α → Bool) (p : α → Bool) (l : List α)
    (h : ∀ x ∈ l, ∀ y ∈ l, p x = true → p y = true → le x y = true) :
    (sortBy le l).filter p = l.filter p := by
  induction l with
  | nil => rfl
  | cons x xs ih =>
    have ih2 := ih (fun a ha b hb => h a (List.mem_cons_of_mem _ ha) b (List.mem_cons_of_mem _ hb))
    rw [sortBy, filter_orderedInsertBy, List.filter_cons, ih2, List.filter_cons]
    intro hx y hy hpy
    have hy2 : y ∈ xs := (sortBy_perm le xs).mem_iff.mp hy
    exact h x (List.mem_cons_self _ _) y (List.mem_cons_of_mem _ hy2) hx hpy

theorem eq_of_perm_of_pairwise {α : Type} (r : α → α → Prop) (l1 l2 : List α)
    (hp : l1.Perm l2) (h1 : l1.Pairwise r) (h2 : l2.Pairwise r)
    (hanti : ∀ a ∈ l1, ∀ b ∈ l1, r a b → r b a → a = b) : l1 = l2 := by
  induction l1 generalizing l2 with
  | nil => exact (List.Perm.nil_eq hp)
  | cons a t1 ih =>
    cases l2 with
    | nil => exact absurd hp.symm (List.Perm.nil_eq · |> fun h => by cases h)
    | cons b t2 =>
      have hab : a = b := by
        have ha : a ∈ b :: t2 := hp.mem_iff.mp (List.mem_cons_self _ _)
        have hb : b ∈ a :: t1 := hp.mem_iff.mpr (List.mem_cons_self _ _)
        rcases List.mem_cons.mp ha with h | ha'
        · exact h
        · rcases List.mem_cons.mp hb with h | hb'
          · exact h.symm
          · exact hanti a (List.mem_cons_self _ _) b hb
              ((List.pairwise_cons.mp h1).1 b hb') ((List.pairwise_cons.mp h2).1 a ha')
      subst hab
      have hp2 : t1.Perm t2 := List.Perm.cons_inv hp
      rw [ih t2 hp2 (List.pairwise_cons.mp h1).2 (List.pairwise_cons.mp h2).2
        (fun x hx y hy => hanti x (List.mem_cons_of_mem _ hx) y (List.mem_cons_of_mem _ hy))]

theorem classStudents_perm (localeCompare : String → String → Int) (students : List Student)
    (selectedLevel selectedClass : String) :
    (classStudents localeCompare students selectedLevel selectedClass).Perm
      (students.filter (fun s => s.level == selectedLevel && s.className == selectedClass)) :=
  sortBy_perm _ _

theorem classStudents_pairwise {localeCompare : String → String → Int}
    (hc : ConsistentComparator localeCompare) (students : List Student)
    (selectedLevel selectedClass : String) :
    (classStudents localeCompare students selectedLevel selectedClass).Pairwise
      (fun a b => localeCompare a.name b.name < 0 ∨
        (localeCompare a.name b.name = 0 ∧ localeCompare a.studentId b.studentId ≤ 0)) := by
  have h := pairwise_sortBy (fun a b => !(compareStudents localeCompare a b).isPositive)
    (students.filter (fun s => s.level == selectedLevel && s.className == selectedClass))
    (fun x _ y _ => by
      rw [compareStudents_le_iff, compareStudents_le_iff]
      exact keyLe_total hc x y)
    (fun x _ y _ w _ hxy hyw => by
      rw [compareStudents_le_iff] at hxy hyw ⊢
      exact keyLe_trans hc x y w hxy hyw)
  refine List.Pairwise.imp ?_ h
  intro a b hab
  exact (compareStudents_le_iff localeCompare a b).mp hab

theorem codeUnitCompare_consistent : ConsistentComparator codeUnitCompare := by
  have hasymm : ∀ a b : String, unitsLt (utf16Units a) (utf16Units b) = true →
      unitsLt (utf16Units b) (utf16Units a) = false := by
    intro a b h
    cases hba : unitsLt (utf16Units b) (utf16Units a) with
    | false => rfl
    | true =>
      have := unitsLt_trans _ _ _ h hba
      rw [unitsLt_irrefl] at this
      cases this
  have hle : ∀ a b : String, codeUnitCompare a b ≤ 0 ↔
      unitsLt (utf16Units b) (utf16Units a) = false := by
    intro a b
    unfold codeUnitCompare
    cases hab : unitsLt (utf16Units a) (utf16Units b) with
    | true => simp [hasymm a b hab]
    | false =>
      cases hba : unitsLt (utf16Units b) (utf16Units a) <;> simp
  refine ⟨?_, ?_, ?_⟩
  · intro a
    simp [codeUnitCompare, unitsLt_irrefl]
  · intro a b
    unfold codeUnitCompare
    cases hab : unitsLt (utf16Units a) (utf16Units b) with
    | true => simp [hasymm a b hab]
    | false =>
      cases hba : unitsLt (utf16Units b) (utf16Units a) <;> simp
  · intro a b c hab hbc
    rw [hle] at hab hbc ⊢
    have := stringLe_trans a b c (by simp [hab]) (by simp [hbc])
    simpa using this

/-- C21, as the code has it: over a `localeCompare` that is a consistent comparison, the
roster holds exactly the students of the selected level and class, as often as the list
does, ordered by name and, among names that compare equal, by studentId; entries that
compare equal in name and in studentId keep the order they have in the list; and the
roster is the same for every order of the list when no two different entries of the
selected level and class compare equal in name and in studentId. -/
theorem C21_roster_sorted (localeCompare : String → String → Int)
    (hc : ConsistentComparator localeCompare) (students : List Student)
    (selectedLevel selectedClass : String) :
    (classStudents localeCompare students selectedLevel selectedClass).Perm
      (students.filter (fun s => s.level == selectedLevel && s.className == selectedClass))
    ∧ (∀ s, (classStudents localeCompare students selectedLevel selectedClass).count s =
        if s.level = selectedLevel ∧ s.className = selectedClass then students.count s else 0)
    ∧ (classStudents localeCompare students selectedLevel selectedClass).Pairwise
        (fun a b => localeCompare a.name b.name < 0 ∨
          (localeCompare a.name b.name = 0 ∧ localeCompare a.studentId b.studentId ≤ 0))
    ∧ (∀ x : Student,
        (classStudents localeCompare students selectedLevel selectedClass).filter
            (fun y => decide (localeCompare x.name y.name = 0 ∧
              localeCompare x.studentId y.studentId = 0)) =
          (students.filter
            (fun s => s.level == selectedLevel && s.className == selectedClass)).filter
            (fun y => decide (localeCompare x.name y.name = 0 ∧
              localeCompare x.studentId y.studentId = 0)))
    ∧ (∀ students2 : List Student, students2.Perm students →
        (∀ a ∈ students, ∀ b ∈ students,
          a.level = selectedLevel → a.className = selectedClass →
          b.level = selectedLevel → b.className = selectedClass →
          localeCompare a.name b.name = 0 → localeCompare a.studentId b.studentId = 0 →
          a = b) →
        classStudents localeCompare students2 selectedLevel selectedClass =
          classStudents localeCompare students selectedLevel selectedClass) := by
  have hperm := classStudents_perm localeCompare students selectedLevel selectedClass
  refine ⟨hperm, ?_, classStudents_pairwise hc students selectedLevel selectedClass, ?_, ?_⟩
  · intro s
    rw [hperm.count_eq]
    by_cases hs : s.level = selectedLevel ∧ s.className = selectedClass
    · rw [if_pos hs, List.count_filter]
      simp [hs.1, hs.2]
    · rw [if_neg hs, List.count_eq_zero, List.mem_filter]
      rintro ⟨_, h⟩
      simp only [Bool.and_eq_true, beq_iff_eq] at h
      exact hs h
  · intro x
    unfold classStudents arraySort
    apply filter_sortBy
    intro a _ b _ ha hb
    rw [compareStudents_le_iff]
    simp only [decide_eq_true_eq] at ha hb
    right
    have hxa := hc.symm_zero _ _ ha.1
    have hxai := hc.symm_zero _ _ ha.2
    have hn : localeCompare a.name b.name ≤ 0 :=
      hc.2.2 a.name x.name b.name (by omega) (by omega)
    have hn2 : localeCompare b.name a.name ≤ 0 :=
      hc.2.2 b.name x.name a.name (by have := hc.symm_zero _ _ hb.1; omega) (by omega)
    have hi : localeCompare a.studentId b.studentId ≤ 0 :=
      hc.2.2 a.studentId x.studentId b.studentId (by omega) (by omega)
    have := hc.2.1 a.name b.name
    exact ⟨by omega, hi⟩
  · intro students2 hp2 hdistinct
    apply eq_of_perm_of_pairwise _ _ _ ?_
      (classStudents_pairwise hc students2 selectedLevel selectedClass)
      (classStudents_pairwise hc students selectedLevel selectedClass)
    · intro a ha b hb hab hba
      have ha2 : a ∈ students2.filter
          (fun s => s.level == selectedLevel && s.className == selectedClass) :=
        (classStudents_perm localeCompare students2 selectedLevel selectedClass).mem_iff.mp ha
      have hb2 : b ∈ students2.filter
          (fun s => s.level == selectedLevel && s.className == selectedClass) :=
        (classStudents_perm localeCompare students2 selectedLevel selectedClass).mem_iff.mp hb
      rw [List.mem_filter] at ha2 hb2
      simp only [Bool.and_eq_true, beq_iff_eq] at ha2 hb2
      have h1 := hc.2.1 a.name b.name
      have h2 := hc.2.1 b.name a.name
      have h3 := hc.2.1 a.studentId b.studentId
      have h4 := hc.2.1 b.studentId a.studentId
      exact hdistinct a (hp2.mem_iff.mp ha2.1) b (hp2.mem_iff.mp hb2.1) ha2.2.1 ha2.2.2
        hb2.2.1 hb2.2.2 (by omega) (by omega)
    · exact (classStudents_perm localeCompare students2 selectedLevel selectedClass).trans
        ((hp2.filter _).trans hperm.symm)

/-- Counterexample to C21 as stated: two student documents of class 1A with the same name
and the same studentId. Whatever `localeCompare` is, it compares each of the two strings
equal to itself, and the roster has the two in the order of the list: one order for the
list `[studentA, studentA2]` and the other for `[studentA2, studentA]`. -/
theorem C21_counterexample :
    studentA.name = studentA2.name ∧ studentA ≠ studentA2
    ∧ classStudents codeUnitCompare [studentA, studentA2] "ZJC" "1A" = [studentA, studentA2]
    ∧ classStudents codeUnitCompare [studentA2, studentA] "ZJC" "1A" = [studentA2, studentA]
    ∧ (∀ localeCompare : String → String → Int, ConsistentComparator localeCompare →
        classStudents localeCompare [studentA, studentA2] "ZJC" "1A" = [studentA, studentA2]
        ∧ classStudents localeCompare [studentA2, studentA] "ZJC" "1A" =
            [studentA2, studentA]) := by
  refine ⟨rfl, by decide, by decide, by decide, ?_⟩
  intro lc hc
  have hn : lc "Ada" "Ada" = 0 := hc.1 _
  have hi : lc "ST-001" "ST-001" = 0 := hc.1 _
  have hle1 : (!(compareStudents lc studentA studentA2).isPositive) = true := by
    rw [compareStudents_le_iff]
    exact Or.inr ⟨hn, by show lc "ST-001" "ST-001" ≤ 0; omega⟩
  have hle2 : (!(compareStudents lc studentA2 studentA).isPositive) = true := by
    rw [compareStudents_le_iff]
    exact Or.inr ⟨hn, by show lc "ST-001" "ST-001" ≤ 0; omega⟩
  have hf1 : [studentA, studentA2].filter (fun s => s.level == "ZJC" && s.className == "1A") =
      [studentA, studentA2] := by decide
  have hf2 : [studentA2, studentA].filter (fun s => s.level == "ZJC" && s.className == "1A") =
      [studentA2, studentA] := by decide
  constructor
  · unfold classStudents arraySort
    rw [hf1]
    simp [sortBy, orderedInsertBy, hle1]
  · unfold classStudents arraySort
    rw [hf2]
    simp [sortBy, orderedInsertBy, hle2]

/-- Witness of C21 as amended: the specification's roster in the order B, A, with a student
of another class in between. -/
theorem C21_roster_sorted_witness :
    classStudents codeUnitCompare
        [studentB, { studentA with id := "sx", className := "1B" }, studentA] "ZJC" "1A" =
      [studentA, studentB]
    ∧ (classStudents codeUnitCompare
        [studentB, { studentA with id := "sx", className := "1B" }, studentA] "ZJC"
          "1A").Pairwise
        (fun a b => codeUnitCompare a.name b.name < 0 ∨
          (codeUnitCompare a.name b.name = 0 ∧
            codeUnitCompare a.studentId b.studentId ≤ 0)) :=
  ⟨by decide,
   (C21_roster_sorted codeUnitCompare codeUnitCompare_consistent
      [studentB, { studentA with id := "sx", className := "1B" }, studentA] "ZJC"
      "1A").2.2.1⟩

/-! ## Writing and reading back an integer -/

theorem foldl_digit_value (l : List Char) (a : Nat) :
    l.foldl (fun acc c => acc * 10 + (c.toNat - 48)) a =
      a * 10 ^ l.length + l.foldl (fun acc c => acc * 10 + (c.toNat - 48)) 0 := by
  induction l generalizing a with
  | nil => simp
  | cons c t ih =>
    rw [List.foldl_cons, List.foldl_cons, ih (a * 10 + (c.toNat - 48)),
      ih (0 * 10 + (c.toNat - 48)), List.length_cons]
    ring

theorem digitsValue_cons (c : Char) (t : List Char) :
    digitsValue (c :: t) = (c.toNat - 48) * 10 ^ t.length + digitsValue t := by
  unfold digitsValue
  rw [List.foldl_cons, foldl_digit_value]
  simp

theorem digitsValue_append (l1 l2 : List Char) :
    digitsValue (l1 ++ l2) = digitsValue l1 * 10 ^ l2.length + digitsValue l2 := by
  unfold digitsValue
  rw [List.foldl_append, foldl_digit_value]

theorem digitsValue_replicate_zero (k : Nat) : digitsValue (List.replicate k '0') = 0 := by
  induction k with
  | zero => rfl
  | succ k ih =>
    have h0 : '0'.toNat - 48 = 0 := by decide
    rw [List.replicate_succ, digitsValue_cons, ih, h0]
    simp

theorem digitChar_value (d : Nat) (h : d < 10) : (Nat.digitChar d).toNat - 48 = d := by
  have h1 := decDigit?_digitChar d h
  have h2 := decDigit?_of_isSome (Nat.digitChar d) (by rw [h1]; rfl)
  rw [h1] at h2
  exact (Option.some.inj h2).symm

theorem digitsValue_toDigitsCore (fuel n : Nat) (ds : List Char) (h : n < fuel) :
    digitsValue (Nat.toDigitsCore 10 fuel n ds) = n * 10 ^ ds.length + digitsValue ds := by
  induction fuel generalizing n ds with
  | zero => omega
  | succ fuel ih =>
    simp only [Nat.toDigitsCore]
    have hv := digitChar_value (n % 10) (Nat.mod_lt _ (by decide))
    split
    · rename_i h0
      rw [digitsValue_cons, hv]
      have : n = n % 10 := by omega
      rw [← this]
    · rename_i h0
      have hlt : n / 10 < fuel := by omega
      rw [ih (n / 10) _ hlt, digitsValue_cons, hv, List.length_cons, pow_succ]
      conv_rhs => rw [← Nat.div_add_mod n 10]
      ring

theorem digitsValue_toDigits (n : Nat) : digitsValue (Nat.toDigits 10 n) = n := by
  unfold Nat.toDigits
  rw [digitsValue_toDigitsCore (n + 1) n [] (by omega)]
  simp [digitsValue]

theorem trimStrWhiteSpace_of_no_whitespace (cs : List Char)
    (h : ∀ c ∈ cs, isStrWhiteSpaceChar c = false) : trimStrWhiteSpace cs = cs := by
  have hdrop : ∀ l : List Char, (∀ c ∈ l, isStrWhiteSpaceChar c = false) →
      l.dropWhile isStrWhiteSpaceChar = l := by
    intro l hl
    cases l with
    | nil => rfl
    | cons c rest => rw [List.dropWhile_cons, hl c (List.mem_cons_self _ _)]; rfl
  unfold trimStrWhiteSpace
  rw [hdrop cs h, hdrop cs.reverse (fun c hc => h c (List.mem_reverse.mp hc)),
    List.reverse_reverse]

theorem readStrNumericLiteral_of_digit (d : Char) (rest : List Char)
    (hd : (decDigit? d).isSome = true)
    (hsecond : ∀ (c2 : Char) (rest2 : List Char), rest = c2 :: rest2 →
      c2 ≠ 'x' ∧ c2 ≠ 'X' ∧ c2 ≠ 'o' ∧ c2 ≠ 'O' ∧ c2 ≠ 'b' ∧ c2 ≠ 'B') :
    readStrNumericLiteral (d :: rest) = readUnsignedDecimal (d :: rest) := by
  have hcb := (decDigit?_isSome_iff d).mp hd
  have hplus : d ≠ '+' := by
    intro h; rw [h] at hcb; revert hcb; decide
  have hminus : d ≠ '-' := by
    intro h; rw [h] at hcb; revert hcb; decide
  unfold readStrNumericLiteral
  split
  all_goals first
    | rfl
    | (next h =>
        exfalso
        simp only [List.cons.injEq] at h
        first
          | exact hplus h.1
          | exact hminus h.1
          | exact (hsecond _ _ h.2).1 rfl
          | exact (hsecond _ _ h.2).2.1 rfl
          | exact (hsecond _ _ h.2).2.2.1 rfl
          | exact (hsecond _ _ h.2).2.2.2.1 rfl
          | exact (hsecond _ _ h.2).2.2.2.2.1 rfl
          | exact (hsecond _ _ h.2).2.2.2.2.2 rfl)
    | (next h => exact absurd h (by simp))

theorem ne_infinity_of_digit (d : Char) (rest : List Char)
    (hd : (decDigit? d).isSome = true) : ¬ (d :: rest = "Infinity".data) := by
  have hcb := (decDigit?_isSome_iff d).mp hd
  intro h
  have : d = 'I' := by
    have := congrArg List.head? h
    simpa using this
  rw [this] at hcb
  revert hcb
  decide

/-- A non-empty run of decimal digits read as an unsigned decimal literal. -/
theorem readUnsignedDecimal_of_digits (d : Char) (rest : List Char)
    (hdig : ∀ c ∈ d :: rest, (decDigit? c).isSome = true) :
    readUnsignedDecimal (d :: rest) = JSNum.fin (digitsValue (d :: rest) : ℚ) := by
  unfold readUnsignedDecimal
  rw [if_neg (ne_infinity_of_digit d rest (hdig d (List.mem_cons_self _ _)))]
  simp only [takeWhile_digits (d :: rest) hdig, dropWhile_digits (d :: rest) hdig,
    List.isEmpty_cons, Bool.false_and, Bool.false_eq_true, if_false, List.append_nil,
    readDigits_of_digits (d :: rest) 0 hdig, readExponent]
  simp [scale10, digitsValue]

theorem takeWhile_digits_append (l : List Char) (x : Char) (t : List Char)
    (hl : ∀ c ∈ l, (decDigit? c).isSome = true) (hx : (decDigit? x).isSome = false) :
    (l ++ x :: t).takeWhile (fun c => (decDigit? c).isSome) = l
    ∧ (l ++ x :: t).dropWhile (fun c => (decDigit? c).isSome) = x :: t := by
  induction l with
  | nil => simp [List.takeWhile_cons, List.dropWhile_cons, hx]
  | cons c rest ih =>
    have hc := hl c (List.mem_cons_self _ _)
    have ih2 := ih (fun y hy => hl y (List.mem_cons_of_mem _ hy))
    simp only [List.cons_append, List.takeWhile_cons, List.dropWhile_cons, hc, if_true]
    exact ⟨by rw [ih2.1], ih2.2⟩

theorem readExponent_plus (ed : List Char) (hne : ed ≠ [])
    (hed : ∀ c ∈ ed, (decDigit? c).isSome = true) :
    readExponent ('e' :: '+' :: ed) = some (digitsValue ed : Int) := by
  have hemp : ed.isEmpty = false := by
    cases ed with
    | nil => exact absurd rfl hne
    | cons _ _ => rfl
  simp only [readExponent, true_or, if_true, readNumeral, hemp, Bool.false_eq_true, if_false,
    readDigits_of_digits ed 0 hed, Option.map_some']
  rfl

/-- The exponential notation without a fraction, read back. -/
theorem readUnsignedDecimal_exp (d : Char) (ed : List Char)
    (hd : (decDigit? d).isSome = true) (hne : ed ≠ [])
    (hed : ∀ c ∈ ed, (decDigit? c).isSome = true) :
    readUnsignedDecimal (d :: 'e' :: '+' :: ed) =
      JSNum.fin (scale10 (digitsValue [d]) (digitsValue ed : Int)) := by
  have hsplit := takeWhile_digits_append [d] 'e' ('+' :: ed)
    (by intro c hc; rw [List.mem_singleton.mp hc]; exact hd) (by decide)
  simp only [List.singleton_append] at hsplit
  unfold readUnsignedDecimal
  rw [if_neg (ne_infinity_of_digit d _ hd)]
  simp only [hsplit.1, hsplit.2, List.isEmpty_cons, Bool.false_and, Bool.false_eq_true,
    if_false, List.append_nil]
  have h1 := readDigits_of_digits [d] 0
    (by intro c hc; rw [List.mem_singleton.mp hc]; exact hd)
  have h2 := readExponent_plus ed hne hed
  simp [h1, h2, digitsValue]

/-- The exponential notation with a fraction, read back. -/
theorem readUnsignedDecimal_frac_exp (d : Char) (rest ed : List Char)
    (hd : (decDigit? d).isSome = true)
    (hrest : ∀ c ∈ rest, (decDigit? c).isSome = true) (hne : ed ≠ [])
    (hed : ∀ c ∈ ed, (decDigit? c).isSome = true) :
    readUnsignedDecimal (d :: '.' :: rest ++ 'e' :: '+' :: ed) =
      JSNum.fin (scale10 (digitsValue (d :: rest)) ((digitsValue ed : Int) - rest.length)) := by
  have hsplit := takeWhile_digits_append [d] '.' (rest ++ 'e' :: '+' :: ed)
    (by intro c hc; rw [List.mem_singleton.mp hc]; exact hd) (by decide)
  have hsplit2 := takeWhile_digits_append rest 'e' ('+' :: ed) hrest (by decide)
  simp only [List.singleton_append] at hsplit
  have hall : ∀ c ∈ d :: rest, (decDigit? c).isSome = true := by
    intro c hc
    rcases List.mem_cons.mp hc with h | h
    · rw [h]; exact hd
    · exact hrest c h
  have heq : d :: '.' :: rest ++ 'e' :: '+' :: ed = d :: '.' :: (rest ++ 'e' :: '+' :: ed) :=
    rfl
  rw [heq]
  unfold readUnsignedDecimal
  rw [if_neg (ne_infinity_of_digit d _ hd)]
  simp only [hsplit.1, hsplit.2, hsplit2.1, hsplit2.2, List.isEmpty_cons,
    Bool.false_and, Bool.false_eq_true, if_false, List.singleton_append]
  have h1 := readDigits_of_digits (d :: rest) 0 hall
  have h2 := readExponent_plus ed hne hed
  simp only [List.singleton_append] at h1
  simp [h1, h2, digitsValue]

theorem not_prefix_letter_of_digit (c : Char) (h : (decDigit? c).isSome = true) :
    c ≠ 'x' ∧ c ≠ 'X' ∧ c ≠ 'o' ∧ c ≠ 'O' ∧ c ≠ 'b' ∧ c ≠ 'B' := by
  have hc := (decDigit?_isSome_iff c).mp h
  refine ⟨?_, ?_, ?_, ?_, ?_, ?_⟩ <;>
    (intro h2; rw [h2] at hc; revert hc; decide)

/-- The decimal digits of a positive number, split at its trailing zeros. -/
theorem toDigits_split (n : Nat) (hn : n ≠ 0) :
    ∃ (d : Char) (rest : List Char) (k : Nat),
      Nat.toDigits 10 n = d :: rest ++ List.replicate k '0'
      ∧ ((Nat.toDigits 10 n).reverse.dropWhile (fun c => c == '0')).reverse = d :: rest
      ∧ (decDigit? d).isSome = true ∧ (∀ c ∈ rest, (decDigit? c).isSome = true) := by
  obtain ⟨_, hdig⟩ := toDigits_digits n
  have hsplit := List.takeWhile_append_dropWhile (fun c => c == '0') (Nat.toDigits 10 n).reverse
  have hds : Nat.toDigits 10 n =
      ((Nat.toDigits 10 n).reverse.dropWhile (fun c => c == '0')).reverse ++
        ((Nat.toDigits 10 n).reverse.takeWhile (fun c => c == '0')).reverse := by
    have := congrArg List.reverse hsplit
    rw [List.reverse_append, List.reverse_reverse] at this
    exact this.symm
  have hzeros : ((Nat.toDigits 10 n).reverse.takeWhile (fun c => c == '0')).reverse =
      List.replicate ((Nat.toDigits 10 n).reverse.takeWhile (fun c => c == '0')).length '0' := by
    rw [List.eq_replicate_iff]
    refine ⟨by simp, ?_⟩
    intro b hb
    have := List.mem_takeWhile_imp (List.mem_reverse.mp hb)
    simpa using this
  cases hsig : ((Nat.toDigits 10 n).reverse.dropWhile (fun c => c == '0')).reverse with
  | nil =>
    exfalso
    rw [hsig, List.nil_append, hzeros] at hds
    have hv := digitsValue_toDigits n
    rw [hds, digitsValue_replicate_zero] at hv
    exact hn hv.symm
  | cons d rest =>
    refine ⟨d, rest, ((Nat.toDigits 10 n).reverse.takeWhile (fun c => c == '0')).length,
      ?_, rfl, ?_, ?_⟩
    · rw [hsig, hzeros] at hds
      exact hds
    · apply hdig
      rw [hds, hsig]
      simp
    · intro c hc
      apply hdig
      rw [hds, hsig]
      simp [hc]

theorem scale10_natCast (m k : Nat) : scale10 m (k : Int) = ((m * 10 ^ k : Nat) : ℚ) := by
  unfold scale10
  simp

/-- The text of a positive integer, in digits or in exponential notation, has no white
space and is read back to the integer. -/
theorem read_integer_text (n : Nat) (hn : n ≠ 0) :
    (∀ c ∈ (if n < 10 ^ 21 then Nat.toDigits 10 n else exponentialDigits (n : ℚ)),
        isStrWhiteSpaceChar c = false)
    ∧ readUnsignedDecimal
        (if n < 10 ^ 21 then Nat.toDigits 10 n else exponentialDigits (n : ℚ)) =
          JSNum.fin (n : ℚ)
    ∧ readStrNumericLiteral
        (if n < 10 ^ 21 then Nat.toDigits 10 n else exponentialDigits (n : ℚ)) =
          JSNum.fin (n : ℚ) := by
  obtain ⟨d, rest, k, hds, hsig, hd, hrest⟩ := toDigits_split n hn
  obtain ⟨_, hdig⟩ := toDigits_digits n
  have hval : digitsValue (d :: rest) * 10 ^ k = n := by
    have hv := digitsValue_toDigits n
    rw [hds, digitsValue_append, digitsValue_replicate_zero, List.length_replicate] at hv
    simpa using hv
  by_cases hlt : n < 10 ^ 21
  · rw [if_pos hlt]
    have hform : ∃ d0 rest0, Nat.toDigits 10 n = d0 :: rest0 := ⟨d, _, hds⟩
    obtain ⟨d0, rest0, h0⟩ := hform
    have hdig0 : ∀ c ∈ d0 :: rest0, (decDigit? c).isSome = true := by
      rw [← h0]; exact hdig
    have hread : readUnsignedDecimal (Nat.toDigits 10 n) = JSNum.fin (n : ℚ) := by
      rw [h0, readUnsignedDecimal_of_digits d0 rest0 hdig0, ← h0, digitsValue_toDigits]
    refine ⟨fun c hc => isStrWhiteSpaceChar_of_digit c (hdig c hc), hread, ?_⟩
    rw [← hread, h0]
    apply readStrNumericLiteral_of_digit d0 rest0 (hdig0 d0 (List.mem_cons_self _ _))
    intro c2 rest2 h2
    apply not_prefix_letter_of_digit
    apply hdig0
    rw [h2]
    exact List.mem_cons_of_mem _ (List.mem_cons_self _ _)
  · rw [if_neg hlt]
    obtain ⟨hene, hedig⟩ := toDigits_digits (rest.length + k)
    have hlen : (Nat.toDigits 10 n).length - 1 = rest.length + k := by
      rw [hds]; simp
    have hws : ∀ c, (decDigit? c).isSome = true ∨ c = '.' ∨ c = 'e' ∨ c = '+' →
        isStrWhiteSpaceChar c = false := by
      intro c hc
      rcases hc with h | h | h | h
      · exact isStrWhiteSpaceChar_of_digit c h
      · rw [h]; decide
      · rw [h]; decide
      · rw [h]; decide
    have hexpval : ((digitsValue (Nat.toDigits 10 (rest.length + k)) : Int) - rest.length) =
        (k : Int) := by
      rw [digitsValue_toDigits]
      push_cast
      ring
    cases rest with
    | nil =>
      have hexp2 : exponentialDigits (n : ℚ) =
          d :: 'e' :: '+' :: Nat.toDigits 10 (0 + k) := by
        unfold exponentialDigits
        simp only [Nat.floor_natCast]
        rw [hsig, hlen]
        rfl
      rw [hexp2]
      have hread : readUnsignedDecimal (d :: 'e' :: '+' :: Nat.toDigits 10 (0 + k)) =
          JSNum.fin (n : ℚ) := by
        rw [readUnsignedDecimal_exp d (Nat.toDigits 10 (0 + k)) hd hene hedig]
        have hk : ((digitsValue (Nat.toDigits 10 (0 + k)) : Nat) : Int) = (k : Int) := by
          rw [digitsValue_toDigits]; simp
        rw [hk, scale10_natCast, hval]
      refine ⟨?_, hread, ?_⟩
      · intro c hc
        apply hws
        simp only [List.mem_cons] at hc
        rcases hc with h | h | h | h
        · left; rw [h]; exact hd
        · right; right; left; exact h
        · right; right; right; exact h
        · left; exact hedig c h
      · rw [← hread]
        apply readStrNumericLiteral_of_digit d _ hd
        intro c2 rest2 h2
        have : c2 = 'e' := by
          have := congrArg List.head? h2
          simpa using this.symm
        rw [this]
        decide
    | cons r rest1 =>
      have hexp2 : exponentialDigits (n : ℚ) =
          d :: '.' :: (r :: rest1) ++ 'e' :: '+' ::
            Nat.toDigits 10 ((r :: rest1).length + k) := by
        unfold exponentialDigits
        simp only [Nat.floor_natCast]
        rw [hsig, hlen]
      rw [hexp2]
      have hread : readUnsignedDecimal (d :: '.' :: (r :: rest1) ++ 'e' :: '+' ::
            Nat.toDigits 10 ((r :: rest1).length + k)) = JSNum.fin (n : ℚ) := by
        rw [readUnsignedDecimal_frac_exp d (r :: rest1) _ hd hrest hene hedig, hexpval,
          scale10_natCast, hval]
      refine ⟨?_, hread, ?_⟩
      · intro c hc
        apply hws
        simp only [List.cons_append, List.mem_cons, List.mem_append] at hc
        rcases hc with h | h | h | h | h | h | h
        · left; rw [h]; exact hd
        · right; left; exact h
        · left; rw [h]; exact hrest r (List.mem_cons_self _ _)
        · left; exact hrest c (List.mem_cons_of_mem _ h)
        · right; right; left; exact h
        · right; right; right; exact h
        · left; exact hedig c h
      · rw [← hread]
        apply readStrNumericLiteral_of_digit d _ hd
        intro c2 rest2 h2
        have : c2 = '.' := by
          have := congrArg List.head? h2
          simpa using this.symm
        rw [this]
        decide

/-- `Number` of the text `toString` gives for an integer is the integer. -/
theorem Number_toString_ofInt (fractionToString : ℚ → String) (z : Int) :
    Number (JSNum.toString fractionToString (JSNum.ofInt z)) = JSNum.ofInt z := by
  by_cases hz : z = 0
  · subst hz
    have : JSNum.toString fractionToString (JSNum.ofInt 0) = "0" := by
      simp [JSNum.toString, JSNum.ofInt]
    rw [this]
    decide
  · have hq : ((z : Int) : ℚ) ≠ 0 := by exact_mod_cast hz
    have habs : |((z : Int) : ℚ)| = ((z.natAbs : Nat) : ℚ) := by
      rw [Nat.cast_natAbs, Int.cast_abs]
    have hn : z.natAbs ≠ 0 := by simpa using hz
    have hfloor : ⌊|((z : Int) : ℚ)|⌋₊ = z.natAbs := by
      rw [habs, Nat.floor_natCast]
    obtain ⟨hws, hread, hlit⟩ := read_integer_text z.natAbs hn
    have htext : JSNum.toString fractionToString (JSNum.ofInt z) =
        String.mk ((if ((z : Int) : ℚ) < 0 then ['-'] else []) ++
          (if z.natAbs < 10 ^ 21 then Nat.toDigits 10 z.natAbs
           else exponentialDigits ((z.natAbs : Nat) : ℚ))) := by
      simp only [JSNum.toString, JSNum.ofInt, hq, if_false, habs, Nat.floor_natCast, if_true]
    rw [htext]
    unfold Number
    by_cases hneg : ((z : Int) : ℚ) < 0
    · simp only [hneg, if_true, List.singleton_append]
      rw [trimStrWhiteSpace_of_no_whitespace]
      · have hm : readStrNumericLiteral ('-' :: (if z.natAbs < 10 ^ 21 then
            Nat.toDigits 10 z.natAbs else exponentialDigits ((z.natAbs : Nat) : ℚ))) =
            JSNum.neg (readUnsignedDecimal (if z.natAbs < 10 ^ 21 then
            Nat.toDigits 10 z.natAbs else exponentialDigits ((z.natAbs : Nat) : ℚ))) := rfl
        rw [hm, hread]
        have hzneg : z < 0 := by exact_mod_cast hneg
        show JSNum.fin (-((z.natAbs : Nat) : ℚ)) = JSNum.fin ((z : Int) : ℚ)
        congr 1
        rw [Nat.cast_natAbs, abs_of_neg hzneg, Int.cast_neg, neg_neg]
      · intro c hc
        rcases List.mem_cons.mp hc with h | h
        · rw [h]; decide
        · exact hws c h
    · simp only [hneg, if_false, List.nil_append]
      rw [trimStrWhiteSpace_of_no_whitespace _ hws, hlit]
      have hzpos : 0 ≤ z := by
        have : ¬ (z < 0) := by exact_mod_cast hneg
        omega
      show JSNum.fin ((z.natAbs : Nat) : ℚ) = JSNum.fin ((z : Int) : ℚ)
      congr 1
      rw [Nat.cast_natAbs, abs_of_nonneg hzpos]

/-! ## Loading the marks and saving them unchanged -/

theorem foldl_marks_of_not_mem (toStr : JSNum → String) (l : List StudentResult)
    (f0 : Marks) (k : String) (h : ∀ r ∈ l, r.studentId ≠ k) :
    (l.foldl (fun existingMarks r => fun key =>
        if key = r.studentId then some (toStr r.score) else existingMarks key) f0) k = f0 k := by
  induction l generalizing f0 with
  | nil => rfl
  | cons x rest ih =>
    rw [List.foldl_cons, ih _ (fun r hr => h r (List.mem_cons_of_mem _ hr))]
    have := h x (List.mem_cons_self _ _)
    simp [Ne.symm this]

theorem foldl_marks_some (toStr : JSNum → String) (l : List StudentResult)
    (f0 : Marks) (k m : String)
    (h : (l.foldl (fun existingMarks r => fun key =>
        if key = r.studentId then some (toStr r.score) else existingMarks key) f0) k = some m) :
    f0 k = some m ∨ ∃ r ∈ l, r.studentId = k ∧ m = toStr r.score := by
  induction l generalizing f0 with
  | nil => exact Or.inl h
  | cons x rest ih =>
    rw [List.foldl_cons] at h
    rcases ih _ h with h1 | ⟨r, hr, hk, hm⟩
    · by_cases hx : k = x.studentId
      · right
        simp only [hx, if_true, Option.some.injEq] at h1
        exact ⟨x, List.mem_cons_self _ _, hx.symm, h1.symm⟩
      · left
        simpa [hx] using h1
    · exact Or.inr ⟨r, List.mem_cons_of_mem _ hr, hk, hm⟩

theorem foldl_marks_of_unique (toStr : JSNum → String) (l : List StudentResult)
    (f0 : Marks) (k v : String)
    (hall : ∀ r ∈ l, r.studentId = k → toStr r.score = v)
    (hex : ∃ r ∈ l, r.studentId = k) :
    (l.foldl (fun existingMarks r => fun key =>
        if key = r.studentId then some (toStr r.score) else existingMarks key) f0) k = some v := by
  induction l generalizing f0 with
  | nil =>
    obtain ⟨r, hr, _⟩ := hex
    cases hr
  | cons x rest ih =>
    rw [List.foldl_cons]
    by_cases hrest : ∃ r ∈ rest, r.studentId = k
    · exact ih _ (fun r hr => hall r (List.mem_cons_of_mem _ hr)) hrest
    · have hnone : ∀ r ∈ rest, r.studentId ≠ k := fun r hr hk => hrest ⟨r, hr, hk⟩
      rw [foldl_marks_of_not_mem toStr rest _ k hnone]
      obtain ⟨r, hr, hk⟩ := hex
      rcases List.mem_cons.mp hr with h | h
      · subst h
        simp [hk, hall r (List.mem_cons_self _ _) hk]
      · exact absurd hk (hnone r h)

/-- The assignments to the key `__proto__` set nothing: the object built is the one built
from the other results. -/
theorem foldl_marks_guarded (toStr : JSNum → String) (l : List StudentResult) (f0 : Marks) :
    l.foldl (fun existingMarks r => fun key =>
        if key = r.studentId ∧ r.studentId ≠ "__proto__" then some (toStr r.score)
        else existingMarks key) f0 =
      (l.filter (fun r => decide (r.studentId ≠ "__proto__"))).foldl
        (fun existingMarks r => fun key =>
          if key = r.studentId then some (toStr r.score) else existingMarks key) f0 := by
  induction l generalizing f0 with
  | nil => rfl
  | cons x rest ih =>
    rw [List.foldl_cons, ih]
    by_cases hx : x.studentId = "__proto__"
    · have hdrop : (x :: rest).filter (fun r => decide (r.studentId ≠ "__proto__")) =
          rest.filter (fun r => decide (r.studentId ≠ "__proto__")) := by
        rw [List.filter_cons]; simp [hx]
      rw [hdrop]
      congr 1
      funext key
      simp [hx]
    · have hkeep : (x :: rest).filter (fun r => decide (r.studentId ≠ "__proto__")) =
          x :: rest.filter (fun r => decide (r.studentId ≠ "__proto__")) := by
        rw [List.filter_cons]; simp [hx]
      rw [hkeep, List.foldl_cons]
      congr 1
      funext key
      simp [hx]

theorem isRelevantResult_iff (sel : Selection) (r : StudentResult) :
    isRelevantResult sel r = true ↔
      r.level = sel.selectedLevel ∧ r.className = sel.selectedClass ∧
      r.subject = sel.selectedSubject ∧ r.term = sel.selectedTerm ∧
      r.year = sel.selectedYear := by
  simp [isRelevantResult, and_assoc]

theorem existingMarks_eq (fractionToString : ℚ → String) (sel : Selection)
    (results : List StudentResult) :
    existingMarks fractionToString sel results =
      ((results.filter (isRelevantResult sel)).filter
          (fun r => decide (r.studentId ≠ "__proto__"))).foldl
        (fun existingMarks r => fun key =>
          if key = r.studentId then some (r.score.toString fractionToString)
          else existingMarks key) (fun _ => none) := by
  unfold existingMarks
  exact foldl_marks_guarded (fun x => x.toString fractionToString) _ _

theorem existingMarks_some (fractionToString : ℚ → String) (sel : Selection)
    (results : List StudentResult) (k m : String)
    (h : existingMarks fractionToString sel results k = some m) :
    ∃ r ∈ results, isRelevantResult sel r = true ∧ r.studentId = k ∧
      m = r.score.toString fractionToString := by
  rw [existingMarks_eq] at h
  rcases foldl_marks_some (fun x => x.toString fractionToString) _ _ k m h with h1 | h1
  · cases h1
  · obtain ⟨r, hr, hk, hm⟩ := h1
    rw [List.mem_filter, List.mem_filter] at hr
    exact ⟨r, hr.1.1, hr.1.2, hk, hm⟩

/-- Over a collection with integer scores and no two results under one identity key, a
roster student for whom `marks[student.studentId]`, read from the marks the prefill built,
is an own entry or `undefined`, makes the loop push nothing. -/
theorem bulkSaveStep_existingMarks (fractionToString : ℚ → String) (sel : Selection)
    (results : List StudentResult) (z : StudentResult → Int)
    (hint : ∀ r ∈ results, r.score = JSNum.ofInt (z r))
    (huniq : (results.map identityKey).Nodup) (s : Student)
    (hp : existingMarks fractionToString sel results s.studentId = none →
      objectPrototypeMember? s.studentId = none) :
    bulkSaveStep sel (existingMarks fractionToString sel results) results s = [] := by
  cases hm : existingMarks fractionToString sel results s.studentId with
  | none => exact bulkSaveStep_of_blank sel _ results s (Or.inr ⟨hm, hp hm⟩)
  | some m =>
    by_cases hne : m = ""
    · exact bulkSaveStep_of_blank sel _ results s (Or.inl (by rw [hm, hne]))
    · obtain ⟨r, hr, hrel, hid, hmr⟩ := existingMarks_some _ _ _ _ _ hm
      have hrel2 := (isRelevantResult_iff sel r).mp hrel
      have hmatch : isExistingResult sel s r = true :=
        (isExistingResult_iff sel s r).mpr ⟨hid, hrel2.2.2.1, hrel2.2.2.2.1, hrel2.2.2.2.2⟩
      rw [bulkSaveStep_of_mark sel (existingMarks fractionToString sel results) results s m
        hm hne]
      cases hf : results.find? (isExistingResult sel s) with
      | none =>
        have := List.find?_eq_none.mp hf r hr
        rw [hmatch] at this
        exact absurd rfl this
      | some r2 =>
        have hr2 : r2 ∈ results := List.mem_of_find?_eq_some hf
        have hm2 : isExistingResult sel s r2 = true := List.find?_some hf
        have hkey : identityKey r2 = identityKey r := by
          rw [(isExistingResult_iff_key sel s r2).mp hm2,
            (isExistingResult_iff_key sel s r).mp hmatch]
        have heq : r2 = r := List.inj_on_of_nodup_map huniq hr2 hr hkey
        have hnum : Number m = r2.score := by
          rw [heq, hmr, hint r hr, Number_toString_ofInt]
        have hscore : r2.score.strictNe (Number m) = false := by
          rw [hnum, heq, hint r hr]
          simp [JSNum.strictNe, JSNum.strictEq, JSNum.ofInt]
        simp [hscore]

/-- C27, and the input at which the code departs from it. Over a collection with integer
scores and no two results under one identity key, the marks the prefill builds hold, for
each result of the selected level, class, subject, term and year whose studentId is not
`__proto__`, the text of its score under its studentId, and nothing else; and a bulk save of
these marks, unchanged, pushes no call for a roster in which no student without an entry
in them has a `studentId` naming a member of `Object.prototype`. But over the empty
collection the prefill builds the marks `{}`, and for the roster of the one student of
`studentId` `constructor` the bulk save of these marks pushes the CREATE of a result of
score `NaN`. -/
theorem C27_load_then_save_except_prototype_names (fractionToString : ℚ → String)
    (sel : Selection) (classStudents : List Student) (results : List StudentResult)
    (z : StudentResult → Int)
    (hint : ∀ r ∈ results, r.score = JSNum.ofInt (z r))
    (huniq : (results.map identityKey).Nodup) :
    ((∀ s ∈ classStudents, existingMarks fractionToString sel results s.studentId = none →
        objectPrototypeMember? s.studentId = none) →
      handleBulkSaveOps sel classStudents (existingMarks fractionToString sel results) results
        = [])
    ∧ (∀ r ∈ results, isRelevantResult sel r = true → r.studentId ≠ "__proto__" →
        existingMarks fractionToString sel results r.studentId =
          some (r.score.toString fractionToString))
    ∧ (∀ k m, existingMarks fractionToString sel results k = some m →
        ∃ r ∈ results, isRelevantResult sel r = true ∧ r.studentId = k ∧
          m = r.score.toString fractionToString)
    ∧ (∀ k, existingMarks fractionToString exampleSel [] k = none)
    ∧ handleBulkSaveOps exampleSel [studentConstructor]
        (existingMarks fractionToString exampleSel []) [] =
      [Op.submit { studentName := "Con", studentId := "constructor", level := "ZJC",
                   className := "1A", subject := "Mathematics", term := "Term 1",
                   year := "2025", score := JSNum.nan, grade := "F" }] := by
  have hsame : ∀ r ∈ results, ∀ r2 ∈ results, isRelevantResult sel r = true →
      isRelevantResult sel r2 = true → r2.studentId = r.studentId → r2 = r := by
    intro r hr r2 hr2 h1 h2 hid
    rw [isRelevantResult_iff] at h1 h2
    apply List.inj_on_of_nodup_map huniq hr2 hr
    simp only [identityKey, hid, h1.2.2.1, h1.2.2.2.1, h1.2.2.2.2, h2.2.2.1, h2.2.2.2.1,
      h2.2.2.2.2]
  have hcreate : handleBulkSaveOps exampleSel [studentConstructor] emptyMarks [] =
      [Op.submit { studentName := "Con", studentId := "constructor", level := "ZJC",
                   className := "1A", subject := "Mathematics", term := "Term 1",
                   year := "2025", score := JSNum.nan, grade := "F" }] := by decide
  refine ⟨?_, ?_, existingMarks_some fractionToString sel results, fun _ => rfl, hcreate⟩
  · intro hp
    rw [handleBulkSaveOps_eq_flatMap, List.flatMap_eq_nil_iff]
    intro s hs
    exact bulkSaveStep_existingMarks fractionToString sel results z hint huniq s (hp s hs)
  · intro r hr hrel hproto
    rw [existingMarks_eq]
    apply foldl_marks_of_unique (fun x => x.toString fractionToString)
    · intro r2 hr2 hid
      rw [List.mem_filter, List.mem_filter] at hr2
      rw [hsame r hr r2 hr2.1.1 hrel hr2.1.2 hid]
    · exact ⟨r, List.mem_filter.mpr ⟨List.mem_filter.mpr ⟨hr, hrel⟩, by simpa using hproto⟩, rfl⟩

/-- Witness of C27 where it holds: the collection of student A's result of score 70 and a
result of another class; the prefill gives the marks `{ "ST-001": "70" }` and saving them
for the roster A, B pushes nothing. -/
theorem C27_load_then_save_except_prototype_names_witness :
    existingMarks (fun _ => "") exampleSel [resultA 70, resultOther] "ST-001" = some "70"
    ∧ existingMarks (fun _ => "") exampleSel [resultA 70, resultOther] "ST-002" = none
    ∧ handleBulkSaveOps exampleSel [studentA, studentB]
        (existingMarks (fun _ => "") exampleSel [resultA 70, resultOther])
        [resultA 70, resultOther] = [] :=
  ⟨by decide!, by decide!,
   (C27_load_then_save_except_prototype_names (fun _ => "") exampleSel [studentA, studentB]
      [resultA 70, resultOther] (fun r => if r.id = "r1" then 70 else 40)
      (by decide) (by decide)).1 (by decide)⟩

end Portal
